import Mathlib

/-!
# Nonblocking echo server (`src/nonblocking/lib.c`, `src/nonblocking/server.c`)

A shallow embedding of the connection coroutine `handle_connection` and of the
reactor loop of `main`, followed by theorems about them.

Conventions of the embedding

* A byte (`char`) is a natural number; the code never does arithmetic on
  bytes, it only compares them with NUL (0) and with linefeed (10).
* `size_t` values are natural numbers reduced modulo `2 ^ 64`, `ssize_t`
  values are integers obtained from them by `to_ssize`.
* The array `buf` is a map from index to byte.  Only the indices below
  `BUF_SIZE` exist in C.
* The outcome of every system call is an input of the model, and every call
  that is made is recorded in order, so that "no I/O was attempted" and "these
  bytes were offered to write" are statements about the record.
* `assert` aborts the process (the sources are built without `NDEBUG`), and
  `handle_error` ends it with exit status 1.
-/

namespace Echo

/-! ## Constants -/

/-- A byte of the buffer. -/
abbrev Byte := Nat

/-- The terminating NUL of a C string. -/
def NUL : Byte := 0

/-- The linefeed character that ends a message. -/
def LF : Byte := 10

/-- Value of `sizeof(ctx->buf)`, from `char buf[65536]`. -/
def BUF_SIZE : Nat := 65536

/-- Number of values of a 64-bit `size_t`. -/
def SIZE_MOD : Nat := 18446744073709551616

/-- Linux value of `POLLIN` in `poll.h`. -/
def POLLIN : Nat := 1

/-- Linux value of `POLLOUT` in `poll.h`. -/
def POLLOUT : Nat := 4

/-- Linux value of `POLLERR` in `poll.h`. -/
def POLLERR : Nat := 8

/-- Linux value of `POLLHUP` in `poll.h`. -/
def POLLHUP : Nat := 16

/-- Linux value of `EAGAIN` (the same number as `EWOULDBLOCK`). -/
def EAGAIN : Nat := 11

/-- Linux value of `ECONNRESET`. -/
def ECONNRESET : Nat := 104

/-! ## Machine arithmetic -/

/-- Subtraction of two `size_t` values, wrapping modulo `2 ^ 64`. -/
def size_sub (a b : Nat) : Nat := (a % SIZE_MOD + SIZE_MOD - b % SIZE_MOD) % SIZE_MOD

/-- Addition of a byte count to a `size_t`, wrapping modulo `2 ^ 64`. -/
def size_add (a b : Nat) : Nat := (a + b) % SIZE_MOD

/-- Conversion of a `size_t` value to `ssize_t` (two's complement). -/
def to_ssize (n : Nat) : Int :=
  if n % SIZE_MOD < 9223372036854775808 then ((n % SIZE_MOD : Nat) : Int)
  else ((n % SIZE_MOD : Nat) : Int) - (SIZE_MOD : Int)

/-! ## Buffer primitives -/

/-- Scan of `fuel` cells starting at index `i` for the byte `c`: the index of
the first occurrence. -/
def scan (buf : Nat → Byte) (c : Byte) : Nat → Nat → Option Nat
  | 0, _ => none
  | fuel + 1, i => if buf i = c then some i else scan buf c fuel (i + 1)

/-- The call `memchr(buf, c, n)`: offset of the first `c` among the first `n`
bytes, `none` for a NULL result. -/
def memchr (buf : Nat → Byte) (c : Byte) (n : Nat) : Option Nat := scan buf c n 0

/-- The call `strlen(buf)` on the array `buf`: offset of the first NUL.  The
scan ends with the array (a `buf` without NUL has no defined `strlen`; the
value is then `BUF_SIZE`). -/
def strlen (buf : Nat → Byte) : Nat := (scan buf NUL BUF_SIZE 0).getD BUF_SIZE

/-- Effect of a successful `read` of the bytes `d` into `buf + off`. -/
def store (buf : Nat → Byte) (off : Nat) (d : List Byte) : Nat → Byte :=
  fun i => if off ≤ i then d[i - off]?.getD (buf i) else buf i

/-- The `count` bytes at `buf + off`, as offered to `write`. -/
def slice (buf : Nat → Byte) (off count : Nat) : List Byte :=
  (List.range count).map (fun j => buf (off + j))

/-! ## The connection (`lib.c`) -/

/-- The enumeration `enum state`. -/
inductive state where
  | READING
  | WRITING
  | DONE
  deriving DecidableEq, Repr

/-- Position of a state in the declaration order of `enum state`. -/
def state.rank : state → Nat
  | state.READING => 0
  | state.WRITING => 1
  | state.DONE => 2

/-- The record `struct context`. -/
structure context where
  fd : Int
  state : state
  buf : Nat → Byte
  bytes : Nat
  buf_end : Option Nat

/-- A system call made by the program, with its arguments. -/
inductive Sys where
  /-- The call `read(fd, buf + offset, count)`. -/
  | read (fd : Int) (offset count : Nat)
  /-- The call `write(fd, buf + offset, count)`, with the bytes it offers. -/
  | write (fd : Int) (offset count : Nat) (data : List Byte)
  /-- The call `accept(fd, NULL, NULL)`. -/
  | accept (fd : Int)
  /-- The call `close(fd)`. -/
  | close (fd : Int)
  /-- The call `read(signal_fd, &siginfo, sizeof(siginfo))`. -/
  | read_siginfo (fd : Int)
  deriving DecidableEq, Repr

/-- Outcome of a `read` on a socket: failure with an `errno`, or the bytes
received (the return value is their number). -/
inductive ReadOutcome where
  | fail (errno : Nat)
  | data (d : List Byte)
  deriving DecidableEq, Repr

/-- Outcome of a `write` on a socket: failure with an `errno`, or the number of
bytes accepted. -/
inductive WriteOutcome where
  | fail (errno : Nat)
  | accepted (n : Nat)
  deriving DecidableEq, Repr

/-- What a call of `handle_connection` leaves behind: the return value, the
context, the two out-parameters and the system calls made, in order. -/
structure HandleResult where
  ret : Int
  ctx : context
  events_out : Nat
  connection_completed : Int
  calls : List Sys

/-- The function `create_connection` when `malloc` succeeds: the new context
(`*events_out` is set to `POLLIN`, see `create_connection_events`). -/
def create_connection (socket_fd : Int) : context :=
  { fd := socket_fd
    state := state.READING
    buf := fun _ => NUL
    bytes := 0
    buf_end := none }

/-- The value `create_connection` stores in `*events_out`. -/
def create_connection_events : Nat := POLLIN

/-- The code from `case DONE:` to the end of `handle_connection`. -/
def case_DONE (ctx : context) (calls : List Sys) : HandleResult :=
  { ret := 0, ctx := ctx, events_out := 0, connection_completed := 1, calls := calls }

/-- The code from `case WRITING:` to the end of `handle_connection`.
`events_out` and `connection_completed` are the current values of the
out-parameters, `calls` the system calls made so far. -/
def case_WRITING (ctx : context) (events_out : Nat) (connection_completed : Int)
    (calls : List Sys) (wr : WriteOutcome) : HandleResult :=
  -- max_bytes = strlen(ctx->buf) - ctx->bytes, computed in size_t
  let count := size_sub (strlen ctx.buf) ctx.bytes
  let max_bytes := to_ssize count
  -- write(ctx->fd, ctx->buf + ctx->bytes, max_bytes): max_bytes is converted
  -- back to the size_t value count
  let calls1 := calls ++ [Sys.write ctx.fd ctx.bytes count (slice ctx.buf ctx.bytes count)]
  match wr with
  | WriteOutcome.fail _ =>
    { ret := -1, ctx := ctx, events_out := events_out,
      connection_completed := connection_completed, calls := calls1 }
  | WriteOutcome.accepted n =>
    let ctx1 := { ctx with bytes := size_add ctx.bytes n }
    if (n : Int) = max_bytes then
      case_DONE { ctx1 with state := state.DONE } calls1
    else
      { ret := 0, ctx := ctx1, events_out := POLLOUT, connection_completed := 0,
        calls := calls1 }

/-- The function `handle_connection` on a non-NULL context.  `events_out` and
`connection_completed` are the values the out-parameters hold on entry, `rd`
and `wr` the outcomes of the `read` and of the `write` if they are made. -/
def handle_connection (ctx : context) (revents : Nat) (events_out : Nat)
    (connection_completed : Int) (rd : ReadOutcome) (wr : WriteOutcome) : HandleResult :=
  if revents &&& POLLHUP ≠ 0 then
    { ret := 0, ctx := ctx, events_out := events_out, connection_completed := 1, calls := [] }
  else
    match ctx.state with
    | state.READING =>
      -- max_bytes = sizeof(ctx->buf) - ctx->bytes - 1, computed in size_t
      let count := size_sub (size_sub BUF_SIZE ctx.bytes) 1
      let calls1 := [Sys.read ctx.fd ctx.bytes count]
      match rd with
      | ReadOutcome.fail _ =>
        { ret := -1, ctx := ctx, events_out := events_out,
          connection_completed := connection_completed, calls := calls1 }
      | ReadOutcome.data d =>
        let bytes1 := size_add ctx.bytes d.length
        let buf1 := store ctx.buf ctx.bytes d
        let buf_end := memchr buf1 LF bytes1
        match buf_end with
        | some e =>
          case_WRITING
            { ctx with buf := buf1, buf_end := some e, state := state.WRITING, bytes := 0 }
            POLLOUT connection_completed calls1 wr
        | none =>
          { ret := 0, ctx := { ctx with buf := buf1, bytes := bytes1, buf_end := none },
            events_out := POLLIN, connection_completed := 0, calls := calls1 }
    | state.WRITING => case_WRITING ctx events_out connection_completed [] wr
    | state.DONE => case_DONE ctx []

/-- The function `destroy_connection` on a non-NULL context: the system calls
it makes (the memory is then freed). -/
def destroy_connection (ctx : context) : List Sys := [Sys.close ctx.fd]

/-! ## The reactor (`server.c`) -/

/-- Index of the listening socket in `pollfds`. -/
def SERVER_FD : Nat := 0

/-- Index of the signal descriptor in `pollfds`. -/
def SIGNAL_FD : Nat := 1

/-- Index in `pollfds` of the entry of slot 0. -/
def FIRST_CONNECTION : Nat := 2

/-- Capacity of the connection table. -/
def MAX_CONNECTIONS : Nat := 10

/-- Number of entries of `pollfds`. -/
def POLLFDS : Nat := FIRST_CONNECTION + MAX_CONNECTIONS

/-- Value of `sizeof(struct signalfd_siginfo)` on Linux. -/
def SIGINFO_SIZE : Int := 128

/-- The record `struct pollfd`. -/
structure pollfd where
  fd : Int
  events : Nat
  revents : Nat
  deriving DecidableEq, Repr

/-- The calls of `handle_error` in `main`, named after the message passed.
Each prints the message and ends the process with `exit(1)`. -/
inductive Fatal where
  | poll
  | server_failure
  | accept
  | fcntl
  | create_connection
  | signal_fd_failure
  | read_siginfo
  | socket_failure
  | handle_connection
  deriving DecidableEq, Repr

/-- The assertions that can fail while `main` runs. -/
inductive Assertion where
  /-- Line 108 of server.c: `assert(total_connections <= MAX_CONNECTIONS)`. -/
  | total_le_max
  /-- Line 117 of server.c: `assert(pollfds[SERVER_FD].fd > 0)`. -/
  | server_fd_positive
  /-- Line 126 of lib.c: `assert(ctx)` in `handle_connection`. -/
  | handle_ctx
  /-- Line 177 of lib.c: `assert(ctx)` in `destroy_connection`. -/
  | destroy_ctx
  /-- Line 159 of server.c: `assert(pollfds[SERVER_FD].fd < 0)`. -/
  | server_fd_negative
  /-- Line 163 of server.c: `assert(total_connections >= 0)`. -/
  | total_nonneg
  deriving DecidableEq, Repr

/-- The ways an iteration ends the process before the loop is left. -/
inductive Stop where
  | fatal (e : Fatal)
  | abort (a : Assertion)
  deriving DecidableEq, Repr

/-- The variables of `main` that live across iterations, and the record of the
system calls made so far. -/
structure Reactor where
  server_fd : Int
  signal_fd : Int
  pollfds : Nat → pollfd
  connections : Nat → Option context
  total_connections : Int
  calls : List Sys

/-- What the environment does during one iteration of the loop: the return
value of `poll` and the readiness it reports per entry, the results of
`accept`, `fcntl` and `malloc`, the outcome of the `read` and `write` of each
slot, and the result of reading the signal descriptor. -/
structure Wake where
  poll_ret : Int
  ready : Nat → Nat
  accept_ret : Int
  accept_errno : Nat
  fcntl_ret : Int
  malloc_ok : Bool
  rd : Nat → ReadOutcome
  wr : Nat → WriteOutcome
  siginfo_ret : Int
  ssi_signo : Nat

/-- How one iteration of `while (1)` ends. -/
inductive Outcome where
  /-- The loop goes on to the next `poll`. -/
  | running (s : Reactor)
  /-- The loop was left by `break`, the cleanup ran and `main` returned
  `status`; `signo` is the signal number printed. -/
  | exited (status : Int) (signo : Nat) (s : Reactor)
  /-- The process ended in `handle_error` with exit status 1. -/
  | fatal (e : Fatal)
  /-- The process was aborted by a failed assertion. -/
  | aborted (a : Assertion)

/-- The state of `main` when the loop is entered (lines 58 to 74), given the
descriptors returned by `create_server` and `signalfd`. -/
def main_init (server_fd signal_fd : Int) : Reactor :=
  { server_fd := server_fd
    signal_fd := signal_fd
    pollfds := fun i =>
      if i = SERVER_FD then { fd := server_fd, events := POLLIN, revents := 0 }
      else if i = SIGNAL_FD then { fd := signal_fd, events := POLLIN, revents := 0 }
      else { fd := -1, events := 0, revents := 0 }
    connections := fun _ => none
    total_connections := 0
    calls := [] }

/-- Lines 77 to 80 when `poll` succeeds: every `revents` is cleared and `poll`
fills it in.  An entry whose `fd` is negative is ignored by `poll` and keeps
`revents = 0` (poll(2)); the others get what the kernel reports. -/
def poll (pollfds : Nat → pollfd) (ready : Nat → Nat) : Nat → pollfd :=
  fun i =>
    if i < POLLFDS then
      { pollfds i with revents := if (pollfds i).fd < 0 then 0 else ready i }
    else pollfds i

/-- The loop of lines 98 to 111 over the slot indices still to visit: the new
socket goes into the first free slot. -/
def install (socket_fd : Int) (malloc_ok : Bool) : List Nat → Reactor → Except Stop Reactor
  | [], s => Except.ok s
  | i :: rest, s =>
    match s.connections i with
    | some _ => install socket_fd malloc_ok rest s
    | none =>
      if malloc_ok then
        let s1 : Reactor :=
          { s with
            connections := Function.update s.connections i (some (create_connection socket_fd))
            pollfds := Function.update s.pollfds (FIRST_CONNECTION + i)
              { s.pollfds (FIRST_CONNECTION + i) with
                fd := socket_fd, events := create_connection_events }
            total_connections := s.total_connections + 1 }
        if s1.total_connections ≤ MAX_CONNECTIONS then Except.ok s1
        else Except.error (Stop.abort Assertion.total_le_max)
      else Except.error (Stop.fatal Fatal.create_connection)

/-- Lines 85 to 120: service of the listening socket. -/
def accept_connection (s : Reactor) (w : Wake) : Except Stop Reactor :=
  let revents := (s.pollfds 0).revents
  if revents &&& POLLERR ≠ 0 then Except.error (Stop.fatal Fatal.server_failure)
  else if revents &&& POLLIN ≠ 0 then
    let s1 : Reactor := { s with calls := s.calls ++ [Sys.accept s.server_fd] }
    if w.accept_ret < 0 then Except.error (Stop.fatal Fatal.accept)
    else if w.fcntl_ret ≠ 0 then Except.error (Stop.fatal Fatal.fcntl)
    else
      match install w.accept_ret w.malloc_ok (List.range MAX_CONNECTIONS) s1 with
      | Except.error e => Except.error e
      | Except.ok s2 =>
        if s2.total_connections = MAX_CONNECTIONS then
          if (s2.pollfds SERVER_FD).fd > 0 then
            Except.ok { s2 with
              pollfds := Function.update s2.pollfds SERVER_FD
                { s2.pollfds SERVER_FD with fd := -(s2.pollfds SERVER_FD).fd } }
          else Except.error (Stop.abort Assertion.server_fd_positive)
        else Except.ok s2
  else Except.ok s

/-- Lines 154 to 164: release of slot `i`, whose context is `ctx`. -/
def release (s : Reactor) (i : Nat) (ctx : context) : Except Stop Reactor :=
  let s1 : Reactor :=
    { s with
      calls := s.calls ++ destroy_connection ctx
      connections := Function.update s.connections i none
      pollfds := Function.update s.pollfds (i + FIRST_CONNECTION)
        { s.pollfds (i + FIRST_CONNECTION) with fd := -1 } }
  let reenable : Except Stop Reactor :=
    if s1.total_connections = MAX_CONNECTIONS then
      if (s1.pollfds SERVER_FD).fd < 0 then
        Except.ok { s1 with
          pollfds := Function.update s1.pollfds SERVER_FD
            { s1.pollfds SERVER_FD with fd := -(s1.pollfds SERVER_FD).fd } }
      else Except.error (Stop.abort Assertion.server_fd_negative)
    else Except.ok s1
  match reenable with
  | Except.error e => Except.error e
  | Except.ok s2 =>
    let s3 : Reactor := { s2 with total_connections := s2.total_connections - 1 }
    if 0 ≤ s3.total_connections then Except.ok s3
    else Except.error (Stop.abort Assertion.total_nonneg)

/-- Lines 135 to 165: the body of the loop over the slots, for slot `i`. -/
def handle_slot (w : Wake) (s : Reactor) (i : Nat) : Except Stop Reactor :=
  let revents := (s.pollfds (i + FIRST_CONNECTION)).revents
  if revents &&& POLLERR ≠ 0 then Except.error (Stop.fatal Fatal.socket_failure)
  else if revents ≠ 0 then
    match s.connections i with
    | none =>
      -- NULL context: with POLLHUP handle_connection returns before its
      -- assertion and destroy_connection fails on its own
      if revents &&& POLLHUP ≠ 0 then Except.error (Stop.abort Assertion.destroy_ctx)
      else Except.error (Stop.abort Assertion.handle_ctx)
    | some connection =>
      let r := handle_connection connection revents 0 0 (w.rd i) (w.wr i)
      if r.ret ≠ 0 then Except.error (Stop.fatal Fatal.handle_connection)
      else
        let s1 : Reactor :=
          { s with
            calls := s.calls ++ r.calls
            connections := Function.update s.connections i (some r.ctx)
            pollfds := Function.update s.pollfds (i + FIRST_CONNECTION)
              { s.pollfds (i + FIRST_CONNECTION) with events := r.events_out } }
        if r.connection_completed ≠ 0 then release s1 i r.ctx
        else Except.ok s1
  else Except.ok s

/-- The loop of lines 134 to 166 over the slot indices still to visit. -/
def handle_slots (w : Wake) : List Nat → Reactor → Except Stop Reactor
  | [], s => Except.ok s
  | i :: rest, s =>
    match handle_slot w s i with
    | Except.error e => Except.error e
    | Except.ok s1 => handle_slots w rest s1

/-- The loop of lines 173 to 177 over the slot indices still to visit: the
system calls made by the calls of `destroy_connection`. -/
def destroy_all (connections : Nat → Option context) : List Nat → List Sys
  | [] => []
  | i :: rest =>
    match connections i with
    | some ctx => destroy_connection ctx ++ destroy_all connections rest
    | none => destroy_all connections rest

/-- Lines 170 to 178: the cleanup after the loop. -/
def drain (s : Reactor) : Reactor :=
  { s with
    calls := s.calls ++ [Sys.close s.signal_fd, Sys.close s.server_fd]
      ++ destroy_all s.connections (List.range MAX_CONNECTIONS) }

/-- The end of the process in a `Stop`. -/
def Stop.outcome : Stop → Outcome
  | Stop.fatal e => Outcome.fatal e
  | Stop.abort a => Outcome.aborted a

/-- One iteration of the loop `while (1)` of `main` (lines 77 to 166), and the
cleanup and `return 0` when the iteration leaves the loop. -/
def iteration (s : Reactor) (w : Wake) : Outcome :=
  if w.poll_ret < 0 then Outcome.fatal Fatal.poll
  else
    let s0 : Reactor := { s with pollfds := poll s.pollfds w.ready }
    match accept_connection s0 w with
    | Except.error e => e.outcome
    | Except.ok s1 =>
      let revents := (s1.pollfds 1).revents
      if revents &&& POLLERR ≠ 0 then Outcome.fatal Fatal.signal_fd_failure
      else if revents &&& POLLIN ≠ 0 then
        let s2 : Reactor := { s1 with calls := s1.calls ++ [Sys.read_siginfo s1.signal_fd] }
        if w.siginfo_ret ≠ SIGINFO_SIZE then Outcome.fatal Fatal.read_siginfo
        else Outcome.exited 0 w.ssi_signo (drain s2)
      else
        match handle_slots w (List.range MAX_CONNECTIONS) s1 with
        | Except.error e => e.outcome
        | Except.ok s3 => Outcome.running s3

/-- The loop of `main` run over the successive wakes `ws`, from state `s`. -/
def run (s : Reactor) : List Wake → Outcome
  | [] => Outcome.running s
  | w :: ws =>
    match iteration s w with
    | Outcome.running s1 => run s1 ws
    | o => o

/-- Number of non-NULL entries of `connections[]`. -/
def occupied (connections : Nat → Option context) : Nat :=
  (List.range MAX_CONNECTIONS).countP (fun i => (connections i).isSome)

/-! ## Driving one connection -/

/-- The buffer of a connection that has received the bytes `q` since
`create_connection`: `q`, then the NULs left by the `memset`. -/
def filled (q : List Byte) : Nat → Byte := fun i => q[i]?.getD NUL

/-- The context of a connection on `fd` that has received `q` and is still
reading. -/
def reading_ctx (fd : Int) (q : List Byte) : context :=
  { fd := fd, state := state.READING, buf := filled q, bytes := q.length, buf_end := none }

/-- The array `buf` holds the C string `content`: its bytes, none of them NUL,
followed by a NUL that is still inside the array. -/
def HoldsString (buf : Nat → Byte) (content : List Byte) : Prop :=
  content.length < BUF_SIZE ∧ NUL ∉ content ∧
    (∀ i, i < content.length → content[i]? = some (buf i)) ∧ buf content.length = NUL

/-- One readiness event of a connection: the mask reported by `poll` and the
outcomes of the `read` and of the `write` made while it is handled. -/
structure Readiness where
  revents : Nat
  rd : ReadOutcome
  wr : WriteOutcome

/-- The successive calls of `handle_connection` that the reactor makes for one
connection, one per readiness event: the out-parameters are cleared before each
call (lines 140 and 141 of server.c) and no call follows one that failed or
reported completion.  The list holds the result of each call. -/
def drive : context → List Readiness → List HandleResult
  | _, [] => []
  | ctx, e :: rest =>
    let r := handle_connection ctx e.revents 0 0 e.rd e.wr
    if r.ret ≠ 0 ∨ r.connection_completed ≠ 0 then [r] else r :: drive r.ctx rest

/-- The bytes offered to `write` by the calls of a record, in order. -/
def offered : List Sys → List Byte
  | [] => []
  | Sys.write _ _ _ data :: rest => data ++ offered rest
  | _ :: rest => offered rest

/-- The bytes the transport took, when the `j`-th call of a run offered
`offered calls` and the `j`-th write result was `r`: the first `r` bytes of
each offer, in order. -/
def accepted_bytes : List HandleResult → List Nat → List Byte
  | h :: hs, r :: rs => (offered h.calls).take r ++ accepted_bytes hs rs
  | _, _ => []

/-- The received bytes up to and including the first linefeed. -/
def first_line (d : List Byte) : List Byte := d.takeWhile (fun b => b ≠ LF) ++ [LF]

/-- The events of a connection that receives the chunks of `evs`, one per
call and each with its readiness mask, over a transport that accepts `n` bytes
when it is written to. -/
def chunk_events (n : Nat) (evs : List (Nat × List Byte)) : List Readiness :=
  evs.map (fun e => { revents := e.1, rd := ReadOutcome.data e.2, wr := WriteOutcome.accepted n })

/-- The events of a connection whose successive writes accept `rs` bytes. -/
def write_events (revents : Nat) (rd : ReadOutcome) (rs : List Nat) : List Readiness :=
  rs.map (fun r => { revents := revents, rd := rd, wr := WriteOutcome.accepted r })

/-- Every write result is at most the number of bytes still unwritten when it
is returned, `remaining` being that number before the first write. -/
def admissible : Nat → List Nat → Bool
  | _, [] => true
  | remaining, r :: rest => decide (r ≤ remaining) && admissible (remaining - r) rest

/-- Partial-write resumption as the specification words it, for a connection in
Writing whose buffer holds `content`: each call offers the bytes from the
cursor to the end of the content and advances the cursor by the write result;
a partial write stays in Writing and requests writability, with `completed`
false, a write that completes the remaining bytes moves to Done with
`completed` true and is the last call. -/
def spec_partial_writes (ctx : context) (content : List Byte) : List Nat → List HandleResult
  | [] => []
  | r :: rest =>
    let call := Sys.write ctx.fd ctx.bytes (content.length - ctx.bytes) (content.drop ctx.bytes)
    if r = content.length - ctx.bytes then
      [{ ret := 0, ctx := { ctx with bytes := ctx.bytes + r, state := state.DONE },
         events_out := 0, connection_completed := 1, calls := [call] }]
    else
      { ret := 0, ctx := { ctx with bytes := ctx.bytes + r }, events_out := POLLOUT,
        connection_completed := 0, calls := [call] } ::
        spec_partial_writes { ctx with bytes := ctx.bytes + r } content rest

/-- The read and the write of a call reported no more bytes than the call asked
them to transfer: `calls` are the system calls of the call, `rd` and `wr` their
outcomes. -/
def within_request (calls : List Sys) (rd : ReadOutcome) (wr : WriteOutcome) : Bool :=
  calls.all (fun c =>
    match c with
    | Sys.read _ _ count =>
      (match rd with
        | ReadOutcome.data d => decide (d.length ≤ count)
        | ReadOutcome.fail _ => true)
    | Sys.write _ _ count _ =>
      (match wr with
        | WriteOutcome.accepted n => decide (n ≤ count)
        | WriteOutcome.fail _ => true)
    | _ => true)

/-- The context after the calls of `handle_connection` for the events `evs`,
whatever each call returns. -/
def steps : context → List Readiness → context
  | c, [] => c
  | c, e :: rest => steps (handle_connection c e.revents 0 0 e.rd e.wr).ctx rest

/-- Every call made for the events `evs` had its read and write within what it
requested. -/
def honest : context → List Readiness → Bool
  | _, [] => true
  | c, e :: rest =>
    within_request (handle_connection c e.revents 0 0 e.rd e.wr).calls e.rd e.wr &&
      honest (handle_connection c e.revents 0 0 e.rd e.wr).ctx rest

/-- The cursor and the buffer of a connection are within bounds: the cursor is
at most 65535, the last byte of the buffer is NUL, while reading nothing but
NUL lies from the cursor on, and afterwards the cursor is at most the length
of the string in the buffer. -/
def CursorInv (c : context) : Prop :=
  c.bytes ≤ 65535 ∧ c.buf 65535 = NUL ∧
  (c.state = state.READING → ∀ i, c.bytes ≤ i → c.buf i = NUL) ∧
  (c.state ≠ state.READING → c.bytes ≤ strlen c.buf)

/-- A system call of `handle_connection` stays inside the buffer: a `read` is
requested at the cursor `bytes` with `sizeof(buf) - bytes - 1` bytes and ends
before the last byte of the array; a `write` starts at most at the length of
the string in `buf` and is requested with the rest of it, without underflow. -/
def call_in_bounds (bytes : Nat) (buf : Nat → Byte) : Sys → Prop
  | Sys.read _ off cnt => off = bytes ∧ cnt = BUF_SIZE - bytes - 1 ∧ off + cnt < BUF_SIZE
  | Sys.write _ off cnt _ => off ≤ strlen buf ∧ cnt = strlen buf - off ∧ off + cnt ≤ 65535
  | _ => True

/-! ## Invariants of the reactor -/

/-- The descriptor the registration of a slot is expected to hold: the socket
of its connection, and -1 for an empty slot. -/
def slot_fd : Option context → Int
  | none => -1
  | some c => c.fd

/-- The connection table, its counter and the registrations of the slots
agree. -/
def TableInv (s : Reactor) : Prop :=
  s.total_connections = (occupied s.connections : Int) ∧
  (∀ i, i < MAX_CONNECTIONS →
    (s.pollfds (FIRST_CONNECTION + i)).fd = slot_fd (s.connections i)) ∧
  (∀ i c, i < MAX_CONNECTIONS → s.connections i = some c → 0 ≤ c.fd)

/-- The entry of the listening socket holds the descriptor `sfd` returned by
`create_server`, negated exactly at capacity. -/
def ListenerInv (sfd : Int) (s : Reactor) : Prop :=
  s.server_fd = sfd ∧ s.total_connections ≤ MAX_CONNECTIONS ∧
  (s.pollfds SERVER_FD).fd = if s.total_connections = MAX_CONNECTIONS then -sfd else sfd

/-- The state after the socket `fd` went into the free slot `i` (lines 100 to
107). -/
def installed (s : Reactor) (fd : Int) (i : Nat) : Reactor :=
  { s with
    connections := Function.update s.connections i (some (create_connection fd))
    pollfds := Function.update s.pollfds (FIRST_CONNECTION + i)
      { s.pollfds (FIRST_CONNECTION + i) with fd := fd, events := create_connection_events }
    total_connections := s.total_connections + 1 }

/-- The state after `handle_connection` returned `r` for slot `i` and the
interest it asks for was stored (lines 146 to 149). -/
def handled (s : Reactor) (i : Nat) (r : HandleResult) : Reactor :=
  { s with
    calls := s.calls ++ r.calls
    connections := Function.update s.connections i (some r.ctx)
    pollfds := Function.update s.pollfds (i + FIRST_CONNECTION)
      { s.pollfds (i + FIRST_CONNECTION) with events := r.events_out } }

/-- The state with the entry of the listening socket negated (lines 118 and
160). -/
def listener_negated (s : Reactor) : Reactor :=
  { s with
    pollfds := Function.update s.pollfds SERVER_FD
      { s.pollfds SERVER_FD with fd := -(s.pollfds SERVER_FD).fd } }

/-- The state with the call of `accept` recorded (line 89). -/
def accept_called (s : Reactor) : Reactor :=
  { s with calls := s.calls ++ [Sys.accept s.server_fd] }

/-- The state after `poll` returned (lines 77 to 80). -/
def polled (s : Reactor) (w : Wake) : Reactor :=
  { s with pollfds := poll s.pollfds w.ready }

/-- The system calls the body of the slot loop makes for slot `i` in state `t`
when the loop goes on: those of `handle_connection`, then the `close` of the
release when the connection is reported completed. -/
def slot_calls (w : Wake) (t : Reactor) (i : Nat) : List Sys :=
  if (t.pollfds (i + FIRST_CONNECTION)).revents = 0 then []
  else
    match t.connections i with
    | none => []
    | some c =>
      (handle_connection c (t.pollfds (i + FIRST_CONNECTION)).revents 0 0 (w.rd i)
          (w.wr i)).calls ++
        (if (handle_connection c (t.pollfds (i + FIRST_CONNECTION)).revents 0 0 (w.rd i)
            (w.wr i)).connection_completed ≠ 0 then
          destroy_connection
            (handle_connection c (t.pollfds (i + FIRST_CONNECTION)).revents 0 0 (w.rd i)
              (w.wr i)).ctx
        else [])

/-- The state in which the loop is left: the signal descriptor was read (line
127). -/
def siginfo_read (t : Reactor) : Reactor :=
  { t with calls := t.calls ++ [Sys.read_siginfo t.signal_fd] }

/-- The socket returned by `accept` in the iteration made from state `s` under
the wake `w`, when `poll` succeeds, the listening socket is reported readable
without error and `accept` succeeds (lines 80 to 91); no socket otherwise. -/
def accepted_socket (s : Reactor) (w : Wake) : List Int :=
  if 0 ≤ w.poll_ret ∧ ((polled s w).pollfds 0).revents &&& POLLERR = 0 ∧
      ((polled s w).pollfds 0).revents &&& POLLIN ≠ 0 ∧ 0 ≤ w.accept_ret then
    [w.accept_ret]
  else []

/-- The sockets accepted while the loop runs from state `s` over the wakes
`ws`, in order. -/
def accepted_sockets : Reactor → List Wake → List Int
  | _, [] => []
  | s, w :: ws =>
    accepted_socket s w ++
      (match iteration s w with
        | Outcome.running s1 => accepted_sockets s1 ws
        | _ => [])

/-- Number of slots of the table that hold a connection on the socket `x`. -/
def held_count (connections : Nat → Option context) (x : Int) : Nat :=
  (List.range MAX_CONNECTIONS).countP
    (fun i => decide ((connections i).map context.fd = some x))

/-- Every `close` of `x` recorded so far and every slot that holds `x` answer
one of the accepted sockets `acc`: an accepted socket is either still held by
one slot or was closed once. -/
def Balanced (s : Reactor) (acc : List Int) : Prop :=
  ∀ x : Int, List.count (Sys.close x) s.calls + held_count s.connections x = List.count x acc

/-! ## Sample wakes -/

/-- A wake in which `poll` reports nothing and every call would fail. -/
def wake_idle : Wake :=
  { poll_ret := 0, ready := fun _ => 0, accept_ret := -1, accept_errno := EAGAIN,
    fcntl_ret := 0, malloc_ok := true, rd := fun _ => ReadOutcome.fail EAGAIN,
    wr := fun _ => WriteOutcome.fail EAGAIN, siginfo_ret := -1, ssi_signo := 0 }

/-- A wake in which the listening socket is readable and `accept` returns
`fd`. -/
def wake_accept (fd : Int) : Wake :=
  { wake_idle with
    poll_ret := 1, ready := fun i => if i = SERVER_FD then POLLIN else 0, accept_ret := fd }

/-- A wake in which slot `i` is reported with the mask `revents`, its `read`
has the outcome `rd` and its `write` the outcome `wr`. -/
def wake_slot (i : Nat) (revents : Nat) (rd : ReadOutcome) (wr : WriteOutcome) : Wake :=
  { wake_idle with
    poll_ret := 1, ready := fun j => if j = FIRST_CONNECTION + i then revents else 0,
    rd := fun _ => rd, wr := fun _ => wr }

/-- A wake in which the signal descriptor is readable and delivers the signal
`signo`, and slot `i` is reported with the mask `revents`, its `read` having
the outcome `rd` and its `write` the outcome `wr`. -/
def wake_signal (signo : Nat) (i : Nat) (revents : Nat) (rd : ReadOutcome)
    (wr : WriteOutcome) : Wake :=
  { wake_idle with
    poll_ret := 2
    ready := fun j =>
      if j = SIGNAL_FD then POLLIN else if j = FIRST_CONNECTION + i then revents else 0
    rd := fun _ => rd, wr := fun _ => wr, siginfo_ret := SIGINFO_SIZE, ssi_signo := signo }

/-- A wake in which both the listening socket and the signal descriptor are
readable: `accept` returns `fd`, and the signal descriptor delivers a whole
record for the signal `signo`. -/
def wake_signal_listener (signo : Nat) (fd : Int) : Wake :=
  { wake_idle with
    poll_ret := 2
    ready := fun j => if j = SERVER_FD then POLLIN else if j = SIGNAL_FD then POLLIN else 0
    accept_ret := fd, siginfo_ret := SIGINFO_SIZE, ssi_signo := signo }

/-! ## Machine arithmetic and buffer lemmas -/

theorem size_sub_of_le {a b : Nat} (hb : b ≤ a) (ha : a < SIZE_MOD) : size_sub a b = a - b := by
  unfold size_sub SIZE_MOD at *
  omega

theorem size_add_of_lt {a b : Nat} (h : a + b < SIZE_MOD) : size_add a b = a + b := by
  unfold size_add
  exact Nat.mod_eq_of_lt h

theorem to_ssize_of_small {n : Nat} (h : n < 9223372036854775808) : to_ssize n = (n : Int) := by
  unfold to_ssize SIZE_MOD
  have h1 : n % 18446744073709551616 = n := Nat.mod_eq_of_lt (by omega)
  rw [h1, if_pos h]

theorem scan_eq_none {buf : Nat → Byte} {c : Byte} :
    ∀ (fuel i : Nat), (∀ j, i ≤ j → j < i + fuel → buf j ≠ c) → scan buf c fuel i = none := by
  intro fuel
  induction fuel with
  | zero => intro i _; rfl
  | succ n ih =>
    intro i h
    have h0 : buf i ≠ c := h i (Nat.le_refl i) (by omega)
    simp only [scan, if_neg h0]
    exact ih (i + 1) (fun j hj1 hj2 => h j (by omega) (by omega))

theorem scan_eq_some {buf : Nat → Byte} {c : Byte} :
    ∀ (fuel i k : Nat), i ≤ k → k < i + fuel → buf k = c →
      (∀ j, i ≤ j → j < k → buf j ≠ c) → scan buf c fuel i = some k := by
  intro fuel
  induction fuel with
  | zero => intro i k h1 h2; omega
  | succ n ih =>
    intro i k h1 h2 hk hlt
    by_cases hik : i = k
    · subst hik
      simp only [scan, if_pos hk]
    · have h0 : buf i ≠ c := hlt i (Nat.le_refl i) (by omega)
      simp only [scan, if_neg h0]
      exact ih (i + 1) k (by omega) (by omega) hk (fun j hj1 hj2 => hlt j (by omega) hj2)

theorem scan_isSome {buf : Nat → Byte} {c : Byte} :
    ∀ (fuel i k : Nat), i ≤ k → k < i + fuel → buf k = c → (scan buf c fuel i).isSome = true := by
  intro fuel
  induction fuel with
  | zero => intro i k h1 h2; omega
  | succ n ih =>
    intro i k h1 h2 hk
    by_cases h0 : buf i = c
    · simp only [scan, if_pos h0, Option.isSome_some]
    · simp only [scan, if_neg h0]
      have hik : i ≠ k := fun h => h0 (h ▸ hk)
      exact ih (i + 1) k (by omega) (by omega) hk




theorem filled_nil : filled [] = fun _ => NUL := by
  funext i
  simp [filled]

theorem store_filled (q d : List Byte) : store (filled q) q.length d = filled (q ++ d) := by
  funext i
  unfold store filled
  by_cases h : q.length ≤ i
  · rw [if_pos h, List.getElem?_append_right h]
    have hq : q[i]? = none := List.getElem?_eq_none h
    rw [hq]
    cases d[i - q.length]? <;> rfl
  · rw [if_neg h, List.getElem?_append_left (by omega)]

theorem filled_of_lt {q : List Byte} {i : Nat} (h : i < q.length) : q[i]? = some (filled q i) := by
  unfold filled
  rw [List.getElem?_eq_getElem h]
  rfl

theorem filled_of_ge {q : List Byte} {i : Nat} (h : q.length ≤ i) : filled q i = NUL := by
  unfold filled
  rw [List.getElem?_eq_none h]
  rfl

theorem holdsString_filled {q : List Byte} (hlen : q.length < BUF_SIZE) (hnul : NUL ∉ q) :
    HoldsString (filled q) q :=
  ⟨hlen, hnul, fun _ h => filled_of_lt h, filled_of_ge (Nat.le_refl _)⟩

theorem strlen_of_holds {buf : Nat → Byte} {c : List Byte} (h : HoldsString buf c) :
    strlen buf = c.length := by
  obtain ⟨hlen, hnul, hget, hend⟩ := h
  unfold strlen
  rw [scan_eq_some BUF_SIZE 0 c.length (Nat.zero_le _) (by omega) hend]
  · rfl
  · intro j _ hj hz
    have h1 := hget j hj
    rw [hz] at h1
    exact hnul (List.getElem?_mem h1)

theorem slice_of_holds {buf : Nat → Byte} {c : List Byte} (h : HoldsString buf c) (k : Nat) :
    slice buf k (c.length - k) = c.drop k := by
  obtain ⟨_, _, hget, _⟩ := h
  apply List.ext_getElem?
  intro j
  unfold slice
  rw [List.getElem?_map, List.getElem?_drop]
  by_cases hj : j < c.length - k
  · rw [List.getElem?_range hj, hget (k + j) (by omega)]
    rfl
  · rw [List.getElem?_eq_none (by simpa using hj), List.getElem?_eq_none (by omega)]
    rfl

theorem memchr_filled_none {q : List Byte} (h : LF ∉ q) : memchr (filled q) LF q.length = none := by
  unfold memchr
  apply scan_eq_none
  intro j _ hj hz
  have h1 := filled_of_lt (q := q) (i := j) (by omega)
  rw [hz] at h1
  exact h (List.getElem?_mem h1)

theorem memchr_filled_some {q : List Byte} (h : LF ∈ q) :
    (memchr (filled q) LF q.length).isSome = true := by
  obtain ⟨k, hk, hq⟩ := List.getElem_of_mem h
  unfold memchr
  apply scan_isSome q.length 0 k (Nat.zero_le _) (by omega)
  have h1 := filled_of_lt (q := q) hk
  rw [List.getElem?_eq_getElem hk, hq] at h1
  exact (Option.some.inj h1).symm

/-- The write phase on a buffer that holds the string `content`, when the
transport accepts `n` of the bytes still unwritten. -/
theorem case_WRITING_accepted (ctx : context) (content : List Byte)
    (hbuf : HoldsString ctx.buf content) (hcur : ctx.bytes ≤ content.length)
    (events_out : Nat) (cc : Int) (calls : List Sys) (n : Nat)
    (hn : n ≤ content.length - ctx.bytes) :
    case_WRITING ctx events_out cc calls (WriteOutcome.accepted n) =
      if n = content.length - ctx.bytes then
        { ret := 0, ctx := { ctx with bytes := ctx.bytes + n, state := state.DONE },
          events_out := 0, connection_completed := 1,
          calls := calls ++ [Sys.write ctx.fd ctx.bytes (content.length - ctx.bytes)
            (content.drop ctx.bytes)] }
      else
        { ret := 0, ctx := { ctx with bytes := ctx.bytes + n },
          events_out := POLLOUT, connection_completed := 0,
          calls := calls ++ [Sys.write ctx.fd ctx.bytes (content.length - ctx.bytes)
            (content.drop ctx.bytes)] } := by
  have hlen : content.length < BUF_SIZE := hbuf.1
  have hL : strlen ctx.buf = content.length := strlen_of_holds hbuf
  have hsub : size_sub (strlen ctx.buf) ctx.bytes = content.length - ctx.bytes := by
    rw [hL]
    exact size_sub_of_le hcur (by unfold BUF_SIZE at hlen; unfold SIZE_MOD; omega)
  have hss : to_ssize (content.length - ctx.bytes) = ((content.length - ctx.bytes : Nat) : Int) :=
    to_ssize_of_small (by unfold BUF_SIZE at hlen; omega)
  have hadd : size_add ctx.bytes n = ctx.bytes + n :=
    size_add_of_lt (by unfold BUF_SIZE at hlen; unfold SIZE_MOD; omega)
  unfold case_WRITING
  simp only [hsub, hss, hadd, slice_of_holds hbuf, case_DONE, Nat.cast_inj]

/-- The write phase when `write` fails: the return value is -1 and the context
is left as it was. -/
theorem case_WRITING_fail (ctx : context) (events_out : Nat) (cc : Int) (calls : List Sys)
    (errno : Nat) :
    (case_WRITING ctx events_out cc calls (WriteOutcome.fail errno)).ret = -1 ∧
      (case_WRITING ctx events_out cc calls (WriteOutcome.fail errno)).ctx = ctx :=
  ⟨rfl, rfl⟩

/-- A read that leaves the buffer without linefeed: the connection stays in
READING and asks for POLLIN. -/
theorem handle_connection_read_more (fd : Int) (q d : List Byte) (revents events_out : Nat)
    (cc : Int) (wr : WriteOutcome) (hrev : revents &&& POLLHUP = 0)
    (hlf : LF ∉ q ++ d) (hlen : (q ++ d).length < BUF_SIZE) :
    handle_connection (reading_ctx fd q) revents events_out cc (ReadOutcome.data d) wr =
      { ret := 0, ctx := reading_ctx fd (q ++ d), events_out := POLLIN,
        connection_completed := 0,
        calls := [Sys.read fd q.length (BUF_SIZE - 1 - q.length)] } := by
  have hl : q.length + d.length < BUF_SIZE := by simpa using hlen
  have hcount : size_sub (size_sub BUF_SIZE q.length) 1 = BUF_SIZE - 1 - q.length := by
    unfold size_sub SIZE_MOD BUF_SIZE at *
    omega
  have hadd : size_add q.length d.length = (q ++ d).length := by
    rw [List.length_append]
    exact size_add_of_lt (by unfold BUF_SIZE at hl; unfold SIZE_MOD; omega)
  have hmem : memchr (filled (q ++ d)) LF (q ++ d).length = none := memchr_filled_none hlf
  unfold handle_connection
  simp only [hrev, ne_eq, not_true_eq_false, if_false, reading_ctx, hcount, hadd, store_filled,
    hmem]

/-- The read that brings the first linefeed: the connection enters the write
phase at cursor 0 with every byte received so far in its buffer. -/
theorem handle_connection_read_line (fd : Int) (q d : List Byte) (revents events_out : Nat)
    (cc : Int) (wr : WriteOutcome) (hrev : revents &&& POLLHUP = 0)
    (hlf : LF ∈ q ++ d) (hlen : (q ++ d).length < BUF_SIZE) :
    ∃ e, handle_connection (reading_ctx fd q) revents events_out cc (ReadOutcome.data d) wr =
      case_WRITING
        { fd := fd, state := state.WRITING, buf := filled (q ++ d), bytes := 0,
          buf_end := some e }
        POLLOUT cc [Sys.read fd q.length (BUF_SIZE - 1 - q.length)] wr := by
  have hl : q.length + d.length < BUF_SIZE := by simpa using hlen
  have hcount : size_sub (size_sub BUF_SIZE q.length) 1 = BUF_SIZE - 1 - q.length := by
    unfold size_sub SIZE_MOD BUF_SIZE at *
    omega
  have hadd : size_add q.length d.length = (q ++ d).length := by
    rw [List.length_append]
    exact size_add_of_lt (by unfold BUF_SIZE at hl; unfold SIZE_MOD; omega)
  have hmem := memchr_filled_some hlf
  obtain ⟨e, he⟩ := Option.isSome_iff_exists.mp hmem
  refine ⟨e, ?_⟩
  unfold handle_connection
  simp only [hrev, ne_eq, not_true_eq_false, if_false, reading_ctx, hcount, hadd, store_filled,
    he]

/-- A proper prefix of a line that has its only linefeed at the end has no
linefeed. -/
theorem no_LF_of_proper_prefix {a rest body : List Byte} (h : a ++ rest = body ++ [LF])
    (hrest : rest ≠ []) (hbody : LF ∉ body) : LF ∉ a := by
  rcases List.eq_nil_or_concat rest with h0 | ⟨l, b, hl⟩
  · exact absurd h0 hrest
  · subst hl
    rw [List.concat_eq_append, ← List.append_assoc] at h
    have h1 := List.append_inj' h rfl
    intro ha
    exact hbody (h1.1 ▸ List.mem_append_left l ha)

theorem drive_chunks (fd : Int) (p body : List Byte) (hp : p = body ++ [LF])
    (hbody : LF ∉ body) (hnul : NUL ∉ p) (hlen : p.length < BUF_SIZE) :
    ∀ (evs : List (Nat × List Byte)) (q : List Byte), evs ≠ [] →
      p = q ++ (evs.map Prod.snd).flatten →
      (∀ e ∈ evs, e.2 ≠ []) → (∀ e ∈ evs, e.1 &&& POLLHUP = 0) →
      ∃ rs r, drive (reading_ctx fd q) (chunk_events p.length evs) = rs ++ [r] ∧
        rs.length + 1 = evs.length ∧
        (∀ x ∈ rs, x.ret = 0 ∧ x.connection_completed = 0 ∧ x.events_out = POLLIN ∧
          x.ctx.state = state.READING ∧ offered x.calls = []) ∧
        r.ret = 0 ∧ r.connection_completed = 1 ∧ r.events_out = 0 ∧
        r.ctx.state = state.DONE ∧ offered r.calls = p ∧
        ∃ off cnt, r.calls = [Sys.read fd off cnt, Sys.write fd 0 p.length p] := by
  intro evs
  induction evs with
  | nil => intro q h; exact absurd rfl h
  | cons e rest ih =>
    intro q _ hq hne hrev
    have hrev0 : e.1 &&& POLLHUP = 0 := hrev e (List.mem_cons_self _ _)
    by_cases hrest : rest = []
    · subst hrest
      have hqe : q ++ e.2 = p := by simp [hq]
      have hlf : LF ∈ q ++ e.2 := by rw [hqe, hp]; simp
      obtain ⟨k, hk⟩ := handle_connection_read_line fd q e.2 e.1 0 0
        (WriteOutcome.accepted p.length) hrev0 hlf (by rw [hqe]; exact hlen)
      rw [hqe] at hk
      have hw := case_WRITING_accepted
        { fd := fd, state := state.WRITING, buf := filled p, bytes := 0, buf_end := some k } p
        (holdsString_filled hlen hnul) (Nat.zero_le _) POLLOUT 0
        [Sys.read fd q.length (BUF_SIZE - 1 - q.length)] p.length (Nat.le_refl _)
      simp only [Nat.sub_zero, if_true, Nat.zero_add, List.drop_zero] at hw
      rw [hw] at hk
      refine ⟨[], handle_connection (reading_ctx fd q) e.1 0 0 (ReadOutcome.data e.2)
        (WriteOutcome.accepted p.length), ?_, rfl, ?_, ?_⟩
      · simp only [chunk_events, List.map_cons, List.map_nil, drive, hk]
        simp
      · intro x hx
        exact absurd hx (List.not_mem_nil x)
      · rw [hk]
        refine ⟨rfl, rfl, rfl, rfl, ?_, _, _, rfl⟩
        simp [offered]
    · have hjoin : (rest.map Prod.snd).flatten ≠ [] := by
        obtain ⟨e1, rest1, h1⟩ := List.exists_cons_of_ne_nil hrest
        subst h1
        have := hne e1 (by simp)
        simp [this]
      have hsplit : (q ++ e.2) ++ (rest.map Prod.snd).flatten = body ++ [LF] := by
        rw [← hp, hq]; simp
      have hnolf : LF ∉ q ++ e.2 := no_LF_of_proper_prefix hsplit hjoin hbody
      have hlen1 : (q ++ e.2).length < BUF_SIZE := by
        have : p.length = (q ++ e.2).length + (rest.map Prod.snd).flatten.length := by
          rw [hp, ← hsplit, List.length_append]
        omega
      have hstep := handle_connection_read_more fd q e.2 e.1 0 0
        (WriteOutcome.accepted p.length) hrev0 hnolf hlen1
      obtain ⟨rs, r, hd, hl, hall, hlast⟩ := ih (q ++ e.2) hrest
        (by rw [hq]; simp) (fun x hx => hne x (List.mem_cons_of_mem _ hx))
        (fun x hx => hrev x (List.mem_cons_of_mem _ hx))
      refine ⟨handle_connection (reading_ctx fd q) e.1 0 0 (ReadOutcome.data e.2)
        (WriteOutcome.accepted p.length) :: rs, r, ?_, by simp [hl], ?_, hlast⟩
      · simp only [chunk_events, List.map_cons, drive, hstep]
        simp only [chunk_events] at hd
        simp [hd]
      · intro x hx
        rcases List.mem_cons.mp hx with h1 | h1
        · rw [h1, hstep]
          exact ⟨rfl, rfl, rfl, rfl, rfl⟩
        · exact hall x h1

theorem create_connection_eq (fd : Int) : create_connection fd = reading_ctx fd [] := by
  unfold create_connection reading_ctx
  rw [filled_nil]
  rfl

/-- C1. Echo round trip with partial-read accumulation: a payload `p` without
NUL, of at most 65535 bytes, whose only linefeed is its last byte, is received
by a connection made by `create_connection` in non-empty chunks, one per call
of `handle_connection`, each call with a readiness mask without hangup.  The
calls before the last return 0, report `completed = 0`, request `POLLIN`,
leave the connection in READING and write nothing; the last call, whose write
accepts everything offered, reads the last chunk, writes exactly `p` from
cursor 0, reports `completed = 1` and leaves the connection in DONE. -/
theorem echo_round_trip (fd : Int) (evs : List (Nat × List Byte)) (p body : List Byte)
    (hjoin : (evs.map Prod.snd).flatten = p) (hp : p = body ++ [LF]) (hbody : LF ∉ body)
    (hnul : NUL ∉ p) (hlen : p.length ≤ 65535)
    (hne : ∀ e ∈ evs, e.2 ≠ []) (hrev : ∀ e ∈ evs, e.1 &&& POLLHUP = 0) :
    ∃ rs r, drive (create_connection fd) (chunk_events p.length evs) = rs ++ [r] ∧
      rs.length + 1 = evs.length ∧
      (∀ x ∈ rs, x.ret = 0 ∧ x.connection_completed = 0 ∧ x.events_out = POLLIN ∧
        x.ctx.state = state.READING ∧ offered x.calls = []) ∧
      r.ret = 0 ∧ r.connection_completed = 1 ∧ r.events_out = 0 ∧
      r.ctx.state = state.DONE ∧ offered r.calls = p ∧
      ∃ off cnt, r.calls = [Sys.read fd off cnt, Sys.write fd 0 p.length p] := by
  have hevs : evs ≠ [] := by
    intro h
    subst h
    rw [hp] at hjoin
    simp at hjoin
  rw [create_connection_eq]
  exact drive_chunks fd p body hp hbody hnul (by unfold BUF_SIZE; omega) evs [] hevs
    (by simp [hjoin]) hne hrev

/-- Witness of C1: "ab" then "cd\n" in two reads gives "abcd\n". -/
theorem echo_round_trip_witness :
    (([(POLLIN, [97, 98]), (POLLIN, [99, 100, LF])] : List (Nat × List Byte)).map
        Prod.snd).flatten = [97, 98, 99, 100, LF] ∧
    ∃ rs r, drive (create_connection 3)
        (chunk_events 5 [(POLLIN, [97, 98]), (POLLIN, [99, 100, LF])]) = rs ++ [r] ∧
      rs.length + 1 = 2 ∧
      (∀ x ∈ rs, x.ret = 0 ∧ x.connection_completed = 0 ∧ x.events_out = POLLIN ∧
        x.ctx.state = state.READING ∧ offered x.calls = []) ∧
      r.ret = 0 ∧ r.connection_completed = 1 ∧ r.events_out = 0 ∧
      r.ctx.state = state.DONE ∧ offered r.calls = [97, 98, 99, 100, LF] ∧
      ∃ off cnt, r.calls = [Sys.read 3 off cnt, Sys.write 3 0 5 [97, 98, 99, 100, LF]] :=
  ⟨by decide, echo_round_trip 3 [(POLLIN, [97, 98]), (POLLIN, [99, 100, LF])]
    [97, 98, 99, 100, LF] [97, 98, 99, 100] (by decide) (by decide) (by decide) (by decide)
    (by decide) (by decide) (by decide)⟩

/-- The write phase leaves the state as it is or moves it to DONE. -/
theorem case_WRITING_state (ctx : context) (events_out : Nat) (cc : Int) (calls : List Sys)
    (wr : WriteOutcome) :
    (case_WRITING ctx events_out cc calls wr).ctx.state = ctx.state ∨
      (case_WRITING ctx events_out cc calls wr).ctx.state = state.DONE := by
  unfold case_WRITING case_DONE
  cases wr with
  | fail errno => exact Or.inl rfl
  | accepted n =>
    by_cases h : (n : Int) = to_ssize (size_sub (strlen ctx.buf) ctx.bytes)
    · right
      simp only [h, if_true]
    · left
      simp only [h, if_false]

/-- C3. The state never regresses: for every context, readiness mask, entry
value of the out-parameters and outcome of the read and of the write, the state
after `handle_connection` is at or after the state before it in the order
READING, WRITING, DONE. -/
theorem state_never_regresses (ctx : context) (revents events_out : Nat) (cc : Int)
    (rd : ReadOutcome) (wr : WriteOutcome) :
    ctx.state.rank ≤ (handle_connection ctx revents events_out cc rd wr).ctx.state.rank := by
  unfold handle_connection
  by_cases hup : revents &&& POLLHUP ≠ 0
  · rw [if_pos hup]
  · rw [if_neg hup]
    cases hs : ctx.state with
    | READING => exact Nat.zero_le _
    | WRITING =>
      simp only []
      rcases case_WRITING_state ctx events_out cc [] wr with h | h
      · rw [h, hs]
      · rw [h]
        decide
    | DONE =>
      simp only [case_DONE]
      rw [hs]

/-- A call of `handle_connection` in WRITING without hangup is the write phase. -/
theorem handle_connection_writing (ctx : context) (revents events_out : Nat) (cc : Int)
    (rd : ReadOutcome) (wr : WriteOutcome) (hstate : ctx.state = state.WRITING)
    (hrev : revents &&& POLLHUP = 0) :
    handle_connection ctx revents events_out cc rd wr = case_WRITING ctx events_out cc [] wr := by
  unfold handle_connection
  simp only [hrev, ne_eq, not_true_eq_false, if_false, hstate]

/-- The calls made for a connection in Writing are those the specification
describes. -/
theorem drive_writes (content : List Byte) (revents : Nat) (rd : ReadOutcome)
    (hrev : revents &&& POLLHUP = 0) :
    ∀ (rs : List Nat) (ctx : context), ctx.state = state.WRITING →
      HoldsString ctx.buf content → ctx.bytes ≤ content.length →
      admissible (content.length - ctx.bytes) rs = true →
      drive ctx (write_events revents rd rs) = spec_partial_writes ctx content rs := by
  intro rs
  induction rs with
  | nil => intro ctx _ _ _ _; rfl
  | cons r rest ih =>
    intro ctx hstate hbuf hcur hadm
    simp only [admissible, Bool.and_eq_true, decide_eq_true_eq] at hadm
    have hstep := handle_connection_writing ctx revents 0 0 rd (WriteOutcome.accepted r)
      hstate hrev
    rw [case_WRITING_accepted ctx content hbuf hcur 0 0 [] r hadm.1] at hstep
    simp only [write_events, List.map_cons, drive, spec_partial_writes]
    rw [hstep]
    by_cases hr : r = content.length - ctx.bytes
    · simp only [hr, if_true]
      simp
    · simp only [hr, if_false]
      have hnext := ih { ctx with bytes := ctx.bytes + r } hstate hbuf
        (by show ctx.bytes + r ≤ content.length; omega)
        (by
          show admissible (content.length - (ctx.bytes + r)) rest = true
          rw [← Nat.sub_sub]
          exact hadm.2)
      simp only [write_events] at hnext
      simp [hnext]

/-- The bytes accepted over the calls the specification describes are the
content from the cursor on, when the results add up to what was unwritten. -/
theorem accepted_bytes_spec (content : List Byte) :
    ∀ (rs : List Nat) (ctx : context), ctx.bytes ≤ content.length →
      admissible (content.length - ctx.bytes) rs = true →
      rs.sum = content.length - ctx.bytes →
      accepted_bytes (spec_partial_writes ctx content rs) rs = content.drop ctx.bytes := by
  intro rs
  induction rs with
  | nil =>
    intro ctx hcur _ hsum
    simp only [List.sum_nil] at hsum
    simp only [spec_partial_writes, accepted_bytes]
    rw [List.drop_of_length_le (by omega)]
  | cons r rest ih =>
    intro ctx hcur hadm hsum
    simp only [admissible, Bool.and_eq_true, decide_eq_true_eq] at hadm
    simp only [List.sum_cons] at hsum
    simp only [spec_partial_writes]
    by_cases hr : r = content.length - ctx.bytes
    · simp only [hr, if_true, accepted_bytes, offered, List.append_nil]
      rw [List.take_of_length_le (by simp)]
    · simp only [hr, if_false, accepted_bytes, offered, List.append_nil]
      have hnext := ih { ctx with bytes := ctx.bytes + r }
        (by show ctx.bytes + r ≤ content.length; omega)
        (by
          show admissible (content.length - (ctx.bytes + r)) rest = true
          rw [← Nat.sub_sub]
          exact hadm.2)
        (by show rest.sum = content.length - (ctx.bytes + r); omega)
      rw [hnext]
      show List.take r (List.drop ctx.bytes content) ++ List.drop (ctx.bytes + r) content = _
      rw [← List.drop_drop]
      exact List.take_append_drop r _

/-- The calls the specification describes end, when the results add up to what
was unwritten, with a call that reports completion in DONE at cursor
`content.length`; the calls before it report `completed = 0` in WRITING and
request POLLOUT. -/
theorem spec_partial_writes_last (content : List Byte) :
    ∀ (rs : List Nat) (ctx : context), ctx.state = state.WRITING →
      ctx.bytes ≤ content.length → rs ≠ [] →
      admissible (content.length - ctx.bytes) rs = true →
      rs.sum = content.length - ctx.bytes →
      ∃ hs h, spec_partial_writes ctx content rs = hs ++ [h] ∧
        h.ret = 0 ∧ h.connection_completed = 1 ∧ h.events_out = 0 ∧
        h.ctx.state = state.DONE ∧ h.ctx.bytes = content.length ∧
        ∀ x ∈ hs, x.ret = 0 ∧ x.connection_completed = 0 ∧ x.events_out = POLLOUT ∧
          x.ctx.state = state.WRITING := by
  intro rs
  induction rs with
  | nil => intro ctx _ _ h; exact absurd rfl h
  | cons r rest ih =>
    intro ctx hstate hcur _ hadm hsum
    simp only [admissible, Bool.and_eq_true, decide_eq_true_eq] at hadm
    simp only [List.sum_cons] at hsum
    simp only [spec_partial_writes]
    by_cases hr : r = content.length - ctx.bytes
    · simp only [hr, if_true]
      refine ⟨[], _, rfl, rfl, rfl, rfl, rfl, ?_, ?_⟩
      · show ctx.bytes + (content.length - ctx.bytes) = content.length
        omega
      · intro x hx
        exact absurd hx (List.not_mem_nil x)
    · simp only [hr, if_false]
      have hrest : rest ≠ [] := by
        intro h
        subst h
        simp only [List.sum_nil] at hsum
        omega
      obtain ⟨hs, h, heq, h1, h2, h3, h4, h5, hall⟩ := ih { ctx with bytes := ctx.bytes + r }
        hstate (by show ctx.bytes + r ≤ content.length; omega) hrest
        (by
          show admissible (content.length - (ctx.bytes + r)) rest = true
          rw [← Nat.sub_sub]
          exact hadm.2)
        (by show rest.sum = content.length - (ctx.bytes + r); omega)
      refine ⟨_ :: hs, h, by rw [heq]; rfl, h1, h2, h3, h4, h5, ?_⟩
      intro x hx
      rcases List.mem_cons.mp hx with hx1 | hx1
      · rw [hx1]
        exact ⟨rfl, rfl, rfl, hstate⟩
      · exact hall x hx1

/-- One byte accepted per write: the specification describes as many calls as
bytes are unwritten. -/
theorem spec_partial_writes_ones (content : List Byte) :
    ∀ (n : Nat) (ctx : context), ctx.bytes + n = content.length → 0 < n →
      (spec_partial_writes ctx content (List.replicate n 1)).length = n := by
  intro n
  induction n with
  | zero => intro ctx _ h; omega
  | succ m ih =>
    intro ctx hlen _
    simp only [List.replicate_succ, spec_partial_writes]
    by_cases hm : m = 0
    · subst hm
      have : 1 = content.length - ctx.bytes := by omega
      simp [this]
    · have : ¬ (1 = content.length - ctx.bytes) := by omega
      simp only [this, if_false, List.length_cons]
      rw [ih { ctx with bytes := ctx.bytes + 1 }
        (by show ctx.bytes + 1 + m = content.length; omega) (by omega)]

theorem admissible_ones : ∀ n : Nat, admissible n (List.replicate n 1) = true := by
  intro n
  induction n with
  | zero => rfl
  | succ m ih =>
    simp only [List.replicate_succ, admissible, Bool.and_eq_true, decide_eq_true_eq]
    exact ⟨by omega, by simpa using ih⟩

/-- C2. Partial-write resumption: a connection in WRITING whose buffer holds
the NUL-free `content` of length `L`, with its cursor at most `L`, is called
with masks without hangup while its writes return `rs`, each at most the bytes
still unwritten.  The calls are those of `spec_partial_writes`: each offers
exactly the bytes from the cursor to `L` and advances the cursor by the result,
stays in WRITING requesting POLLOUT with `completed = 0` while the result is
less than the remainder, and moves to DONE with `completed = 1` on the call
whose result equals the remainder.  When the results add up to the remainder,
the accepted bytes in order are the content from the cursor on and the last
call reports completion; with one byte accepted per write from cursor 0 this
takes exactly `L` calls. -/
theorem partial_write_resumption (ctx : context) (content : List Byte) (revents : Nat)
    (rd : ReadOutcome) (rs : List Nat)
    (hstate : ctx.state = state.WRITING) (hbuf : HoldsString ctx.buf content)
    (hcur : ctx.bytes ≤ content.length) (hrev : revents &&& POLLHUP = 0)
    (hadm : admissible (content.length - ctx.bytes) rs = true) :
    drive ctx (write_events revents rd rs) = spec_partial_writes ctx content rs ∧
    (rs.sum = content.length - ctx.bytes →
      accepted_bytes (drive ctx (write_events revents rd rs)) rs = content.drop ctx.bytes) ∧
    (rs ≠ [] → rs.sum = content.length - ctx.bytes →
      ∃ hs h, drive ctx (write_events revents rd rs) = hs ++ [h] ∧
        h.ret = 0 ∧ h.connection_completed = 1 ∧ h.events_out = 0 ∧
        h.ctx.state = state.DONE ∧ h.ctx.bytes = content.length ∧
        ∀ x ∈ hs, x.ret = 0 ∧ x.connection_completed = 0 ∧ x.events_out = POLLOUT ∧
          x.ctx.state = state.WRITING) ∧
    (ctx.bytes = 0 → content ≠ [] →
      (drive ctx (write_events revents rd (List.replicate content.length 1))).length =
        content.length) := by
  have hd := drive_writes content revents rd hrev rs ctx hstate hbuf hcur hadm
  refine ⟨hd, ?_, ?_, ?_⟩
  · intro hsum
    rw [hd]
    exact accepted_bytes_spec content rs ctx hcur hadm hsum
  · intro hne hsum
    rw [hd]
    exact spec_partial_writes_last content rs ctx hstate hcur hne hadm hsum
  · intro h0 hc
    have hpos : 0 < content.length := List.length_pos.mpr hc
    rw [drive_writes content revents rd hrev (List.replicate content.length 1) ctx hstate hbuf
      hcur (by rw [h0, Nat.sub_zero]; exact admissible_ones _)]
    exact spec_partial_writes_ones content content.length ctx (by omega) hpos

/-- Witness of C2: the content "a\n" written one byte per call takes two calls
and delivers "a\n". -/
theorem partial_write_resumption_witness :
    admissible 2 [1, 1] = true ∧
    accepted_bytes
      (drive { fd := 3, state := state.WRITING, buf := filled [97, LF], bytes := 0,
               buf_end := some 1 }
        (write_events POLLOUT (ReadOutcome.fail 0) [1, 1])) [1, 1] = [97, LF] ∧
    (drive { fd := 3, state := state.WRITING, buf := filled [97, LF], bytes := 0,
             buf_end := some 1 }
      (write_events POLLOUT (ReadOutcome.fail 0) [1, 1])).length = 2 :=
  ⟨by decide,
   (partial_write_resumption
      { fd := 3, state := state.WRITING, buf := filled [97, LF], bytes := 0, buf_end := some 1 }
      [97, LF] POLLOUT (ReadOutcome.fail 0) [1, 1] rfl
      (holdsString_filled (by decide) (by decide)) (by decide) (by decide) (by decide)).2.1
      (by decide),
   (partial_write_resumption
      { fd := 3, state := state.WRITING, buf := filled [97, LF], bytes := 0, buf_end := some 1 }
      [97, LF] POLLOUT (ReadOutcome.fail 0) [1, 1] rfl
      (holdsString_filled (by decide) (by decide)) (by decide) (by decide) (by decide)).2.2.2
      rfl (by decide)⟩

/-- Number of occupied entries among the first `n`. -/
theorem countP_range_succ (p : Nat → Bool) (n : Nat) :
    (List.range (n + 1)).countP p = (List.range n).countP p + (if p n then 1 else 0) := by
  rw [List.range_succ, List.countP_append, List.countP_singleton]

theorem countP_update_ge (f : Nat → Option context) (v : Option context) (i : Nat) :
    ∀ n, n ≤ i → (List.range n).countP (fun j => (Function.update f i v j).isSome) =
      (List.range n).countP (fun j => (f j).isSome) := by
  intro n
  induction n with
  | zero => intro _; rfl
  | succ m ih =>
    intro h
    rw [countP_range_succ, countP_range_succ, ih (by omega)]
    have hne : m ≠ i := by omega
    simp only [Function.update_noteq hne]

theorem countP_update_lt (f : Nat → Option context) (v : Option context) (i : Nat) :
    ∀ n, i < n →
      (List.range n).countP (fun j => (Function.update f i v j).isSome) +
          (if (f i).isSome then 1 else 0) =
        (List.range n).countP (fun j => (f j).isSome) + (if v.isSome then 1 else 0) := by
  intro n
  induction n with
  | zero => intro h; omega
  | succ m ih =>
    intro h
    rw [countP_range_succ, countP_range_succ]
    by_cases hm : m = i
    · subst hm
      rw [countP_update_ge f v m m (Nat.le_refl m)]
      simp only [Function.update_same]
      omega
    · have := ih (by omega)
      simp only [Function.update_noteq hm]
      omega

theorem occupied_le (f : Nat → Option context) : occupied f ≤ MAX_CONNECTIONS := by
  unfold occupied
  have := List.countP_le_length (fun i => (f i).isSome) (l := List.range MAX_CONNECTIONS)
  simpa using this

theorem occupied_install (f : Nat → Option context) (i : Nat) (c : context)
    (hi : i < MAX_CONNECTIONS) (hfree : f i = none) :
    occupied (Function.update f i (some c)) = occupied f + 1 := by
  have := countP_update_lt f (some c) i MAX_CONNECTIONS hi
  simp only [hfree, Option.isSome_none, Option.isSome_some, if_true] at this
  unfold occupied
  simpa using this

theorem occupied_replace (f : Nat → Option context) (i : Nat) (c c1 : context)
    (hi : i < MAX_CONNECTIONS) (hocc : f i = some c) :
    occupied (Function.update f i (some c1)) = occupied f := by
  have := countP_update_lt f (some c1) i MAX_CONNECTIONS hi
  simp only [hocc, Option.isSome_some, if_true] at this
  unfold occupied
  omega

theorem occupied_release (f : Nat → Option context) (i : Nat) (c : context)
    (hi : i < MAX_CONNECTIONS) (hocc : f i = some c) :
    occupied (Function.update f i none) + 1 = occupied f := by
  have := countP_update_lt f none i MAX_CONNECTIONS hi
  simp only [hocc, Option.isSome_none, Option.isSome_some, if_true] at this
  unfold occupied
  simpa using this

theorem poll_fd (pfs : Nat → pollfd) (ready : Nat → Nat) (i : Nat) :
    (poll pfs ready i).fd = (pfs i).fd := by
  unfold poll
  split <;> rfl

theorem poll_events (pfs : Nat → pollfd) (ready : Nat → Nat) (i : Nat) :
    (poll pfs ready i).events = (pfs i).events := by
  unfold poll
  split <;> rfl

theorem poll_revents_disabled (pfs : Nat → pollfd) (ready : Nat → Nat) (i : Nat)
    (hi : i < POLLFDS) (hfd : (pfs i).fd < 0) : (poll pfs ready i).revents = 0 := by
  unfold poll
  simp only [hi, if_true, hfd]

/-- What the slot search does: nothing when every slot visited is occupied,
else the socket goes into the first free slot. -/
theorem install_spec (fd : Int) (m : Bool) :
    ∀ (l : List Nat) (s s1 : Reactor), install fd m l s = Except.ok s1 →
      (s1 = s ∧ ∀ i ∈ l, s.connections i ≠ none) ∨
      (∃ i ∈ l, s.connections i = none ∧ m = true ∧ s1 = installed s fd i ∧
        s.total_connections + 1 ≤ MAX_CONNECTIONS) := by
  intro l
  induction l with
  | nil =>
    intro s s1 h
    simp only [install, Except.ok.injEq] at h
    exact Or.inl ⟨h.symm, fun i hi => absurd hi (List.not_mem_nil i)⟩
  | cons i rest ih =>
    intro s s1 h
    cases hc : s.connections i with
    | some c =>
      simp only [install, hc] at h
      rcases ih s s1 h with ⟨h1, h2⟩ | ⟨j, hj, h2⟩
      · left
        refine ⟨h1, ?_⟩
        intro k hk
        rcases List.mem_cons.mp hk with hk1 | hk1
        · rw [hk1, hc]
          exact Option.some_ne_none c
        · exact h2 k hk1
      · right
        exact ⟨j, List.mem_cons_of_mem _ hj, h2⟩
    | none =>
      right
      simp only [install, hc] at h
      cases m with
      | false => simp at h
      | true =>
        simp only [if_true] at h
        by_cases hle : s.total_connections + 1 ≤ (MAX_CONNECTIONS : Int)
        · rw [if_pos hle] at h
          exact ⟨i, List.mem_cons_self _ _, hc, rfl, (Except.ok.inj h).symm, hle⟩
        · rw [if_neg hle] at h
          simp at h

theorem tableInv_installed (s : Reactor) (fd : Int) (i : Nat) (hi : i < MAX_CONNECTIONS)
    (hfree : s.connections i = none) (hfd : 0 ≤ fd) (h : TableInv s) :
    TableInv (installed s fd i) := by
  obtain ⟨h1, h2, h3⟩ := h
  refine ⟨?_, ?_, ?_⟩
  · show s.total_connections + 1 = _
    rw [h1]
    show _ = ((occupied (Function.update s.connections i (some (create_connection fd))) : Nat) : Int)
    rw [occupied_install s.connections i _ hi hfree]
    push_cast
    rfl
  · intro j hj
    show (Function.update s.pollfds (FIRST_CONNECTION + i) _ (FIRST_CONNECTION + j)).fd =
      slot_fd (Function.update s.connections i (some (create_connection fd)) j)
    by_cases hji : j = i
    · subst hji
      simp only [Function.update_same]
      rfl
    · have hne : FIRST_CONNECTION + j ≠ FIRST_CONNECTION + i := by omega
      rw [Function.update_noteq hne, Function.update_noteq hji]
      exact h2 j hj
  · intro j c hj hc
    change Function.update s.connections i (some (create_connection fd)) j = some c at hc
    by_cases hji : j = i
    · subst hji
      simp only [Function.update_same] at hc
      rw [← Option.some.inj hc]
      exact hfd
    · rw [Function.update_noteq hji] at hc
      exact h3 j c hj hc

theorem tableInv_install (fd : Int) (m : Bool) (l : List Nat) (s s1 : Reactor)
    (hl : ∀ i ∈ l, i < MAX_CONNECTIONS) (hfd : 0 ≤ fd) (h : TableInv s)
    (hin : install fd m l s = Except.ok s1) : TableInv s1 := by
  rcases install_spec fd m l s s1 hin with ⟨h1, _⟩ | ⟨i, hi, hfree, _, h1, _⟩
  · rw [h1]; exact h
  · rw [h1]; exact tableInv_installed s fd i (hl i hi) hfree hfd h

/-- Effect of a release that goes through. -/
theorem release_spec (s : Reactor) (i : Nat) (ctx : context) (s1 : Reactor)
    (h : release s i ctx = Except.ok s1) :
    s1.connections = Function.update s.connections i none ∧
    s1.total_connections = s.total_connections - 1 ∧ 0 ≤ s1.total_connections ∧
    s1.server_fd = s.server_fd ∧ s1.signal_fd = s.signal_fd ∧
    s1.calls = s.calls ++ [Sys.close ctx.fd] ∧
    (s.total_connections = MAX_CONNECTIONS → (s.pollfds SERVER_FD).fd < 0) ∧
    s1.pollfds =
      (if s.total_connections = MAX_CONNECTIONS then
        Function.update
          (Function.update s.pollfds (i + FIRST_CONNECTION)
            { s.pollfds (i + FIRST_CONNECTION) with fd := -1 })
          SERVER_FD
          { s.pollfds SERVER_FD with fd := -(s.pollfds SERVER_FD).fd }
      else
        Function.update s.pollfds (i + FIRST_CONNECTION)
          { s.pollfds (i + FIRST_CONNECTION) with fd := -1 }) := by
  have hne : SERVER_FD ≠ i + FIRST_CONNECTION := by unfold SERVER_FD FIRST_CONNECTION; omega
  unfold release at h
  simp only [destroy_connection, Function.update_noteq hne] at h
  by_cases hcap : s.total_connections = (MAX_CONNECTIONS : Int)
  · rw [if_pos hcap] at h
    by_cases hneg : (s.pollfds SERVER_FD).fd < 0
    · rw [if_pos hneg] at h
      by_cases hnn : (0 : Int) ≤ s.total_connections - 1
      · simp only [hnn, if_true, Except.ok.injEq] at h
        subst h
        rw [if_pos hcap]
        exact ⟨rfl, rfl, hnn, rfl, rfl, rfl, fun _ => hneg, rfl⟩
      · simp only [hnn, if_false] at h
        simp at h
    · rw [if_neg hneg] at h
      simp at h
  · rw [if_neg hcap] at h
    by_cases hnn : (0 : Int) ≤ s.total_connections - 1
    · simp only [hnn, if_true, Except.ok.injEq] at h
      subst h
      rw [if_neg hcap]
      exact ⟨rfl, rfl, hnn, rfl, rfl, rfl, fun hc => absurd hc hcap, rfl⟩
    · simp only [hnn, if_false] at h
      simp at h

theorem case_WRITING_fd (ctx : context) (events_out : Nat) (cc : Int) (calls : List Sys)
    (wr : WriteOutcome) : (case_WRITING ctx events_out cc calls wr).ctx.fd = ctx.fd := by
  unfold case_WRITING case_DONE
  cases wr with
  | fail errno => rfl
  | accepted n =>
    by_cases h : (n : Int) = to_ssize (size_sub (strlen ctx.buf) ctx.bytes)
    · simp only [h, if_true]
    · simp only [h, if_false]

/-- The socket of a connection is the same after `handle_connection`. -/
theorem handle_connection_fd (ctx : context) (revents events_out : Nat) (cc : Int)
    (rd : ReadOutcome) (wr : WriteOutcome) :
    (handle_connection ctx revents events_out cc rd wr).ctx.fd = ctx.fd := by
  unfold handle_connection
  by_cases hup : revents &&& POLLHUP ≠ 0
  · rw [if_pos hup]
  · rw [if_neg hup]
    cases hs : ctx.state with
    | READING =>
      cases rd with
      | fail errno => rfl
      | data d =>
        simp only []
        cases hm : memchr (store ctx.buf ctx.bytes d) LF (size_add ctx.bytes d.length) with
        | none => rfl
        | some e =>
          simp only []
          rw [case_WRITING_fd]
    | WRITING =>
      simp only []
      rw [case_WRITING_fd]
    | DONE => rfl

/-- What the body of the slot loop does when the loop goes on. -/
theorem handle_slot_spec (w : Wake) (s s1 : Reactor) (i : Nat)
    (h : handle_slot w s i = Except.ok s1) :
    (s1 = s ∧ (s.pollfds (i + FIRST_CONNECTION)).revents = 0) ∨
    ∃ c, s.connections i = some c ∧ (s.pollfds (i + FIRST_CONNECTION)).revents ≠ 0 ∧
      (s.pollfds (i + FIRST_CONNECTION)).revents &&& POLLERR = 0 ∧
      (handle_connection c (s.pollfds (i + FIRST_CONNECTION)).revents 0 0 (w.rd i) (w.wr i)).ret
        = 0 ∧
      (((handle_connection c (s.pollfds (i + FIRST_CONNECTION)).revents 0 0 (w.rd i)
            (w.wr i)).connection_completed = 0 ∧
          s1 = handled s i
            (handle_connection c (s.pollfds (i + FIRST_CONNECTION)).revents 0 0 (w.rd i)
              (w.wr i))) ∨
        ((handle_connection c (s.pollfds (i + FIRST_CONNECTION)).revents 0 0 (w.rd i)
            (w.wr i)).connection_completed ≠ 0 ∧
          release
            (handled s i
              (handle_connection c (s.pollfds (i + FIRST_CONNECTION)).revents 0 0 (w.rd i)
                (w.wr i)))
            i
            (handle_connection c (s.pollfds (i + FIRST_CONNECTION)).revents 0 0 (w.rd i)
              (w.wr i)).ctx = Except.ok s1)) := by
  unfold handle_slot at h
  simp only [ne_eq, ite_not] at h
  by_cases herr : (s.pollfds (i + FIRST_CONNECTION)).revents &&& POLLERR = 0
  · rw [if_pos herr] at h
    by_cases hrev : (s.pollfds (i + FIRST_CONNECTION)).revents = 0
    · rw [if_pos hrev, Except.ok.injEq] at h
      exact Or.inl ⟨h.symm, hrev⟩
    · rw [if_neg hrev] at h
      right
      cases hc : s.connections i with
      | none =>
        simp only [hc] at h
        split at h <;> simp at h
      | some c =>
        simp only [hc] at h
        refine ⟨c, rfl, hrev, herr, ?_⟩
        by_cases hret : (handle_connection c (s.pollfds (i + FIRST_CONNECTION)).revents 0 0
            (w.rd i) (w.wr i)).ret = 0
        · rw [if_pos hret] at h
          refine ⟨hret, ?_⟩
          by_cases hcc : (handle_connection c (s.pollfds (i + FIRST_CONNECTION)).revents 0 0
              (w.rd i) (w.wr i)).connection_completed = 0
          · rw [if_pos hcc, Except.ok.injEq] at h
            exact Or.inl ⟨hcc, h.symm⟩
          · rw [if_neg hcc] at h
            exact Or.inr ⟨hcc, h⟩
        · rw [if_neg hret] at h
          simp at h
  · rw [if_neg herr] at h
    simp at h

theorem tableInv_handled (s : Reactor) (i : Nat) (c : context) (r : HandleResult)
    (hi : i < MAX_CONNECTIONS) (hc : s.connections i = some c) (hfd : r.ctx.fd = c.fd)
    (h : TableInv s) : TableInv (handled s i r) := by
  obtain ⟨h1, h2, h3⟩ := h
  refine ⟨?_, ?_, ?_⟩
  · show s.total_connections = ((occupied (Function.update s.connections i (some r.ctx)) : Nat) : Int)
    rw [occupied_replace s.connections i c r.ctx hi hc]
    exact h1
  · intro j hj
    show (Function.update s.pollfds (i + FIRST_CONNECTION) _ (FIRST_CONNECTION + j)).fd =
      slot_fd (Function.update s.connections i (some r.ctx) j)
    by_cases hji : j = i
    · subst hji
      rw [Nat.add_comm FIRST_CONNECTION j]
      simp only [Function.update_same]
      have := h2 j hj
      rw [hc, Nat.add_comm] at this
      rw [this]
      show c.fd = r.ctx.fd
      exact hfd.symm
    · have hne : FIRST_CONNECTION + j ≠ i + FIRST_CONNECTION := by omega
      rw [Function.update_noteq hne, Function.update_noteq hji]
      exact h2 j hj
  · intro j c1 hj hc1
    change Function.update s.connections i (some r.ctx) j = some c1 at hc1
    by_cases hji : j = i
    · subst hji
      simp only [Function.update_same] at hc1
      rw [← Option.some.inj hc1, hfd]
      exact h3 j c hj hc
    · rw [Function.update_noteq hji] at hc1
      exact h3 j c1 hj hc1

theorem tableInv_release (s s1 : Reactor) (i : Nat) (c ctx : context)
    (hi : i < MAX_CONNECTIONS) (hc : s.connections i = some c) (h : TableInv s)
    (hr : release s i ctx = Except.ok s1) : TableInv s1 := by
  obtain ⟨h1, h2, h3⟩ := h
  obtain ⟨r1, r2, _, _, _, _, _, r8⟩ := release_spec s i ctx s1 hr
  have hfd : ∀ j, j < MAX_CONNECTIONS → (s1.pollfds (FIRST_CONNECTION + j)).fd =
      (Function.update s.pollfds (i + FIRST_CONNECTION)
        { s.pollfds (i + FIRST_CONNECTION) with fd := -1 } (FIRST_CONNECTION + j)).fd := by
    intro j _
    have hne : FIRST_CONNECTION + j ≠ SERVER_FD := by unfold FIRST_CONNECTION SERVER_FD; omega
    rw [r8]
    split
    · rw [Function.update_noteq hne]
    · rfl
  refine ⟨?_, ?_, ?_⟩
  · rw [r2, r1, h1]
    have := occupied_release s.connections i c hi hc
    omega
  · intro j hj
    rw [hfd j hj, r1]
    by_cases hji : j = i
    · subst hji
      rw [Nat.add_comm FIRST_CONNECTION j]
      simp only [Function.update_same]
      rfl
    · have hne : FIRST_CONNECTION + j ≠ i + FIRST_CONNECTION := by omega
      rw [Function.update_noteq hne, Function.update_noteq hji]
      exact h2 j hj
  · intro j c1 hj hc1
    rw [r1] at hc1
    by_cases hji : j = i
    · subst hji
      simp only [Function.update_same] at hc1
      exact absurd hc1 (by simp)
    · rw [Function.update_noteq hji] at hc1
      exact h3 j c1 hj hc1

theorem tableInv_handle_slot (w : Wake) (s s1 : Reactor) (i : Nat) (hi : i < MAX_CONNECTIONS)
    (h : TableInv s) (hs : handle_slot w s i = Except.ok s1) : TableInv s1 := by
  rcases handle_slot_spec w s s1 i hs with ⟨h1, _⟩ | ⟨c, hc, _, _, _, hcase⟩
  · rw [h1]; exact h
  · have hh := tableInv_handled s i c
      (handle_connection c (s.pollfds (i + FIRST_CONNECTION)).revents 0 0 (w.rd i) (w.wr i))
      hi hc (handle_connection_fd _ _ _ _ _ _) h
    rcases hcase with ⟨_, h1⟩ | ⟨_, h1⟩
    · rw [h1]; exact hh
    · have hocc : (handled s i (handle_connection c (s.pollfds (i + FIRST_CONNECTION)).revents
          0 0 (w.rd i) (w.wr i))).connections i =
          some (handle_connection c (s.pollfds (i + FIRST_CONNECTION)).revents 0 0 (w.rd i)
            (w.wr i)).ctx := by
        show Function.update s.connections i _ i = some _
        rw [Function.update_same]
      exact tableInv_release _ s1 i _ _ hi hocc hh h1

theorem tableInv_handle_slots (w : Wake) :
    ∀ (l : List Nat) (s s1 : Reactor), (∀ i ∈ l, i < MAX_CONNECTIONS) → TableInv s →
      handle_slots w l s = Except.ok s1 → TableInv s1 := by
  intro l
  induction l with
  | nil =>
    intro s s1 _ h hs
    simp only [handle_slots, Except.ok.injEq] at hs
    rw [← hs]; exact h
  | cons i rest ih =>
    intro s s1 hl h hs
    simp only [handle_slots] at hs
    cases hi : handle_slot w s i with
    | error e => rw [hi] at hs; simp at hs
    | ok s2 =>
      rw [hi] at hs
      exact ih s2 s1 (fun j hj => hl j (List.mem_cons_of_mem _ hj))
        (tableInv_handle_slot w s s2 i (hl i (List.mem_cons_self _ _)) h hi) hs

/-- What the service of the listening socket does when the loop goes on. -/
theorem accept_connection_spec (s s1 : Reactor) (w : Wake)
    (h : accept_connection s w = Except.ok s1) :
    (s1 = s ∧ (s.pollfds 0).revents &&& POLLIN = 0) ∨
    ((s.pollfds 0).revents &&& POLLERR = 0 ∧ (s.pollfds 0).revents &&& POLLIN ≠ 0 ∧
      0 ≤ w.accept_ret ∧ w.fcntl_ret = 0 ∧
      ∃ s2, install w.accept_ret w.malloc_ok (List.range MAX_CONNECTIONS) (accept_called s)
          = Except.ok s2 ∧
        ((s2.total_connections = MAX_CONNECTIONS ∧ 0 < (s2.pollfds SERVER_FD).fd ∧
            s1 = listener_negated s2) ∨
          (s2.total_connections ≠ MAX_CONNECTIONS ∧ s1 = s2))) := by
  unfold accept_connection at h
  simp only [ne_eq, ite_not] at h
  by_cases herr : (s.pollfds 0).revents &&& POLLERR = 0
  · rw [if_pos herr] at h
    by_cases hin : (s.pollfds 0).revents &&& POLLIN = 0
    · rw [if_pos hin, Except.ok.injEq] at h
      exact Or.inl ⟨h.symm, hin⟩
    · rw [if_neg hin] at h
      right
      by_cases hacc : w.accept_ret < 0
      · rw [if_pos hacc] at h
        simp at h
      · rw [if_neg hacc] at h
        by_cases hf : w.fcntl_ret = 0
        · rw [if_pos hf] at h
          refine ⟨herr, hin, by omega, hf, ?_⟩
          cases hi : install w.accept_ret w.malloc_ok (List.range MAX_CONNECTIONS)
              { s with calls := s.calls ++ [Sys.accept s.server_fd] } with
          | error e => rw [hi] at h; simp at h
          | ok s2 =>
            rw [hi] at h
            refine ⟨s2, hi, ?_⟩
            simp only [gt_iff_lt] at h
            by_cases hcap : s2.total_connections = (MAX_CONNECTIONS : Int)
            · rw [if_pos hcap] at h
              by_cases hpos : 0 < (s2.pollfds SERVER_FD).fd
              · rw [if_pos hpos, Except.ok.injEq] at h
                exact Or.inl ⟨hcap, hpos, h.symm⟩
              · rw [if_neg hpos] at h
                simp at h
            · rw [if_neg hcap, Except.ok.injEq] at h
              exact Or.inr ⟨hcap, h.symm⟩
        · rw [if_neg hf] at h
          simp at h
  · rw [if_neg herr] at h
    simp at h

theorem tableInv_listener_negated (s : Reactor) (h : TableInv s) :
    TableInv (listener_negated s) := by
  obtain ⟨h1, h2, h3⟩ := h
  refine ⟨h1, ?_, h3⟩
  intro j hj
  have hne : FIRST_CONNECTION + j ≠ SERVER_FD := by unfold FIRST_CONNECTION SERVER_FD; omega
  show (Function.update s.pollfds SERVER_FD _ (FIRST_CONNECTION + j)).fd = _
  rw [Function.update_noteq hne]
  exact h2 j hj

theorem tableInv_accept_connection (s s1 : Reactor) (w : Wake) (h : TableInv s)
    (ha : accept_connection s w = Except.ok s1) : TableInv s1 := by
  rcases accept_connection_spec s s1 w ha with ⟨h1, _⟩ | ⟨_, _, hfd, _, s2, hin, hcase⟩
  · rw [h1]; exact h
  · have h2 : TableInv s2 :=
      tableInv_install w.accept_ret w.malloc_ok (List.range MAX_CONNECTIONS) (accept_called s) s2
        (fun i hi => List.mem_range.mp hi) hfd h hin
    rcases hcase with ⟨_, _, h1⟩ | ⟨_, h1⟩
    · rw [h1]; exact tableInv_listener_negated s2 h2
    · rw [h1]; exact h2

theorem tableInv_polled (s : Reactor) (w : Wake) (h : TableInv s) : TableInv (polled s w) := by
  obtain ⟨h1, h2, h3⟩ := h
  refine ⟨h1, ?_, h3⟩
  intro j hj
  show (poll s.pollfds w.ready (FIRST_CONNECTION + j)).fd = _
  rw [poll_fd]
  exact h2 j hj

/-- What an iteration does when the loop goes on. -/
theorem iteration_spec (s s1 : Reactor) (w : Wake) (h : iteration s w = Outcome.running s1) :
    0 ≤ w.poll_ret ∧
    ∃ s2, accept_connection (polled s w) w = Except.ok s2 ∧
      (s2.pollfds 1).revents &&& POLLERR = 0 ∧ (s2.pollfds 1).revents &&& POLLIN = 0 ∧
      handle_slots w (List.range MAX_CONNECTIONS) s2 = Except.ok s1 := by
  unfold iteration at h
  simp only [ne_eq, ite_not] at h
  by_cases hp : w.poll_ret < 0
  · rw [if_pos hp] at h
    simp at h
  · rw [if_neg hp] at h
    refine ⟨by omega, ?_⟩
    cases ha : accept_connection { s with pollfds := poll s.pollfds w.ready } w with
    | error e =>
      rw [ha] at h
      cases e <;> simp [Stop.outcome] at h
    | ok s2 =>
      rw [ha] at h
      refine ⟨s2, ha, ?_⟩
      simp only [] at h
      by_cases herr : (s2.pollfds 1).revents &&& POLLERR = 0
      · rw [if_pos herr] at h
        by_cases hin : (s2.pollfds 1).revents &&& POLLIN = 0
        · rw [if_pos hin] at h
          refine ⟨herr, hin, ?_⟩
          cases hs : handle_slots w (List.range MAX_CONNECTIONS) s2 with
          | error e =>
            rw [hs] at h
            cases e <;> simp [Stop.outcome] at h
          | ok s3 =>
            rw [hs] at h
            simp only [Outcome.running.injEq] at h
            rw [h]
        · rw [if_neg hin] at h
          split at h <;> simp at h
      · rw [if_neg herr] at h
        simp at h

theorem tableInv_iteration (s s1 : Reactor) (w : Wake) (h : TableInv s)
    (hi : iteration s w = Outcome.running s1) : TableInv s1 := by
  obtain ⟨_, s2, ha, _, _, hs⟩ := iteration_spec s s1 w hi
  exact tableInv_handle_slots w (List.range MAX_CONNECTIONS) s2 s1
    (fun i hi => List.mem_range.mp hi)
    (tableInv_accept_connection (polled s w) s2 w (tableInv_polled s w h) ha) hs

/-- A run that is still going has made its way through running states. -/
theorem run_invariant (P : Reactor → Prop)
    (hstep : ∀ s s1 w, P s → iteration s w = Outcome.running s1 → P s1) :
    ∀ (ws : List Wake) (s s1 : Reactor), P s → run s ws = Outcome.running s1 → P s1 := by
  intro ws
  induction ws with
  | nil =>
    intro s s1 h hr
    simp only [run, Outcome.running.injEq] at hr
    rw [← hr]; exact h
  | cons w rest ih =>
    intro s s1 h hr
    simp only [run] at hr
    cases hi : iteration s w with
    | running s2 =>
      rw [hi] at hr
      exact ih s2 s1 (hstep s s2 w h hi) hr
    | exited a b c => rw [hi] at hr; simp at hr
    | fatal e => rw [hi] at hr; simp at hr
    | aborted a => rw [hi] at hr; simp at hr

theorem tableInv_main_init (sfd gfd : Int) : TableInv (main_init sfd gfd) := by
  refine ⟨?_, ?_, ?_⟩
  · show (0 : Int) = ((occupied (fun _ => none) : Nat) : Int)
    unfold occupied
    simp
  · intro j _
    have h0 : FIRST_CONNECTION + j ≠ SERVER_FD := by unfold FIRST_CONNECTION SERVER_FD; omega
    have h1 : FIRST_CONNECTION + j ≠ SIGNAL_FD := by unfold FIRST_CONNECTION SIGNAL_FD; omega
    simp only [main_init, h0, h1, if_false]
    rfl
  · intro j c _ hc
    simp [main_init] at hc

theorem tableInv_run (sfd gfd : Int) (ws : List Wake) (s : Reactor)
    (h : run (main_init sfd gfd) ws = Outcome.running s) : TableInv s :=
  run_invariant TableInv (fun s s1 w hs hi => tableInv_iteration s s1 w hs hi) ws
    (main_init sfd gfd) s (tableInv_main_init sfd gfd) h

theorem listenerInv_polled (sfd : Int) (s : Reactor) (w : Wake) (h : ListenerInv sfd s) :
    ListenerInv sfd (polled s w) := by
  obtain ⟨h1, h2, h3⟩ := h
  refine ⟨h1, h2, ?_⟩
  show (poll s.pollfds w.ready SERVER_FD).fd = _
  rw [poll_fd]
  exact h3

theorem listenerInv_installed (sfd : Int) (s : Reactor) (fd : Int) (i : Nat)
    (hnot : s.total_connections ≠ MAX_CONNECTIONS)
    (h : ListenerInv sfd s) :
    (installed s fd i).server_fd = sfd ∧
    (installed s fd i).total_connections = s.total_connections + 1 ∧
    ((installed s fd i).pollfds SERVER_FD).fd = sfd := by
  obtain ⟨h1, _, h3⟩ := h
  refine ⟨h1, rfl, ?_⟩
  have hne : SERVER_FD ≠ FIRST_CONNECTION + i := by unfold SERVER_FD FIRST_CONNECTION; omega
  show (Function.update s.pollfds (FIRST_CONNECTION + i) _ SERVER_FD).fd = sfd
  rw [Function.update_noteq hne, h3, if_neg hnot]

theorem listenerInv_accept_connection (sfd : Int) (hsfd : 0 < sfd) (s s1 : Reactor) (w : Wake)
    (h : ListenerInv sfd s) (ha : accept_connection (polled s w) w = Except.ok s1) :
    ListenerInv sfd s1 := by
  rcases accept_connection_spec (polled s w) s1 w ha with
    ⟨h1, _⟩ | ⟨_, hin, _, _, s2, hinst, hcase⟩
  · rw [h1]; exact listenerInv_polled sfd s w h
  · have hp := listenerInv_polled sfd s w h
    obtain ⟨p1, p2, p3⟩ := hp
    have hnot : s.total_connections ≠ (MAX_CONNECTIONS : Int) := by
      intro hcap
      obtain ⟨_, _, h3⟩ := h
      rw [if_pos hcap] at h3
      have hrev : (poll s.pollfds w.ready 0).revents = 0 :=
        poll_revents_disabled s.pollfds w.ready 0 (by decide) (by
          show (s.pollfds SERVER_FD).fd < 0
          rw [h3]; omega)
      apply hin
      show (poll s.pollfds w.ready 0).revents &&& POLLIN = 0
      rw [hrev]
      exact Nat.zero_and _
    rcases install_spec _ _ _ _ _ hinst with ⟨e1, _⟩ | ⟨i, _, _, _, e1, hle⟩
    · have ht : s2.total_connections = s.total_connections := by rw [e1]; rfl
      rcases hcase with ⟨hc, _, _⟩ | ⟨_, e2⟩
      · rw [ht] at hc; exact absurd hc hnot
      · rw [e2, e1]
        exact ⟨p1, p2, p3⟩
    · have hacc : ListenerInv sfd (accept_called (polled s w)) := ⟨p1, p2, p3⟩
      obtain ⟨q1, q2, q3⟩ := listenerInv_installed sfd (accept_called (polled s w))
        w.accept_ret i hnot hacc
      rw [← e1] at q1 q2 q3
      rcases hcase with ⟨hc, _, e2⟩ | ⟨hc, e2⟩
      · rw [e2]
        refine ⟨q1, ?_, ?_⟩
        · show s2.total_connections ≤ _
          rw [hc]
        · show (Function.update s2.pollfds SERVER_FD _ SERVER_FD).fd =
            if s2.total_connections = MAX_CONNECTIONS then -sfd else sfd
          rw [Function.update_same, if_pos hc]
          show -(s2.pollfds SERVER_FD).fd = -sfd
          rw [q3]
      · rw [e2]
        refine ⟨q1, ?_, ?_⟩
        · rw [q2]; exact hle
        · rw [if_neg hc]; exact q3

theorem listenerInv_handled (sfd : Int) (s : Reactor) (i : Nat) (r : HandleResult)
    (h : ListenerInv sfd s) : ListenerInv sfd (handled s i r) := by
  obtain ⟨h1, h2, h3⟩ := h
  refine ⟨h1, h2, ?_⟩
  have hne : SERVER_FD ≠ i + FIRST_CONNECTION := by unfold SERVER_FD FIRST_CONNECTION; omega
  have e : (handled s i r).pollfds SERVER_FD = s.pollfds SERVER_FD := by
    unfold handled
    simp only [Function.update_noteq hne]
  rw [e]
  exact h3

theorem listenerInv_release (sfd : Int) (s s1 : Reactor) (i : Nat) (ctx : context)
    (h : ListenerInv sfd s) (hr : release s i ctx = Except.ok s1) : ListenerInv sfd s1 := by
  obtain ⟨h1, h2, h3⟩ := h
  obtain ⟨_, r2, _, r4, _, _, _, r8⟩ := release_spec s i ctx s1 hr
  have hne : SERVER_FD ≠ i + FIRST_CONNECTION := by unfold SERVER_FD FIRST_CONNECTION; omega
  refine ⟨by rw [r4]; exact h1, by rw [r2]; omega, ?_⟩
  rw [r8, r2]
  by_cases hcap : s.total_connections = (MAX_CONNECTIONS : Int)
  · rw [if_pos hcap, Function.update_same]
    have hn : ¬ (s.total_connections - 1 = (MAX_CONNECTIONS : Int)) := by omega
    rw [if_neg hn]
    show -(s.pollfds SERVER_FD).fd = sfd
    rw [h3, if_pos hcap]
    omega
  · rw [if_neg hcap, Function.update_noteq hne]
    have hn : ¬ (s.total_connections - 1 = (MAX_CONNECTIONS : Int)) := by omega
    rw [if_neg hn, h3, if_neg hcap]

theorem listenerInv_handle_slot (sfd : Int) (w : Wake) (s s1 : Reactor) (i : Nat)
    (h : ListenerInv sfd s) (hs : handle_slot w s i = Except.ok s1) : ListenerInv sfd s1 := by
  rcases handle_slot_spec w s s1 i hs with ⟨h1, _⟩ | ⟨c, _, _, _, _, hcase⟩
  · rw [h1]; exact h
  · have hh := listenerInv_handled sfd s i
      (handle_connection c (s.pollfds (i + FIRST_CONNECTION)).revents 0 0 (w.rd i) (w.wr i)) h
    rcases hcase with ⟨_, h1⟩ | ⟨_, h1⟩
    · rw [h1]; exact hh
    · exact listenerInv_release sfd _ s1 i _ hh h1

theorem listenerInv_handle_slots (sfd : Int) (w : Wake) :
    ∀ (l : List Nat) (s s1 : Reactor), ListenerInv sfd s →
      handle_slots w l s = Except.ok s1 → ListenerInv sfd s1 := by
  intro l
  induction l with
  | nil =>
    intro s s1 h hs
    simp only [handle_slots, Except.ok.injEq] at hs
    rw [← hs]; exact h
  | cons i rest ih =>
    intro s s1 h hs
    simp only [handle_slots] at hs
    cases hi : handle_slot w s i with
    | error e => rw [hi] at hs; simp at hs
    | ok s2 =>
      rw [hi] at hs
      exact ih s2 s1 (listenerInv_handle_slot sfd w s s2 i h hi) hs

theorem listenerInv_iteration (sfd : Int) (hsfd : 0 < sfd) (s s1 : Reactor) (w : Wake)
    (h : ListenerInv sfd s) (hi : iteration s w = Outcome.running s1) : ListenerInv sfd s1 := by
  obtain ⟨_, s2, ha, _, _, hs⟩ := iteration_spec s s1 w hi
  exact listenerInv_handle_slots sfd w (List.range MAX_CONNECTIONS) s2 s1
    (listenerInv_accept_connection sfd hsfd s s2 w h ha) hs

theorem listenerInv_main_init (sfd gfd : Int) : ListenerInv sfd (main_init sfd gfd) := by
  refine ⟨rfl, ?_, ?_⟩
  · show (0 : Int) ≤ (MAX_CONNECTIONS : Int)
    decide
  · show sfd = if (0 : Int) = (MAX_CONNECTIONS : Int) then -sfd else sfd
    rw [if_neg (by decide)]

theorem listenerInv_run (sfd gfd : Int) (hsfd : 0 < sfd) (ws : List Wake) (s : Reactor)
    (h : run (main_init sfd gfd) ws = Outcome.running s) : ListenerInv sfd s :=
  run_invariant (ListenerInv sfd) (fun s s1 w hs hi => listenerInv_iteration sfd hsfd s s1 w hs hi)
    ws (main_init sfd gfd) s (listenerInv_main_init sfd gfd) h

/-- The slot search cannot fail its assertion while the counter agrees with the
table: it can only fail for want of memory. -/
theorem install_error (fd : Int) (m : Bool) (e : Stop) :
    ∀ (l : List Nat) (s : Reactor), (∀ i ∈ l, i < MAX_CONNECTIONS) → TableInv s →
      install fd m l s = Except.error e → e = Stop.fatal Fatal.create_connection := by
  intro l
  induction l with
  | nil =>
    intro s _ _ h
    simp [install] at h
  | cons i rest ih =>
    intro s hl hinv h
    cases hc : s.connections i with
    | some c =>
      simp only [install, hc] at h
      exact ih s (fun j hj => hl j (List.mem_cons_of_mem _ hj)) hinv h
    | none =>
      simp only [install, hc] at h
      cases m with
      | false =>
        simp only [Bool.false_eq_true, if_false, Except.error.injEq] at h
        exact h.symm
      | true =>
        simp only [if_true] at h
        have hocc := occupied_install s.connections i (create_connection fd)
          (hl i (List.mem_cons_self _ _)) hc
        have hle := occupied_le (Function.update s.connections i (some (create_connection fd)))
        have hle1 : s.total_connections + 1 ≤ (MAX_CONNECTIONS : Int) := by
          rw [hinv.1]
          omega
        rw [if_pos hle1] at h
        simp at h

/-- The two ways a release can fail. -/
theorem release_error (s : Reactor) (i : Nat) (ctx : context) (e : Stop)
    (h : release s i ctx = Except.error e) :
    (e = Stop.abort Assertion.server_fd_negative ∧ s.total_connections = MAX_CONNECTIONS ∧
      ¬ (s.pollfds SERVER_FD).fd < 0) ∨
    (e = Stop.abort Assertion.total_nonneg ∧ s.total_connections - 1 < 0) := by
  have hne : SERVER_FD ≠ i + FIRST_CONNECTION := by unfold SERVER_FD FIRST_CONNECTION; omega
  unfold release at h
  simp only [destroy_connection, Function.update_noteq hne] at h
  by_cases hcap : s.total_connections = (MAX_CONNECTIONS : Int)
  · rw [if_pos hcap] at h
    by_cases hneg : (s.pollfds SERVER_FD).fd < 0
    · rw [if_pos hneg] at h
      by_cases hnn : (0 : Int) ≤ s.total_connections - 1
      · simp only [hnn, if_true] at h
        simp at h
      · simp only [hnn, if_false, Except.error.injEq] at h
        exact Or.inr ⟨h.symm, by omega⟩
    · rw [if_neg hneg] at h
      simp only [Except.error.injEq] at h
      exact Or.inl ⟨h.symm, hcap, hneg⟩
  · rw [if_neg hcap] at h
    by_cases hnn : (0 : Int) ≤ s.total_connections - 1
    · simp only [hnn, if_true] at h
      simp at h
    · simp only [hnn, if_false, Except.error.injEq] at h
      exact Or.inr ⟨h.symm, by omega⟩

/-- The ways the body of the slot loop can end the process. -/
theorem handle_slot_error (w : Wake) (s : Reactor) (i : Nat) (e : Stop)
    (h : handle_slot w s i = Except.error e) :
    e = Stop.fatal Fatal.socket_failure ∨ e = Stop.fatal Fatal.handle_connection ∨
    (s.connections i = none ∧ (s.pollfds (i + FIRST_CONNECTION)).revents ≠ 0) ∨
    ∃ c, s.connections i = some c ∧
      release
        (handled s i
          (handle_connection c (s.pollfds (i + FIRST_CONNECTION)).revents 0 0 (w.rd i) (w.wr i)))
        i
        (handle_connection c (s.pollfds (i + FIRST_CONNECTION)).revents 0 0 (w.rd i)
          (w.wr i)).ctx = Except.error e := by
  unfold handle_slot at h
  simp only [ne_eq, ite_not] at h
  by_cases herr : (s.pollfds (i + FIRST_CONNECTION)).revents &&& POLLERR = 0
  · rw [if_pos herr] at h
    by_cases hrev : (s.pollfds (i + FIRST_CONNECTION)).revents = 0
    · rw [if_pos hrev] at h
      simp at h
    · rw [if_neg hrev] at h
      cases hc : s.connections i with
      | none => exact Or.inr (Or.inr (Or.inl ⟨rfl, hrev⟩))
      | some c =>
        simp only [hc] at h
        by_cases hret : (handle_connection c (s.pollfds (i + FIRST_CONNECTION)).revents 0 0
            (w.rd i) (w.wr i)).ret = 0
        · rw [if_pos hret] at h
          by_cases hcc : (handle_connection c (s.pollfds (i + FIRST_CONNECTION)).revents 0 0
              (w.rd i) (w.wr i)).connection_completed = 0
          · rw [if_pos hcc] at h
            simp at h
          · rw [if_neg hcc] at h
            exact Or.inr (Or.inr (Or.inr ⟨c, rfl, h⟩))
        · rw [if_neg hret, Except.error.injEq] at h
          exact Or.inr (Or.inl h.symm)
  · rw [if_neg herr, Except.error.injEq] at h
    exact Or.inl h.symm

/-- The body of the loop for slot `i` leaves the other slots and their
registrations as they are. -/
theorem handle_slot_frame (w : Wake) (s s1 : Reactor) (i : Nat)
    (h : handle_slot w s i = Except.ok s1) (j : Nat) (hj : j ≠ i) :
    s1.connections j = s.connections j ∧
      s1.pollfds (j + FIRST_CONNECTION) = s.pollfds (j + FIRST_CONNECTION) := by
  have hne : j + FIRST_CONNECTION ≠ i + FIRST_CONNECTION := by omega
  have hne0 : j + FIRST_CONNECTION ≠ SERVER_FD := by unfold FIRST_CONNECTION SERVER_FD; omega
  rcases handle_slot_spec w s s1 i h with ⟨h1, _⟩ | ⟨c, _, _, _, _, hcase⟩
  · rw [h1]; exact ⟨rfl, rfl⟩
  · rcases hcase with ⟨_, h1⟩ | ⟨_, h1⟩
    · rw [h1]
      unfold handled
      simp only [Function.update_noteq hj, Function.update_noteq hne, and_self]
    · obtain ⟨r1, _, _, _, _, _, _, r8⟩ := release_spec _ i _ s1 h1
      rw [r1, r8]
      unfold handled
      constructor
      · simp only [Function.update_noteq hj]
      · split
        · simp only [Function.update_noteq hne0, Function.update_noteq hne]
        · simp only [Function.update_noteq hne]

/-- With the table invariant and no readiness reported for an empty slot, the
only assertion the body of the slot loop can fail is the one on the entry of
the listening socket. -/
theorem handle_slot_abort (w : Wake) (s : Reactor) (i : Nat) (a : Assertion)
    (hi : i < MAX_CONNECTIONS) (hinv : TableInv s)
    (hquiet : s.connections i = none → (s.pollfds (i + FIRST_CONNECTION)).revents = 0)
    (h : handle_slot w s i = Except.error (Stop.abort a)) :
    a = Assertion.server_fd_negative ∧ s.total_connections = MAX_CONNECTIONS ∧
      ¬ (s.pollfds SERVER_FD).fd < 0 := by
  have hne : SERVER_FD ≠ i + FIRST_CONNECTION := by unfold SERVER_FD FIRST_CONNECTION; omega
  rcases handle_slot_error w s i _ h with h1 | h1 | ⟨h1, h2⟩ | ⟨c, hc, h1⟩
  · simp at h1
  · simp at h1
  · exact absurd (hquiet h1) h2
  · rcases release_error _ i _ _ h1 with ⟨e1, e2, e3⟩ | ⟨_, e2⟩
    · refine ⟨by simpa using e1, e2, ?_⟩
      have e : (handled s i (handle_connection c (s.pollfds (i + FIRST_CONNECTION)).revents
          0 0 (w.rd i) (w.wr i))).pollfds SERVER_FD = s.pollfds SERVER_FD := by
        unfold handled
        simp only [Function.update_noteq hne]
      rw [e] at e3
      exact e3
    · exfalso
      have hocc := occupied_release s.connections i c hi hc
      have ht : (handled s i (handle_connection c (s.pollfds (i + FIRST_CONNECTION)).revents
          0 0 (w.rd i) (w.wr i))).total_connections = s.total_connections := rfl
      rw [ht, hinv.1] at e2
      omega

theorem handle_slots_abort (w : Wake) (a : Assertion) :
    ∀ (l : List Nat) (s : Reactor), (∀ i ∈ l, i < MAX_CONNECTIONS) → l.Nodup → TableInv s →
      (∀ i ∈ l, s.connections i = none → (s.pollfds (i + FIRST_CONNECTION)).revents = 0) →
      handle_slots w l s = Except.error (Stop.abort a) →
      a = Assertion.server_fd_negative := by
  intro l
  induction l with
  | nil =>
    intro s _ _ _ _ h
    simp [handle_slots] at h
  | cons i rest ih =>
    intro s hl hnd hinv hquiet h
    simp only [handle_slots] at h
    cases hs : handle_slot w s i with
    | error e =>
      rw [hs] at h
      simp only [Except.error.injEq] at h
      rw [h] at hs
      exact (handle_slot_abort w s i a (hl i (List.mem_cons_self _ _)) hinv
        (hquiet i (List.mem_cons_self _ _)) hs).1
    | ok s2 =>
      rw [hs] at h
      have hnd2 := List.nodup_cons.mp hnd
      refine ih s2 (fun j hj => hl j (List.mem_cons_of_mem _ hj)) hnd2.2
        (tableInv_handle_slot w s s2 i (hl i (List.mem_cons_self _ _)) hinv hs) ?_ h
      intro j hj hnone
      have hji : j ≠ i := fun e => hnd2.1 (e ▸ hj)
      obtain ⟨f1, f2⟩ := handle_slot_frame w s s2 i hs j hji
      rw [f2]
      rw [f1] at hnone
      exact hquiet j (List.mem_cons_of_mem _ hj) hnone

/-- With the table invariant, the only assertion the service of the listening
socket can fail is the one on its own entry. -/
theorem accept_connection_abort (s : Reactor) (w : Wake) (a : Assertion) (hinv : TableInv s)
    (h : accept_connection s w = Except.error (Stop.abort a)) :
    a = Assertion.server_fd_positive ∧
      ∃ s2, install w.accept_ret w.malloc_ok (List.range MAX_CONNECTIONS) (accept_called s)
          = Except.ok s2 ∧ (s.pollfds 0).revents &&& POLLIN ≠ 0 ∧
        s2.total_connections = MAX_CONNECTIONS ∧ ¬ 0 < (s2.pollfds SERVER_FD).fd := by
  unfold accept_connection at h
  simp only [ne_eq, ite_not] at h
  by_cases herr : (s.pollfds 0).revents &&& POLLERR = 0
  · rw [if_pos herr] at h
    by_cases hin : (s.pollfds 0).revents &&& POLLIN = 0
    · rw [if_pos hin] at h
      simp at h
    · rw [if_neg hin] at h
      by_cases hacc : w.accept_ret < 0
      · rw [if_pos hacc] at h
        simp at h
      · rw [if_neg hacc] at h
        by_cases hf : w.fcntl_ret = 0
        · rw [if_pos hf] at h
          cases hi : install w.accept_ret w.malloc_ok (List.range MAX_CONNECTIONS)
              { s with calls := s.calls ++ [Sys.accept s.server_fd] } with
          | error e =>
            rw [hi] at h
            simp only [Except.error.injEq] at h
            have := install_error w.accept_ret w.malloc_ok e (List.range MAX_CONNECTIONS)
              (accept_called s) (fun i hi => List.mem_range.mp hi) hinv hi
            rw [h] at this
            simp at this
          | ok s2 =>
            rw [hi] at h
            simp only [gt_iff_lt] at h
            by_cases hcap : s2.total_connections = (MAX_CONNECTIONS : Int)
            · rw [if_pos hcap] at h
              by_cases hpos : 0 < (s2.pollfds SERVER_FD).fd
              · rw [if_pos hpos] at h
                simp at h
              · rw [if_neg hpos] at h
                simp only [Except.error.injEq, Stop.abort.injEq] at h
                exact ⟨h.symm, s2, hi, hin, hcap, hpos⟩
            · rw [if_neg hcap] at h
              simp at h
        · rw [if_neg hf] at h
          simp at h
  · rw [if_neg herr] at h
    simp at h

/-- After the listening socket was serviced, every slot that is still empty has
no readiness reported: `poll` ignored its entry. -/
theorem accept_connection_quiet (s s2 : Reactor) (w : Wake) (hinv : TableInv s)
    (ha : accept_connection (polled s w) w = Except.ok s2) (i : Nat)
    (hi : i < MAX_CONNECTIONS) (hnone : s2.connections i = none) :
    (s2.pollfds (i + FIRST_CONNECTION)).revents = 0 := by
  have hne0 : i + FIRST_CONNECTION ≠ SERVER_FD := by unfold FIRST_CONNECTION SERVER_FD; omega
  have hpolled : s.connections i = none → ((polled s w).pollfds (i + FIRST_CONNECTION)).revents = 0 := by
    intro hn
    have hfd := hinv.2.1 i hi
    rw [hn, Nat.add_comm] at hfd
    exact poll_revents_disabled s.pollfds w.ready (i + FIRST_CONNECTION)
      (by unfold POLLFDS FIRST_CONNECTION MAX_CONNECTIONS at *; omega)
      (by rw [hfd]; decide)
  have hinst : ∀ s3, install w.accept_ret w.malloc_ok (List.range MAX_CONNECTIONS)
      (accept_called (polled s w)) = Except.ok s3 → s3.connections i = none →
      (s3.pollfds (i + FIRST_CONNECTION)).revents = 0 := by
    intro s3 h3 hn
    rcases install_spec _ _ _ _ _ h3 with ⟨e1, _⟩ | ⟨k, _, _, _, e1, _⟩
    · rw [e1] at hn ⊢
      exact hpolled hn
    · rw [e1] at hn ⊢
      change Function.update s.connections k _ i = none at hn
      have hik : i ≠ k := by
        intro e
        rw [e, Function.update_same] at hn
        simp at hn
      rw [Function.update_noteq hik] at hn
      have hne : i + FIRST_CONNECTION ≠ FIRST_CONNECTION + k := by omega
      show (Function.update (polled s w).pollfds (FIRST_CONNECTION + k) _
        (i + FIRST_CONNECTION)).revents = 0
      rw [Function.update_noteq hne]
      exact hpolled hn
  rcases accept_connection_spec (polled s w) s2 w ha with
    ⟨h1, _⟩ | ⟨_, _, _, _, s3, h3, hcase⟩
  · rw [h1] at hnone ⊢
    exact hpolled hnone
  · rcases hcase with ⟨_, _, e2⟩ | ⟨_, e2⟩
    · rw [e2] at hnone ⊢
      have e : (listener_negated s3).pollfds (i + FIRST_CONNECTION) =
          s3.pollfds (i + FIRST_CONNECTION) := by
        unfold listener_negated
        simp only [Function.update_noteq hne0]
      rw [e]
      exact hinst s3 h3 hnone
    · rw [e2] at hnone ⊢
      exact hinst s3 h3 hnone

/-- Where a failed assertion of an iteration comes from. -/
theorem iteration_abort_spec (s : Reactor) (w : Wake) (a : Assertion)
    (h : iteration s w = Outcome.aborted a) :
    accept_connection (polled s w) w = Except.error (Stop.abort a) ∨
    ∃ s2, accept_connection (polled s w) w = Except.ok s2 ∧
      handle_slots w (List.range MAX_CONNECTIONS) s2 = Except.error (Stop.abort a) := by
  unfold iteration at h
  simp only [ne_eq, ite_not] at h
  by_cases hp : w.poll_ret < 0
  · rw [if_pos hp] at h
    simp at h
  · rw [if_neg hp] at h
    cases ha : accept_connection { s with pollfds := poll s.pollfds w.ready } w with
    | error e =>
      rw [ha] at h
      cases e with
      | fatal f => simp [Stop.outcome] at h
      | abort b =>
        simp only [Stop.outcome, Outcome.aborted.injEq] at h
        rw [h] at ha
        exact Or.inl ha
    | ok s2 =>
      rw [ha] at h
      simp only [] at h
      by_cases herr : (s2.pollfds 1).revents &&& POLLERR = 0
      · rw [if_pos herr] at h
        by_cases hin : (s2.pollfds 1).revents &&& POLLIN = 0
        · rw [if_pos hin] at h
          cases hs : handle_slots w (List.range MAX_CONNECTIONS) s2 with
          | error e =>
            rw [hs] at h
            cases e with
            | fatal f => simp [Stop.outcome] at h
            | abort b =>
              simp only [Stop.outcome, Outcome.aborted.injEq] at h
              rw [h] at hs
              exact Or.inr ⟨s2, ha, hs⟩
          | ok s3 =>
            rw [hs] at h
            simp at h
        · rw [if_neg hin] at h
          split at h <;> simp at h
      · rw [if_neg herr] at h
        simp at h

/-- From a state with the table invariant, an iteration can only fail the
assertions on the entry of the listening socket. -/
theorem iteration_aborted (s : Reactor) (w : Wake) (a : Assertion) (hinv : TableInv s)
    (h : iteration s w = Outcome.aborted a) :
    a = Assertion.server_fd_positive ∨ a = Assertion.server_fd_negative := by
  rcases iteration_abort_spec s w a h with ha | ⟨s2, ha, hs⟩
  · exact Or.inl (accept_connection_abort (polled s w) w a (tableInv_polled s w hinv) ha).1
  · right
    exact handle_slots_abort w a (List.range MAX_CONNECTIONS) s2
      (fun i hi => List.mem_range.mp hi) (List.nodup_range _)
      (tableInv_accept_connection (polled s w) s2 w (tableInv_polled s w hinv) ha)
      (fun i hi hn => accept_connection_quiet s s2 w hinv ha i (List.mem_range.mp hi) hn)
      hs

/-- At capacity `poll` reports nothing for the listening socket. -/
theorem listener_quiet_at_capacity (sfd : Int) (hsfd : 0 < sfd) (s : Reactor) (w : Wake)
    (h : ListenerInv sfd s) (hcap : s.total_connections = MAX_CONNECTIONS) :
    ((polled s w).pollfds 0).revents = 0 := by
  obtain ⟨_, _, h3⟩ := h
  rw [if_pos hcap] at h3
  exact poll_revents_disabled s.pollfds w.ready 0 (by decide) (by
    show (s.pollfds SERVER_FD).fd < 0
    rw [h3]; omega)

theorem handle_slots_no_abort (sfd : Int) (hsfd : 0 < sfd) (w : Wake) (a : Assertion) :
    ∀ (l : List Nat) (s : Reactor), (∀ i ∈ l, i < MAX_CONNECTIONS) → l.Nodup → TableInv s →
      ListenerInv sfd s →
      (∀ i ∈ l, s.connections i = none → (s.pollfds (i + FIRST_CONNECTION)).revents = 0) →
      handle_slots w l s ≠ Except.error (Stop.abort a) := by
  intro l
  induction l with
  | nil =>
    intro s _ _ _ _ _ h
    simp [handle_slots] at h
  | cons i rest ih =>
    intro s hl hnd hinv hlis hquiet h
    simp only [handle_slots] at h
    cases hs : handle_slot w s i with
    | error e =>
      rw [hs] at h
      simp only [Except.error.injEq] at h
      rw [h] at hs
      obtain ⟨_, hcap, hneg⟩ := handle_slot_abort w s i a (hl i (List.mem_cons_self _ _)) hinv
        (hquiet i (List.mem_cons_self _ _)) hs
      apply hneg
      rw [hlis.2.2, if_pos hcap]
      omega
    | ok s2 =>
      rw [hs] at h
      have hnd2 := List.nodup_cons.mp hnd
      refine ih s2 (fun j hj => hl j (List.mem_cons_of_mem _ hj)) hnd2.2
        (tableInv_handle_slot w s s2 i (hl i (List.mem_cons_self _ _)) hinv hs)
        (listenerInv_handle_slot sfd w s s2 i hlis hs) ?_ h
      intro j hj hnone
      have hji : j ≠ i := fun e => hnd2.1 (e ▸ hj)
      obtain ⟨f1, f2⟩ := handle_slot_frame w s s2 i hs j hji
      rw [f2]
      rw [f1] at hnone
      exact hquiet j (List.mem_cons_of_mem _ hj) hnone

/-- With both invariants and a positive listening descriptor no assertion of
an iteration fails. -/
theorem iteration_never_aborts (sfd : Int) (hsfd : 0 < sfd) (s : Reactor) (w : Wake)
    (a : Assertion) (hinv : TableInv s) (hlis : ListenerInv sfd s) :
    iteration s w ≠ Outcome.aborted a := by
  intro h
  rcases iteration_abort_spec s w a h with ha | ⟨s2, ha, hs⟩
  · obtain ⟨_, s3, hinst, hin, hcap, hpos⟩ :=
      accept_connection_abort (polled s w) w a (tableInv_polled s w hinv) ha
    have hnot : s.total_connections ≠ (MAX_CONNECTIONS : Int) := by
      intro hc
      apply hin
      rw [listener_quiet_at_capacity sfd hsfd s w hlis hc]
      exact Nat.zero_and _
    have hp := listenerInv_polled sfd s w hlis
    rcases install_spec _ _ _ _ _ hinst with ⟨e1, _⟩ | ⟨i, _, _, _, e1, _⟩
    · rw [e1] at hcap
      exact hnot hcap
    · obtain ⟨_, _, q3⟩ := listenerInv_installed sfd (accept_called (polled s w))
        w.accept_ret i hnot hp
      rw [← e1] at q3
      rw [q3] at hpos
      exact hpos hsfd
  · exact handle_slots_no_abort sfd hsfd w a (List.range MAX_CONNECTIONS) s2
      (fun i hi => List.mem_range.mp hi) (List.nodup_range _)
      (tableInv_accept_connection (polled s w) s2 w (tableInv_polled s w hinv) ha)
      (listenerInv_accept_connection sfd hsfd s s2 w hlis ha)
      (fun i hi hn => accept_connection_quiet s s2 w hinv ha i (List.mem_range.mp hi) hn)
      hs

/-- C4. Occupancy invariant: in every state the loop of `main` reaches from the
initial empty table, whatever `poll` reports and whatever the system calls
return, `total_connections` is the number of non-NULL entries of
`connections[]` and lies between 0 and `MAX_CONNECTIONS`, and no iteration
from such a state fails the assertions on `total_connections`.  The slot
search that finds a free slot adds exactly one to the counter and to the
number of occupied slots; a release of an occupied slot takes exactly one from
both. -/
theorem occupancy_invariant (sfd gfd : Int) (ws : List Wake) (s : Reactor)
    (hrun : run (main_init sfd gfd) ws = Outcome.running s) :
    s.total_connections = (occupied s.connections : Int) ∧
    0 ≤ s.total_connections ∧ s.total_connections ≤ MAX_CONNECTIONS ∧
    (∀ w, iteration s w ≠ Outcome.aborted Assertion.total_le_max ∧
      iteration s w ≠ Outcome.aborted Assertion.total_nonneg) ∧
    (∀ (t t1 : Reactor) (fd : Int) (m : Bool) (i : Nat), i < MAX_CONNECTIONS →
      t.connections i = none →
      install fd m (List.range MAX_CONNECTIONS) t = Except.ok t1 →
      t1.total_connections = t.total_connections + 1 ∧
        occupied t1.connections = occupied t.connections + 1) ∧
    (∀ (t t1 : Reactor) (i : Nat) (c ctx : context), i < MAX_CONNECTIONS →
      t.connections i = some c → release t i ctx = Except.ok t1 →
      t1.total_connections = t.total_connections - 1 ∧
        occupied t1.connections + 1 = occupied t.connections) := by
  have hinv := tableInv_run sfd gfd ws s hrun
  have hle := occupied_le s.connections
  refine ⟨hinv.1, by rw [hinv.1]; omega, by rw [hinv.1]; omega, ?_, ?_, ?_⟩
  · intro w
    constructor
    · intro h
      rcases iteration_aborted s w _ hinv h with h1 | h1 <;> simp at h1
    · intro h
      rcases iteration_aborted s w _ hinv h with h1 | h1 <;> simp at h1
  · intro t t1 fd m i hi hfree hin
    rcases install_spec fd m _ t t1 hin with ⟨_, h2⟩ | ⟨k, hk, hkfree, _, e1, _⟩
    · exact absurd hfree (h2 i (List.mem_range.mpr hi))
    · rw [e1]
      exact ⟨rfl, occupied_install t.connections k _ (List.mem_range.mp hk) hkfree⟩
  · intro t t1 i c ctx hi hc hr
    obtain ⟨r1, r2, _⟩ := release_spec t i ctx t1 hr
    rw [r1]
    exact ⟨r2, occupied_release t.connections i c hi hc⟩

/-- Witness of C4: after one accepted connection the counter and the number of
occupied slots are both 1. -/
theorem occupancy_invariant_witness :
    ∃ s, run (main_init 3 4) [wake_accept 5] = Outcome.running s ∧
      s.total_connections = (occupied s.connections : Int) ∧ s.total_connections = 1 :=
  ⟨_, rfl, (occupancy_invariant 3 4 [wake_accept 5] _ rfl).1, rfl⟩

/-- With no readiness reported for the listening socket its service does
nothing: no `accept` is made and the state is unchanged. -/
theorem accept_connection_quiet_listener (s : Reactor) (w : Wake)
    (h : (s.pollfds 0).revents = 0) : accept_connection s w = Except.ok s := by
  unfold accept_connection
  simp only [h, Nat.zero_and, ne_eq, not_true_eq_false, if_false]

/-- C5. Backpressure invariant: when the descriptor returned by `create_server`
is positive, in every state in which the loop of `main` waits in `poll` the
entry of the listening socket is negative exactly when `total_connections` is
`MAX_CONNECTIONS`; it then holds the negated descriptor and otherwise the
descriptor itself.  At capacity the service of the listening socket makes no
`accept` and changes nothing.  A release at capacity negates the negative entry
back, a release below capacity leaves the entry as it is.  No assertion of an
iteration fails. -/
theorem backpressure_invariant (sfd gfd : Int) (hsfd : 0 < sfd) (ws : List Wake) (s : Reactor)
    (hrun : run (main_init sfd gfd) ws = Outcome.running s) :
    ((s.pollfds SERVER_FD).fd < 0 ↔ s.total_connections = MAX_CONNECTIONS) ∧
    (s.pollfds SERVER_FD).fd =
      (if s.total_connections = MAX_CONNECTIONS then -sfd else sfd) ∧
    (s.total_connections = MAX_CONNECTIONS →
      ∀ w, accept_connection (polled s w) w = Except.ok (polled s w)) ∧
    (∀ (t t1 : Reactor) (i : Nat) (ctx : context), release t i ctx = Except.ok t1 →
      (t.total_connections = MAX_CONNECTIONS →
        (t.pollfds SERVER_FD).fd < 0 ∧ (t1.pollfds SERVER_FD).fd = -(t.pollfds SERVER_FD).fd) ∧
      (t.total_connections ≠ MAX_CONNECTIONS →
        t1.pollfds SERVER_FD = t.pollfds SERVER_FD)) ∧
    (∀ w a, iteration s w ≠ Outcome.aborted a) := by
  have hinv := tableInv_run sfd gfd ws s hrun
  have hlis := listenerInv_run sfd gfd hsfd ws s hrun
  refine ⟨?_, hlis.2.2, ?_, ?_, ?_⟩
  · rw [hlis.2.2]
    constructor
    · intro h
      by_contra hc
      rw [if_neg hc] at h
      omega
    · intro h
      rw [if_pos h]
      omega
  · intro hcap w
    exact accept_connection_quiet_listener (polled s w) w
      (listener_quiet_at_capacity sfd hsfd s w hlis hcap)
  · intro t t1 i ctx hr
    have hne : SERVER_FD ≠ i + FIRST_CONNECTION := by unfold SERVER_FD FIRST_CONNECTION; omega
    obtain ⟨_, _, _, _, _, _, r7, r8⟩ := release_spec t i ctx t1 hr
    constructor
    · intro hcap
      refine ⟨r7 hcap, ?_⟩
      rw [r8, if_pos hcap, Function.update_same]
    · intro hcap
      rw [r8, if_neg hcap, Function.update_noteq hne]
  · intro w a
    exact iteration_never_aborts sfd hsfd s w a hinv hlis

/-- Witness of C5: after ten accepted connections the entry of the listening
socket 3 holds -3. -/
theorem backpressure_invariant_witness :
    ∃ s, run (main_init 3 4)
        [wake_accept 5, wake_accept 6, wake_accept 7, wake_accept 8, wake_accept 9,
         wake_accept 10, wake_accept 11, wake_accept 12, wake_accept 13, wake_accept 14]
        = Outcome.running s ∧
      s.total_connections = 10 ∧ (s.pollfds SERVER_FD).fd = -3 ∧
      ((s.pollfds SERVER_FD).fd < 0 ↔ s.total_connections = MAX_CONNECTIONS) :=
  ⟨_, rfl, rfl, rfl,
    (backpressure_invariant 3 4 (by decide)
      [wake_accept 5, wake_accept 6, wake_accept 7, wake_accept 8, wake_accept 9,
       wake_accept 10, wake_accept 11, wake_accept 12, wake_accept 13, wake_accept 14]
      _ rfl).1⟩

/-- C6. Table and registration mirror each other: in every state the loop of
`main` reaches, for every slot `i` below `MAX_CONNECTIONS`, `connections[i]` is
non-NULL exactly when `pollfds[FIRST_CONNECTION + i].fd` is non-negative, the
entry of an occupied slot holds the socket of its connection, and the entry of
an empty slot holds -1.  Hence, `poll` reporting nothing for a negative entry,
no iteration fails the assertion of `handle_connection` or of
`destroy_connection` on a NULL context. -/
theorem mirror_invariant (sfd gfd : Int) (ws : List Wake) (s : Reactor)
    (hrun : run (main_init sfd gfd) ws = Outcome.running s) :
    (∀ i, i < MAX_CONNECTIONS →
      ((s.connections i ≠ none ↔ 0 ≤ (s.pollfds (FIRST_CONNECTION + i)).fd) ∧
        (∀ c, s.connections i = some c → (s.pollfds (FIRST_CONNECTION + i)).fd = c.fd) ∧
        (s.connections i = none → (s.pollfds (FIRST_CONNECTION + i)).fd = -1))) ∧
    (∀ w, iteration s w ≠ Outcome.aborted Assertion.handle_ctx ∧
      iteration s w ≠ Outcome.aborted Assertion.destroy_ctx) := by
  have hinv := tableInv_run sfd gfd ws s hrun
  constructor
  · intro i hi
    have hfd := hinv.2.1 i hi
    cases hc : s.connections i with
    | none =>
      rw [hc] at hfd
      refine ⟨?_, ?_, fun _ => hfd⟩
      · rw [hfd]
        constructor
        · intro h; exact absurd rfl h
        · intro h; exact absurd h (by decide)
      · intro c h; simp at h
    | some c =>
      rw [hc] at hfd
      refine ⟨?_, ?_, ?_⟩
      · rw [hfd]
        constructor
        · intro _; exact hinv.2.2 i c hi hc
        · intro _; simp
      · intro c1 h
        rw [← Option.some.inj h]
        exact hfd
      · intro h; simp at h
  · intro w
    constructor
    · intro h
      rcases iteration_aborted s w _ hinv h with h1 | h1 <;> simp at h1
    · intro h
      rcases iteration_aborted s w _ hinv h with h1 | h1 <;> simp at h1

/-- Witness of C6: after one accepted connection slot 0 holds the socket 5 and
slot 1 is empty with entry -1. -/
theorem mirror_invariant_witness :
    ∃ s, run (main_init 3 4) [wake_accept 5] = Outcome.running s ∧
      (s.pollfds (FIRST_CONNECTION + 0)).fd = 5 ∧ (s.pollfds (FIRST_CONNECTION + 1)).fd = -1 ∧
      (s.connections 0 ≠ none ↔ 0 ≤ (s.pollfds (FIRST_CONNECTION + 0)).fd) :=
  ⟨_, rfl, rfl, rfl,
    ((mirror_invariant 3 4 [wake_accept 5] _ rfl).1 0 (by decide)).1⟩

/-- A release goes through when its two assertions hold. -/
theorem release_ok (t : Reactor) (i : Nat) (ctx : context)
    (h1 : 1 ≤ t.total_connections)
    (h2 : t.total_connections = MAX_CONNECTIONS → (t.pollfds SERVER_FD).fd < 0) :
    ∃ t1, release t i ctx = Except.ok t1 := by
  cases hr : release t i ctx with
  | ok t1 => exact ⟨t1, rfl⟩
  | error e =>
    exfalso
    rcases release_error t i ctx e hr with ⟨_, e2, e3⟩ | ⟨_, e2⟩
    · exact e3 (h2 e2)
    · omega

/-- The body of the slot loop when `handle_connection` returns 0 and reports
completion: the slot is released. -/
theorem handle_slot_completed (w : Wake) (t : Reactor) (i : Nat) (c : context)
    (hc : t.connections i = some c)
    (hrev : (t.pollfds (i + FIRST_CONNECTION)).revents ≠ 0)
    (herr : (t.pollfds (i + FIRST_CONNECTION)).revents &&& POLLERR = 0)
    (hret : (handle_connection c (t.pollfds (i + FIRST_CONNECTION)).revents 0 0 (w.rd i)
      (w.wr i)).ret = 0)
    (hcc : (handle_connection c (t.pollfds (i + FIRST_CONNECTION)).revents 0 0 (w.rd i)
      (w.wr i)).connection_completed ≠ 0) :
    handle_slot w t i =
      release
        (handled t i
          (handle_connection c (t.pollfds (i + FIRST_CONNECTION)).revents 0 0 (w.rd i) (w.wr i)))
        i
        (handle_connection c (t.pollfds (i + FIRST_CONNECTION)).revents 0 0 (w.rd i)
          (w.wr i)).ctx := by
  unfold handle_slot
  simp only [ne_eq, ite_not]
  rw [if_pos herr, if_neg hrev]
  simp only [hc]
  rw [if_pos hret, if_neg hcc]
  rfl

/-- Readiness with POLLERR on a slot ends the process before
`handle_connection` is called. -/
theorem handle_slot_pollerr (w : Wake) (t : Reactor) (i : Nat)
    (herr : (t.pollfds (i + FIRST_CONNECTION)).revents &&& POLLERR ≠ 0) :
    handle_slot w t i = Except.error (Stop.fatal Fatal.socket_failure) := by
  unfold handle_slot
  simp only [herr, ne_eq, not_false_eq_true, if_true]

/-- A mask with a bit set is not zero. -/
theorem mask_ne_zero (revents bit : Nat) (h : revents &&& bit ≠ 0) : revents ≠ 0 := by
  intro h0
  rw [h0, Nat.zero_and] at h
  exact h rfl

/-- The claim C7 fails for a mask that holds POLLERR without POLLHUP:
`handle_connection` reads, reports `completed = 0` and advances the cursor, and
the reactor ends the process in `handle_error("socket failure")`. -/
theorem hangup_or_error_counterexample :
    POLLERR &&& POLLERR ≠ 0 ∧
    (handle_connection (create_connection 5) POLLERR 0 0 (ReadOutcome.data [97])
      (WriteOutcome.fail 0)).calls = [Sys.read 5 0 65535] ∧
    (handle_connection (create_connection 5) POLLERR 0 0 (ReadOutcome.data [97])
      (WriteOutcome.fail 0)).connection_completed = 0 ∧
    (handle_connection (create_connection 5) POLLERR 0 0 (ReadOutcome.data [97])
      (WriteOutcome.fail 0)).ctx.bytes = 1 ∧
    run (main_init 3 4)
      [wake_accept 5, wake_slot 0 POLLERR (ReadOutcome.data [97]) (WriteOutcome.fail 0)]
      = Outcome.fatal Fatal.socket_failure :=
  ⟨by decide, by decide, by decide, by decide, rfl⟩

/-- C7, amended. Hangup readiness completes the connection without I/O: for
every context and every mask that holds POLLHUP, `handle_connection` returns 0
with `completed = 1`, makes no system call and leaves the context and
`events_out` as they were.  When the mask does not hold POLLERR as well, the
reactor goes on to release the slot, and the release goes through when its two
assertions hold: the socket is closed, the slot cleared, its entry set to -1
and the counter decremented.  A mask that holds POLLERR ends the process in
`handle_error("socket failure")` before `handle_connection` is called. -/
theorem hangup_completes_without_io (ctx : context) (revents events_out : Nat) (cc : Int)
    (rd : ReadOutcome) (wr : WriteOutcome) (hup : revents &&& POLLHUP ≠ 0) :
    handle_connection ctx revents events_out cc rd wr =
      { ret := 0, ctx := ctx, events_out := events_out, connection_completed := 1,
        calls := [] } ∧
    (∀ (t : Reactor) (w : Wake) (i : Nat), t.connections i = some ctx →
      (t.pollfds (i + FIRST_CONNECTION)).revents = revents → revents &&& POLLERR = 0 →
      1 ≤ t.total_connections →
      (t.total_connections = MAX_CONNECTIONS → (t.pollfds SERVER_FD).fd < 0) →
      ∃ t1, handle_slot w t i = Except.ok t1 ∧ t1.connections i = none ∧
        (t1.pollfds (i + FIRST_CONNECTION)).fd = -1 ∧
        t1.calls = t.calls ++ [Sys.close ctx.fd] ∧
        t1.total_connections = t.total_connections - 1) ∧
    (∀ (t : Reactor) (w : Wake) (i : Nat),
      (t.pollfds (i + FIRST_CONNECTION)).revents &&& POLLERR ≠ 0 →
      handle_slot w t i = Except.error (Stop.fatal Fatal.socket_failure)) := by
  have hhc : ∀ (e : Nat) (k : Int) (r : ReadOutcome) (x : WriteOutcome),
      handle_connection ctx revents e k r x =
        { ret := 0, ctx := ctx, events_out := e, connection_completed := 1, calls := [] } := by
    intro e k r x
    unfold handle_connection
    rw [if_pos hup]
  refine ⟨hhc _ _ _ _, ?_, fun t w i h => handle_slot_pollerr w t i h⟩
  intro t w i hc hrev herr h1 h2
  have hne : SERVER_FD ≠ i + FIRST_CONNECTION := by unfold SERVER_FD FIRST_CONNECTION; omega
  have hstep := handle_slot_completed w t i ctx hc
    (by rw [hrev]; exact mask_ne_zero revents POLLHUP hup) (by rw [hrev]; exact herr)
    (by rw [hrev, hhc]) (by rw [hrev, hhc]; exact one_ne_zero)
  rw [hrev, hhc] at hstep
  have e : ∀ r : HandleResult, (handled t i r).pollfds SERVER_FD = t.pollfds SERVER_FD := by
    intro r
    unfold handled
    simp only [Function.update_noteq hne]
  obtain ⟨t1, ht1⟩ := release_ok (handled t i (case_DONE ctx [])) i ctx h1
    (by intro hcap; rw [e]; exact h2 hcap)
  obtain ⟨r1, r2, _, _, _, r6, _, r8⟩ := release_spec _ i ctx t1 ht1
  refine ⟨t1, by rw [hstep]; exact ht1, ?_, ?_, ?_, r2⟩
  · rw [r1, Function.update_same]
  · rw [r8]
    split
    · rw [Function.update_noteq hne.symm, Function.update_same]
    · rw [Function.update_same]
  · rw [r6]
    show t.calls ++ [] ++ [Sys.close ctx.fd] = _
    rw [List.append_nil]

/-- Witness of C7: hangup on a fresh connection completes it without a system
call. -/
theorem hangup_completes_without_io_witness :
    POLLHUP &&& POLLHUP ≠ 0 ∧
    handle_connection (create_connection 5) POLLHUP 0 0 (ReadOutcome.data [97])
        (WriteOutcome.fail 0) =
      { ret := 0, ctx := create_connection 5, events_out := 0, connection_completed := 1,
        calls := [] } :=
  ⟨by decide,
    (hangup_completes_without_io (create_connection 5) POLLHUP 0 0 (ReadOutcome.data [97])
      (WriteOutcome.fail 0) (by decide)).1⟩

/-- A failed `read` in READING: the return value is -1, the context and the
out-parameters are as on entry. -/
theorem handle_connection_read_fail (ctx : context) (revents events_out : Nat) (cc : Int)
    (errno : Nat) (wr : WriteOutcome) (hrev : revents &&& POLLHUP = 0)
    (hstate : ctx.state = state.READING) :
    handle_connection ctx revents events_out cc (ReadOutcome.fail errno) wr =
      { ret := -1, ctx := ctx, events_out := events_out, connection_completed := cc,
        calls := [Sys.read ctx.fd ctx.bytes (size_sub (size_sub BUF_SIZE ctx.bytes) 1)] } := by
  unfold handle_connection
  simp only [hrev, ne_eq, not_true_eq_false, if_false, hstate]

/-- A failed `write` in WRITING: the return value is -1, the context and the
out-parameters are as on entry. -/
theorem handle_connection_write_fail (ctx : context) (revents events_out : Nat) (cc : Int)
    (errno : Nat) (rd : ReadOutcome) (hrev : revents &&& POLLHUP = 0)
    (hstate : ctx.state = state.WRITING) :
    handle_connection ctx revents events_out cc rd (WriteOutcome.fail errno) =
      { ret := -1, ctx := ctx, events_out := events_out, connection_completed := cc,
        calls := [Sys.write ctx.fd ctx.bytes (size_sub (strlen ctx.buf) ctx.bytes)
          (slice ctx.buf ctx.bytes (size_sub (strlen ctx.buf) ctx.bytes))] } := by
  rw [handle_connection_writing ctx revents events_out cc rd _ hstate hrev]
  unfold case_WRITING
  simp only [List.nil_append]

/-- The body of the slot loop when `handle_connection` does not return 0: the
process ends in `handle_error("handle_connection")`. -/
theorem handle_slot_failed (w : Wake) (t : Reactor) (i : Nat) (c : context)
    (hc : t.connections i = some c)
    (hrev : (t.pollfds (i + FIRST_CONNECTION)).revents ≠ 0)
    (herr : (t.pollfds (i + FIRST_CONNECTION)).revents &&& POLLERR = 0)
    (hret : (handle_connection c (t.pollfds (i + FIRST_CONNECTION)).revents 0 0 (w.rd i)
      (w.wr i)).ret ≠ 0) :
    handle_slot w t i = Except.error (Stop.fatal Fatal.handle_connection) := by
  unfold handle_slot
  simp only [ne_eq, ite_not]
  rw [if_pos herr, if_neg hrev]
  simp only [hc]
  rw [if_neg hret]

/-- A failed `accept` ends the process in `handle_error("accept")`. -/
theorem accept_connection_failed (t : Reactor) (w : Wake)
    (herr : (t.pollfds 0).revents &&& POLLERR = 0)
    (hin : (t.pollfds 0).revents &&& POLLIN ≠ 0) (hacc : w.accept_ret < 0) :
    accept_connection t w = Except.error (Stop.fatal Fatal.accept) := by
  unfold accept_connection
  simp only [ne_eq, ite_not]
  rw [if_pos herr, if_neg hin, if_pos hacc]

/-- The claim C8 fails for a would-block failure of `read`, of `write` and of
`accept`: `handle_connection` returns -1, and the reactor ends the process in
`handle_error("handle_connection")`, respectively `handle_error("accept")`. -/
theorem would_block_counterexample :
    (handle_connection (create_connection 5) POLLIN 0 0 (ReadOutcome.fail EAGAIN)
      (WriteOutcome.fail EAGAIN)).ret = -1 ∧
    (handle_connection
      { fd := 5, state := state.WRITING, buf := filled [97, LF], bytes := 0, buf_end := some 1 }
      POLLOUT 0 0 (ReadOutcome.fail EAGAIN) (WriteOutcome.fail EAGAIN)).ret = -1 ∧
    run (main_init 3 4)
      [wake_accept 5, wake_slot 0 POLLIN (ReadOutcome.fail EAGAIN) (WriteOutcome.fail EAGAIN)]
      = Outcome.fatal Fatal.handle_connection ∧
    (wake_accept (-1)).accept_errno = EAGAIN ∧
    run (main_init 3 4) [wake_accept (-1)] = Outcome.fatal Fatal.accept :=
  ⟨by decide, by decide, rfl, rfl, rfl⟩

/-- C8, amended. A would-block failure is handled like every other failure:
for every `errno`, `EAGAIN` included, a failed `read` in READING and a failed
`write` in WRITING make `handle_connection` return -1 after the one system
call, with the context, `events_out` and `completed` as they were on entry;
the reactor then ends the process in `handle_error("handle_connection")`; and
a failed `accept` ends the process in `handle_error("accept")`. -/
theorem would_block_is_failure (ctx : context) (revents events_out : Nat) (cc : Int)
    (errno : Nat) (rd : ReadOutcome) (wr : WriteOutcome) (hrev : revents &&& POLLHUP = 0) :
    (ctx.state = state.READING →
      handle_connection ctx revents events_out cc (ReadOutcome.fail errno) wr =
        { ret := -1, ctx := ctx, events_out := events_out, connection_completed := cc,
          calls := [Sys.read ctx.fd ctx.bytes (size_sub (size_sub BUF_SIZE ctx.bytes) 1)] }) ∧
    (ctx.state = state.WRITING →
      handle_connection ctx revents events_out cc rd (WriteOutcome.fail errno) =
        { ret := -1, ctx := ctx, events_out := events_out, connection_completed := cc,
          calls := [Sys.write ctx.fd ctx.bytes (size_sub (strlen ctx.buf) ctx.bytes)
            (slice ctx.buf ctx.bytes (size_sub (strlen ctx.buf) ctx.bytes))] }) ∧
    (∀ (t : Reactor) (w : Wake) (i : Nat), t.connections i = some ctx →
      (t.pollfds (i + FIRST_CONNECTION)).revents = revents → revents ≠ 0 →
      revents &&& POLLERR = 0 →
      ((ctx.state = state.READING ∧ w.rd i = ReadOutcome.fail errno) ∨
        (ctx.state = state.WRITING ∧ w.wr i = WriteOutcome.fail errno)) →
      handle_slot w t i = Except.error (Stop.fatal Fatal.handle_connection)) ∧
    (∀ (t : Reactor) (w : Wake), (t.pollfds 0).revents &&& POLLERR = 0 →
      (t.pollfds 0).revents &&& POLLIN ≠ 0 → w.accept_ret < 0 →
      accept_connection t w = Except.error (Stop.fatal Fatal.accept)) := by
  refine ⟨fun hs => handle_connection_read_fail ctx revents events_out cc errno wr hrev hs,
    fun hs => handle_connection_write_fail ctx revents events_out cc errno rd hrev hs, ?_,
    fun t w herr hin hacc => accept_connection_failed t w herr hin hacc⟩
  intro t w i hc hr hne herr hcase
  apply handle_slot_failed w t i ctx hc (by rw [hr]; exact hne) (by rw [hr]; exact herr)
  rw [hr]
  rcases hcase with ⟨hs, hio⟩ | ⟨hs, hio⟩
  · rw [hio, handle_connection_read_fail ctx revents 0 0 errno _ hrev hs]
    show (-1 : Int) ≠ 0
    decide
  · rw [hio, handle_connection_write_fail ctx revents 0 0 errno _ hrev hs]
    show (-1 : Int) ≠ 0
    decide

/-- Witness of C8: a would-block `read` on a fresh connection returns -1 and
leaves the context as it was. -/
theorem would_block_is_failure_witness :
    POLLIN &&& POLLHUP = 0 ∧
    handle_connection (create_connection 5) POLLIN 0 0 (ReadOutcome.fail EAGAIN)
        (WriteOutcome.fail EAGAIN) =
      { ret := -1, ctx := create_connection 5, events_out := 0, connection_completed := 0,
        calls := [Sys.read 5 0 65535] } :=
  ⟨by decide,
    (would_block_is_failure (create_connection 5) POLLIN 0 0 EAGAIN (ReadOutcome.fail EAGAIN)
      (WriteOutcome.fail EAGAIN) (by decide)).1 rfl⟩

/-- The slot loop over a list in two parts. -/
theorem handle_slots_append (w : Wake) :
    ∀ (pre l : List Nat) (t : Reactor),
      handle_slots w (pre ++ l) t =
        match handle_slots w pre t with
        | Except.ok t1 => handle_slots w l t1
        | Except.error e => Except.error e := by
  intro pre
  induction pre with
  | nil => intro l t; rfl
  | cons i rest ih =>
    intro l t
    simp only [List.cons_append, handle_slots]
    cases handle_slot w t i with
    | error e => rfl
    | ok t1 => exact ih l t1

/-- An iteration whose `poll` succeeded, whose listening socket was serviced
and whose signal descriptor is not ready ends as its slot loop ends. -/
theorem iteration_slots (s t : Reactor) (w : Wake) (hp : 0 ≤ w.poll_ret)
    (ha : accept_connection (polled s w) w = Except.ok t)
    (hsig : (t.pollfds 1).revents = 0) :
    iteration s w =
      match handle_slots w (List.range MAX_CONNECTIONS) t with
      | Except.error e => e.outcome
      | Except.ok s3 => Outcome.running s3 := by
  unfold iteration
  rw [if_neg (by omega)]
  have ha1 : accept_connection { s with pollfds := poll s.pollfds w.ready } w = Except.ok t := ha
  simp only [ha1, hsig, Nat.zero_and, ne_eq, not_true_eq_false, if_false]

/-- The claim C9 fails: a `read` that fails with ECONNRESET on slot 0 ends the
whole process in `handle_error("handle_connection")`, also for the connection
in slot 1. -/
theorem io_failure_counterexample :
    ECONNRESET ≠ EAGAIN ∧
    run (main_init 3 4)
      [wake_accept 5, wake_accept 6,
       wake_slot 0 POLLIN (ReadOutcome.fail ECONNRESET) (WriteOutcome.fail ECONNRESET)]
      = Outcome.fatal Fatal.handle_connection ∧
    (∃ s, run (main_init 3 4) [wake_accept 5, wake_accept 6] = Outcome.running s ∧
      s.connections 0 ≠ none ∧ s.connections 1 ≠ none) :=
  ⟨by decide, rfl, _, rfl, by simp [Function.update, main_init],
    by simp [Function.update, main_init]⟩

/-- The write phase offers the string of the buffer from the cursor on,
whatever the outcome of the `write`. -/
theorem case_WRITING_calls (ctx : context) (content : List Byte)
    (hbuf : HoldsString ctx.buf content) (hcur : ctx.bytes ≤ content.length)
    (events_out : Nat) (cc : Int) (calls : List Sys) (wr : WriteOutcome) :
    (case_WRITING ctx events_out cc calls wr).calls =
      calls ++ [Sys.write ctx.fd ctx.bytes (content.length - ctx.bytes)
        (content.drop ctx.bytes)] := by
  have hlen : content.length < BUF_SIZE := hbuf.1
  have hL : strlen ctx.buf = content.length := strlen_of_holds hbuf
  have hsub : size_sub (strlen ctx.buf) ctx.bytes = content.length - ctx.bytes := by
    rw [hL]
    exact size_sub_of_le hcur (by unfold BUF_SIZE at hlen; unfold SIZE_MOD; omega)
  unfold case_WRITING case_DONE
  simp only [hsub, slice_of_holds hbuf]
  cases wr with
  | fail errno => rfl
  | accepted n =>
    simp only []
    split <;> rfl

/-- The claim C10 fails when bytes follow the linefeed in the same read:
"a\nb" received in one read is offered to `write` whole, not only "a\n". -/
theorem only_line_counterexample :
    NUL ∉ [97, LF, 98] ∧ LF ∈ [97, LF, 98] ∧ first_line [97, LF, 98] = [97, LF] ∧
    (handle_connection (create_connection 5) POLLIN 0 0 (ReadOutcome.data [97, LF, 98])
      (WriteOutcome.accepted 3)).calls =
        [Sys.read 5 0 65535, Sys.write 5 0 3 [97, LF, 98]] ∧
    offered (handle_connection (create_connection 5) POLLIN 0 0
      (ReadOutcome.data [97, LF, 98]) (WriteOutcome.accepted 3)).calls
        ≠ first_line [97, LF, 98] :=
  ⟨by decide, by decide, by decide, by decide, by decide⟩

/-- C10, amended. Everything received is echoed: when a connection that has
received `q` and is still reading reads `d`, and `q ++ d` is free of NUL, holds
a linefeed and has at most 65535 bytes, `handle_connection` enters the write
phase in the same call and offers to `write`, from cursor 0, all of `q ++ d`,
the bytes that follow the first linefeed included; the position of the
linefeed is stored in `buf_end` and not used for the length. -/
theorem echo_is_everything_received (fd : Int) (q d : List Byte) (revents events_out : Nat)
    (cc : Int) (wr : WriteOutcome) (hrev : revents &&& POLLHUP = 0)
    (hlf : LF ∈ q ++ d) (hnul : NUL ∉ q ++ d) (hlen : (q ++ d).length ≤ 65535) :
    (handle_connection (reading_ctx fd q) revents events_out cc (ReadOutcome.data d) wr).calls =
      [Sys.read fd q.length (BUF_SIZE - 1 - q.length),
       Sys.write fd 0 (q ++ d).length (q ++ d)] ∧
    offered (handle_connection (reading_ctx fd q) revents events_out cc (ReadOutcome.data d)
      wr).calls = q ++ d ∧
    (handle_connection (create_connection fd) revents events_out cc (ReadOutcome.data (q ++ d))
      wr).calls =
      [Sys.read fd 0 (BUF_SIZE - 1), Sys.write fd 0 (q ++ d).length (q ++ d)] := by
  have hl : (q ++ d).length < BUF_SIZE := by unfold BUF_SIZE; omega
  have key : ∀ a b : List Byte, a ++ b = q ++ d →
      (handle_connection (reading_ctx fd a) revents events_out cc (ReadOutcome.data b) wr).calls =
        [Sys.read fd a.length (BUF_SIZE - 1 - a.length),
         Sys.write fd 0 (q ++ d).length (q ++ d)] := by
    intro a b hab
    obtain ⟨e, he⟩ := handle_connection_read_line fd a b revents events_out cc wr hrev
      (by rw [hab]; exact hlf) (by rw [hab]; exact hl)
    rw [he, hab]
    exact case_WRITING_calls
      { fd := fd, state := state.WRITING, buf := filled (q ++ d), bytes := 0, buf_end := some e }
      (q ++ d) (holdsString_filled hl hnul) (Nat.zero_le _) POLLOUT cc _ wr
  refine ⟨key q d rfl, ?_, ?_⟩
  · rw [key q d rfl]
    simp [offered]
  · rw [create_connection_eq]
    exact key [] (q ++ d) (List.nil_append _)

/-- Witness of C10: "a\nb" received in one read is offered whole. -/
theorem echo_is_everything_received_witness :
    LF ∈ ([] : List Byte) ++ [97, LF, 98] ∧
    offered (handle_connection (reading_ctx 5 []) POLLIN 0 0 (ReadOutcome.data [97, LF, 98])
      (WriteOutcome.accepted 3)).calls = [] ++ [97, LF, 98] :=
  ⟨by decide,
    (echo_is_everything_received 5 [] [97, LF, 98] POLLIN 0 0 (WriteOutcome.accepted 3)
      (by decide) (by decide) (by decide) (by decide)).2.1⟩

/-- The write phase makes exactly one call of `write`, after the calls made
before it. -/
theorem case_WRITING_calls_general (ctx : context) (events_out : Nat) (cc : Int)
    (calls : List Sys) (wr : WriteOutcome) :
    (case_WRITING ctx events_out cc calls wr).calls =
      calls ++ [Sys.write ctx.fd ctx.bytes (size_sub (strlen ctx.buf) ctx.bytes)
        (slice ctx.buf ctx.bytes (size_sub (strlen ctx.buf) ctx.bytes))] := by
  unfold case_WRITING case_DONE
  cases wr with
  | fail errno => rfl
  | accepted n =>
    simp only []
    split <;> rfl

/-- A call that starts in READING and ends in another state has read and then
gone through the write phase from cursor 0. -/
theorem reading_left_through_write (ctx : context) (revents events_out : Nat) (cc : Int)
    (rd : ReadOutcome) (wr : WriteOutcome) (hs : ctx.state = state.READING)
    (hne : (handle_connection ctx revents events_out cc rd wr).ctx.state ≠ state.READING) :
    ∃ d e, rd = ReadOutcome.data d ∧
      memchr (store ctx.buf ctx.bytes d) LF (size_add ctx.bytes d.length) = some e ∧
      handle_connection ctx revents events_out cc rd wr =
        case_WRITING
          { ctx with
            buf := store ctx.buf ctx.bytes d, buf_end := some e, state := state.WRITING,
            bytes := 0 }
          POLLOUT cc [Sys.read ctx.fd ctx.bytes (size_sub (size_sub BUF_SIZE ctx.bytes) 1)]
          wr := by
  unfold handle_connection at hne ⊢
  by_cases hup : revents &&& POLLHUP ≠ 0
  · rw [if_pos hup] at hne
    exact absurd hs hne
  · rw [if_neg hup] at hne ⊢
    simp only [hs] at hne ⊢
    cases rd with
    | fail errno => exact absurd hs hne
    | data d =>
      simp only [] at hne ⊢
      cases hm : memchr (store ctx.buf ctx.bytes d) LF (size_add ctx.bytes d.length) with
      | none =>
        rw [hm] at hne
        exact absurd rfl hne
      | some e => exact ⟨d, e, rfl, hm, rfl⟩

/-- The write phase of a connection in WRITING ends in DONE exactly when the
`write` accepted everything it was offered. -/
theorem case_WRITING_done_iff (ctx : context) (events_out : Nat) (cc : Int) (calls : List Sys)
    (wr : WriteOutcome) (hs : ctx.state = state.WRITING) :
    (case_WRITING ctx events_out cc calls wr).ctx.state = state.DONE ↔
      ∃ n, wr = WriteOutcome.accepted n ∧
        (n : Int) = to_ssize (size_sub (strlen ctx.buf) ctx.bytes) := by
  cases wr with
  | fail errno =>
    have h1 : (case_WRITING ctx events_out cc calls (WriteOutcome.fail errno)).ctx.state =
        ctx.state := rfl
    rw [h1, hs]
    constructor
    · intro h
      exact absurd h (by decide)
    · intro h
      obtain ⟨n, hn, _⟩ := h
      exact absurd hn (by simp)
  | accepted n =>
    by_cases hn : (n : Int) = to_ssize (size_sub (strlen ctx.buf) ctx.bytes)
    · have h1 : (case_WRITING ctx events_out cc calls (WriteOutcome.accepted n)).ctx.state =
          state.DONE := by
        unfold case_WRITING case_DONE
        simp only [hn, if_true]
      rw [h1]
      exact ⟨fun _ => ⟨n, rfl, hn⟩, fun _ => rfl⟩
    · have h1 : (case_WRITING ctx events_out cc calls (WriteOutcome.accepted n)).ctx.state =
          ctx.state := by
        unfold case_WRITING case_DONE
        simp only [hn, if_false]
      rw [h1, hs]
      constructor
      · intro h
        exact absurd h (by decide)
      · intro h
        obtain ⟨m, hm, hm2⟩ := h
        rw [← WriteOutcome.accepted.inj hm] at hm2
        exact absurd hm2 hn

/-- The write phase that ends in DONE reports completion. -/
theorem case_WRITING_done_completed (ctx : context) (events_out : Nat) (cc : Int)
    (calls : List Sys) (wr : WriteOutcome) (hs : ctx.state = state.WRITING)
    (h : (case_WRITING ctx events_out cc calls wr).ctx.state = state.DONE) :
    (case_WRITING ctx events_out cc calls wr).connection_completed = 1 := by
  obtain ⟨n, hw, hn⟩ := (case_WRITING_done_iff ctx events_out cc calls wr hs).mp h
  rw [hw]
  unfold case_WRITING case_DONE
  simp only [hn, if_true]

/-- The claim C14 fails: the call that reads "a\n" and whose write accepts both
bytes takes a fresh connection from READING to DONE. -/
theorem writing_skipped_counterexample :
    (create_connection 5).state = state.READING ∧
    (handle_connection (create_connection 5) POLLIN 0 0 (ReadOutcome.data [97, LF])
      (WriteOutcome.accepted 2)).ctx.state = state.DONE ∧
    ¬ ((handle_connection (create_connection 5) POLLIN 0 0 (ReadOutcome.data [97, LF])
        (WriteOutcome.accepted 2)).ctx.state.rank = (create_connection 5).state.rank ∨
      (handle_connection (create_connection 5) POLLIN 0 0 (ReadOutcome.data [97, LF])
        (WriteOutcome.accepted 2)).ctx.state.rank = (create_connection 5).state.rank + 1) :=
  ⟨by decide, by decide, by decide⟩

/-- C14, amended. The write phase is never skipped, though WRITING may not be
observed between two calls: a call that starts in WRITING ends in WRITING or
DONE, a call that starts in DONE ends in DONE, and a call that starts in
READING and ends in another state has found the linefeed, set the state to
WRITING with the cursor at 0 and made its `write` within the same call; such a
call ends in DONE exactly when that `write` accepted everything it was
offered, and then reports completion. -/
theorem write_phase_never_skipped (ctx : context) (revents events_out : Nat) (cc : Int)
    (rd : ReadOutcome) (wr : WriteOutcome) :
    (ctx.state = state.WRITING →
      (handle_connection ctx revents events_out cc rd wr).ctx.state = state.WRITING ∨
      (handle_connection ctx revents events_out cc rd wr).ctx.state = state.DONE) ∧
    (ctx.state = state.DONE →
      (handle_connection ctx revents events_out cc rd wr).ctx.state = state.DONE) ∧
    (ctx.state = state.READING →
      (handle_connection ctx revents events_out cc rd wr).ctx.state ≠ state.READING →
      ∃ rdcall cnt data,
        (handle_connection ctx revents events_out cc rd wr).calls =
          [rdcall, Sys.write ctx.fd 0 cnt data] ∧
        ((handle_connection ctx revents events_out cc rd wr).ctx.state = state.DONE ↔
          ∃ n, wr = WriteOutcome.accepted n ∧ (n : Int) = to_ssize cnt) ∧
        ((handle_connection ctx revents events_out cc rd wr).ctx.state = state.DONE →
          (handle_connection ctx revents events_out cc rd wr).connection_completed = 1)) := by
  refine ⟨?_, ?_, ?_⟩
  · intro hs
    unfold handle_connection
    by_cases hup : revents &&& POLLHUP ≠ 0
    · rw [if_pos hup]
      exact Or.inl hs
    · rw [if_neg hup]
      simp only [hs]
      rcases case_WRITING_state ctx events_out cc [] wr with h | h
      · rw [h]; exact Or.inl hs
      · exact Or.inr h
  · intro hs
    unfold handle_connection
    by_cases hup : revents &&& POLLHUP ≠ 0
    · rw [if_pos hup]
      exact hs
    · rw [if_neg hup]
      simp only [hs]
      exact hs
  · intro hs hne
    obtain ⟨d, e, _, _, heq⟩ := reading_left_through_write ctx revents events_out cc rd wr hs hne
    rw [heq]
    exact ⟨_, _, _, case_WRITING_calls_general _ _ _ _ _,
      case_WRITING_done_iff _ _ _ _ _ rfl,
      case_WRITING_done_completed _ _ _ _ _ rfl⟩

/-- Witness of C14: the call that reads "a\n" and completes its write leaves
READING through the write phase. -/
theorem write_phase_never_skipped_witness :
    (create_connection 5).state = state.READING ∧
    ∃ rdcall cnt data,
      (handle_connection (create_connection 5) POLLIN 0 0 (ReadOutcome.data [97, LF])
        (WriteOutcome.accepted 2)).calls = [rdcall, Sys.write 5 0 cnt data] ∧
      ((handle_connection (create_connection 5) POLLIN 0 0 (ReadOutcome.data [97, LF])
          (WriteOutcome.accepted 2)).ctx.state = state.DONE ↔
        ∃ n, WriteOutcome.accepted 2 = WriteOutcome.accepted n ∧ (n : Int) = to_ssize cnt) ∧
      ((handle_connection (create_connection 5) POLLIN 0 0 (ReadOutcome.data [97, LF])
          (WriteOutcome.accepted 2)).ctx.state = state.DONE →
        (handle_connection (create_connection 5) POLLIN 0 0 (ReadOutcome.data [97, LF])
          (WriteOutcome.accepted 2)).connection_completed = 1) :=
  ⟨rfl,
    (write_phase_never_skipped (create_connection 5) POLLIN 0 0 (ReadOutcome.data [97, LF])
      (WriteOutcome.accepted 2)).2.2 rfl (by decide)⟩

/-- A read of no byte leaves the buffer as it is. -/
theorem store_nil (buf : Nat → Byte) (off : Nat) : store buf off [] = buf := by
  funext i
  unfold store
  split <;> rfl

/-- A read of no byte into a buffer without linefeed: the connection stays in
READING with its cursor and buffer, asks for POLLIN and is not completed. -/
theorem handle_connection_read_zero (ctx : context) (revents events_out : Nat) (cc : Int)
    (wr : WriteOutcome) (hs : ctx.state = state.READING)
    (hrev : revents &&& POLLHUP = 0) (hb : ctx.bytes < SIZE_MOD)
    (hlf : ∀ i, i < ctx.bytes → ctx.buf i ≠ LF) :
    handle_connection ctx revents events_out cc (ReadOutcome.data []) wr =
      { ret := 0, ctx := { ctx with buf_end := none }, events_out := POLLIN,
        connection_completed := 0,
        calls := [Sys.read ctx.fd ctx.bytes (size_sub (size_sub BUF_SIZE ctx.bytes) 1)] } := by
  have hadd : size_add ctx.bytes ([] : List Byte).length = ctx.bytes := by
    unfold size_add
    exact Nat.mod_eq_of_lt hb
  have hmem : memchr ctx.buf LF ctx.bytes = none := by
    unfold memchr
    exact scan_eq_none ctx.bytes 0 (fun j _ hj => hlf j (by omega))
  unfold handle_connection
  simp only [hrev, ne_eq, not_true_eq_false, if_false, hs, hadd, store_nil, hmem]

/-- C16. End of stream is not completion: for a connection in READING whose
buffered bytes hold no linefeed, a call with a mask without hangup in which
`read` returns 0 bytes returns 0, leaves the state READING and the cursor and
the buffer as they were, requests POLLIN and reports `completed = 0`.  Once
65535 bytes are buffered without linefeed the `read` is requested with length
0, so it can only fail or return 0 bytes: the connection then stays in READING
whatever the outcome, makes no `write` and never reports completion on a mask
without hangup; a mask with hangup reports completion. -/
theorem end_of_stream_not_completion (ctx : context) (revents events_out : Nat) (cc : Int)
    (wr : WriteOutcome) (hs : ctx.state = state.READING)
    (hrev : revents &&& POLLHUP = 0) (hb : ctx.bytes ≤ 65535)
    (hlf : ∀ i, i < ctx.bytes → ctx.buf i ≠ LF) :
    ((handle_connection ctx revents events_out cc (ReadOutcome.data []) wr).ret = 0 ∧
      (handle_connection ctx revents events_out cc (ReadOutcome.data []) wr).ctx.state
        = state.READING ∧
      (handle_connection ctx revents events_out cc (ReadOutcome.data []) wr).ctx.bytes
        = ctx.bytes ∧
      (handle_connection ctx revents events_out cc (ReadOutcome.data []) wr).ctx.buf = ctx.buf ∧
      (handle_connection ctx revents events_out cc (ReadOutcome.data []) wr).events_out
        = POLLIN ∧
      (handle_connection ctx revents events_out cc (ReadOutcome.data []) wr).connection_completed
        = 0) ∧
    (ctx.bytes = 65535 →
      ∀ rd : ReadOutcome, (∀ d, rd = ReadOutcome.data d → d.length ≤ 0) →
        (handle_connection ctx revents events_out 0 rd wr).calls = [Sys.read ctx.fd 65535 0] ∧
        (handle_connection ctx revents events_out 0 rd wr).ctx.state = state.READING ∧
        (handle_connection ctx revents events_out 0 rd wr).ctx.bytes = 65535 ∧
        (handle_connection ctx revents events_out 0 rd wr).connection_completed = 0 ∧
        ((∃ errno, rd = ReadOutcome.fail errno) ∨ rd = ReadOutcome.data [])) ∧
    (∀ hup : Nat, hup &&& POLLHUP ≠ 0 → ∀ rd : ReadOutcome,
      handle_connection ctx hup events_out cc rd wr =
        { ret := 0, ctx := ctx, events_out := events_out, connection_completed := 1,
          calls := [] }) := by
  have hb1 : ctx.bytes < SIZE_MOD := by unfold SIZE_MOD; omega
  refine ⟨?_, ?_, ?_⟩
  · rw [handle_connection_read_zero ctx revents events_out cc wr hs hrev hb1 hlf]
    exact ⟨rfl, hs, rfl, rfl, rfl, rfl⟩
  · intro hfull rd hhonest
    have hcount : size_sub (size_sub BUF_SIZE ctx.bytes) 1 = 0 := by
      rw [hfull]
      decide
    cases rd with
    | fail errno =>
      rw [handle_connection_read_fail ctx revents events_out 0 errno wr hrev hs, hcount, hfull]
      exact ⟨rfl, hs, rfl, rfl, Or.inl ⟨errno, rfl⟩⟩
    | data d =>
      have hd : d = [] := List.length_eq_zero.mp (Nat.le_zero.mp (hhonest d rfl))
      subst hd
      rw [handle_connection_read_zero ctx revents events_out 0 wr hs hrev hb1 hlf, hcount, hfull]
      exact ⟨rfl, hs, rfl, rfl, Or.inr rfl⟩
  · intro hup hhup rd
    unfold handle_connection
    rw [if_pos hhup]

/-- Witness of C16: a fresh connection whose `read` returns 0 bytes stays in
READING and asks for POLLIN. -/
theorem end_of_stream_not_completion_witness :
    (create_connection 5).state = state.READING ∧ POLLIN &&& POLLHUP = 0 ∧
    (handle_connection (create_connection 5) POLLIN 0 0 (ReadOutcome.data [])
      (WriteOutcome.fail 0)).ret = 0 ∧
    (handle_connection (create_connection 5) POLLIN 0 0 (ReadOutcome.data [])
      (WriteOutcome.fail 0)).ctx.state = state.READING ∧
    (handle_connection (create_connection 5) POLLIN 0 0 (ReadOutcome.data [])
      (WriteOutcome.fail 0)).events_out = POLLIN ∧
    (handle_connection (create_connection 5) POLLIN 0 0 (ReadOutcome.data [])
      (WriteOutcome.fail 0)).connection_completed = 0 :=
  ⟨rfl, by decide,
    (end_of_stream_not_completion (create_connection 5) POLLIN 0 0 (WriteOutcome.fail 0) rfl
      (by decide) (by decide) (fun i hi => absurd hi (Nat.not_lt_zero i))).1.1,
    (end_of_stream_not_completion (create_connection 5) POLLIN 0 0 (WriteOutcome.fail 0) rfl
      (by decide) (by decide) (fun i hi => absurd hi (Nat.not_lt_zero i))).1.2.1,
    (end_of_stream_not_completion (create_connection 5) POLLIN 0 0 (WriteOutcome.fail 0) rfl
      (by decide) (by decide) (fun i hi => absurd hi (Nat.not_lt_zero i))).1.2.2.2.2.1,
    (end_of_stream_not_completion (create_connection 5) POLLIN 0 0 (WriteOutcome.fail 0) rfl
      (by decide) (by decide) (fun i hi => absurd hi (Nat.not_lt_zero i))).1.2.2.2.2.2⟩

theorem scan_le {buf : Nat → Byte} {c : Byte} :
    ∀ (fuel i k : Nat), i ≤ k → k < i + fuel → buf k = c →
      ∃ j, scan buf c fuel i = some j ∧ j ≤ k := by
  intro fuel
  induction fuel with
  | zero => intro i k h1 h2; omega
  | succ n ih =>
    intro i k h1 h2 hk
    by_cases h0 : buf i = c
    · exact ⟨i, by simp only [scan, if_pos h0], h1⟩
    · simp only [scan, if_neg h0]
      have hik : i ≠ k := fun h => h0 (h ▸ hk)
      exact ih (i + 1) k (by omega) (by omega) hk

/-- A NUL inside the array bounds the length of the string. -/
theorem strlen_le {buf : Nat → Byte} {k : Nat} (hk : k < BUF_SIZE) (h : buf k = NUL) :
    strlen buf ≤ k := by
  obtain ⟨j, hj, hjk⟩ := scan_le BUF_SIZE 0 k (Nat.zero_le _) (by omega) h
  unfold strlen
  rw [hj]
  exact hjk

theorem done_ne_reading : state.DONE ≠ state.READING := by decide

theorem writing_ne_reading : state.WRITING ≠ state.READING := by decide

/-- What the write phase does to a connection within bounds when the `write`
accepts no more than it was offered. -/
theorem cursorInv_case_WRITING (ctx : context) (events_out : Nat) (cc : Int)
    (calls : List Sys) (wr : WriteOutcome) (hinv : CursorInv ctx)
    (hs : ctx.state ≠ state.READING)
    (hw : ∀ n, wr = WriteOutcome.accepted n → n ≤ strlen ctx.buf - ctx.bytes) :
    CursorInv (case_WRITING ctx events_out cc calls wr).ctx ∧
    (case_WRITING ctx events_out cc calls wr).ctx.state ≠ state.READING ∧
    (case_WRITING ctx events_out cc calls wr).ctx.buf = ctx.buf := by
  obtain ⟨h1, h2, _, h4⟩ := hinv
  have hcur := h4 hs
  have hlen : strlen ctx.buf ≤ 65535 := strlen_le (by decide) h2
  cases wr with
  | fail errno => exact ⟨⟨h1, h2, fun h => absurd h hs, fun _ => hcur⟩, hs, rfl⟩
  | accepted n =>
    have hn := hw n rfl
    have hadd : size_add ctx.bytes n = ctx.bytes + n :=
      size_add_of_lt (by unfold SIZE_MOD; omega)
    unfold case_WRITING case_DONE
    simp only [hadd]
    split
    · refine ⟨⟨?_, h2, ?_, ?_⟩, ?_, rfl⟩
      · show ctx.bytes + n ≤ 65535
        omega
      · intro h
        exact absurd h done_ne_reading
      · intro _
        show ctx.bytes + n ≤ strlen ctx.buf
        omega
      · intro h
        exact absurd h done_ne_reading
    · refine ⟨⟨?_, h2, ?_, ?_⟩, hs, rfl⟩
      · show ctx.bytes + n ≤ 65535
        omega
      · intro h
        exact absurd h hs
      · intro _
        show ctx.bytes + n ≤ strlen ctx.buf
        omega

/-- The system calls of a call in the write phase are within the request when
the `write` accepted no more than it was offered. -/
theorem within_request_write (calls : List Sys) (c : Sys) (rd : ReadOutcome)
    (wr : WriteOutcome) (h : within_request (calls ++ [c]) rd wr = true) :
    within_request calls rd wr = true ∧ within_request [c] rd wr = true := by
  unfold within_request at h ⊢
  rw [List.all_append, Bool.and_eq_true] at h
  exact h

theorem within_request_read (fd : Int) (off cnt : Nat) (d : List Byte) (wr : WriteOutcome)
    (h : within_request [Sys.read fd off cnt] (ReadOutcome.data d) wr = true) :
    d.length ≤ cnt := by
  simpa [within_request] using h

theorem within_request_accepted (fd : Int) (off cnt : Nat) (data : List Byte)
    (rd : ReadOutcome) (n : Nat)
    (h : within_request [Sys.write fd off cnt data] rd (WriteOutcome.accepted n) = true) :
    n ≤ cnt := by
  simpa [within_request] using h

/-- The write phase of a connection within bounds: its `write` is in bounds
and the connection stays within bounds. -/
theorem cursorInv_write_phase (ctx : context) (events_out : Nat) (cc : Int)
    (calls : List Sys) (rd : ReadOutcome) (wr : WriteOutcome) (hinv : CursorInv ctx)
    (hs : ctx.state ≠ state.READING)
    (hreq : within_request (case_WRITING ctx events_out cc calls wr).calls rd wr = true) :
    CursorInv (case_WRITING ctx events_out cc calls wr).ctx ∧
    (case_WRITING ctx events_out cc calls wr).ctx.buf = ctx.buf ∧
    (case_WRITING ctx events_out cc calls wr).calls =
      calls ++ [Sys.write ctx.fd ctx.bytes (strlen ctx.buf - ctx.bytes)
        (slice ctx.buf ctx.bytes (strlen ctx.buf - ctx.bytes))] ∧
    ctx.bytes ≤ strlen ctx.buf ∧ strlen ctx.buf ≤ 65535 := by
  have hcur := hinv.2.2.2 hs
  have hlen : strlen ctx.buf ≤ 65535 := strlen_le (by decide) hinv.2.1
  have hsub : size_sub (strlen ctx.buf) ctx.bytes = strlen ctx.buf - ctx.bytes :=
    size_sub_of_le hcur (by unfold SIZE_MOD; omega)
  have hcalls := case_WRITING_calls_general ctx events_out cc calls wr
  rw [hsub] at hcalls
  rw [hcalls] at hreq
  have hw : ∀ n, wr = WriteOutcome.accepted n → n ≤ strlen ctx.buf - ctx.bytes := by
    intro n hn
    rw [hn] at hreq
    exact within_request_accepted _ _ _ _ _ _ (within_request_write _ _ _ _ hreq).2
  obtain ⟨h1, _, h3⟩ := cursorInv_case_WRITING ctx events_out cc calls wr hinv hs hw
  exact ⟨h1, h3, hcalls, hcur, hlen⟩

/-- A read in READING that brings no linefeed. -/
theorem handle_connection_reading_none (c : context) (revents events_out : Nat) (cc : Int)
    (d : List Byte) (wr : WriteOutcome) (hs : c.state = state.READING)
    (hup : revents &&& POLLHUP = 0)
    (hm : memchr (store c.buf c.bytes d) LF (size_add c.bytes d.length) = none) :
    handle_connection c revents events_out cc (ReadOutcome.data d) wr =
      { ret := 0,
        ctx := { c with
          buf := store c.buf c.bytes d, bytes := size_add c.bytes d.length, buf_end := none },
        events_out := POLLIN, connection_completed := 0,
        calls := [Sys.read c.fd c.bytes (size_sub (size_sub BUF_SIZE c.bytes) 1)] } := by
  unfold handle_connection
  simp only [hup, ne_eq, not_true_eq_false, if_false, hs, hm]

/-- A read in READING that brings a linefeed goes on to the write phase. -/
theorem handle_connection_reading_some (c : context) (revents events_out : Nat) (cc : Int)
    (d : List Byte) (wr : WriteOutcome) (e : Nat) (hs : c.state = state.READING)
    (hup : revents &&& POLLHUP = 0)
    (hm : memchr (store c.buf c.bytes d) LF (size_add c.bytes d.length) = some e) :
    handle_connection c revents events_out cc (ReadOutcome.data d) wr =
      case_WRITING
        { c with
          buf := store c.buf c.bytes d, buf_end := some e, state := state.WRITING, bytes := 0 }
        POLLOUT cc [Sys.read c.fd c.bytes (size_sub (size_sub BUF_SIZE c.bytes) 1)] wr := by
  unfold handle_connection
  simp only [hup, ne_eq, not_true_eq_false, if_false, hs, hm]

/-- One call of `handle_connection` whose read and write stay within their
requests keeps the connection within bounds, and its system calls are in
bounds. -/
theorem cursorInv_step (c : context) (revents events_out : Nat) (cc : Int)
    (rd : ReadOutcome) (wr : WriteOutcome) (hinv : CursorInv c)
    (hreq : within_request (handle_connection c revents events_out cc rd wr).calls rd wr = true) :
    CursorInv (handle_connection c revents events_out cc rd wr).ctx ∧
    ∀ call ∈ (handle_connection c revents events_out cc rd wr).calls,
      call_in_bounds c.bytes (handle_connection c revents events_out cc rd wr).ctx.buf call := by
  by_cases hup : revents &&& POLLHUP ≠ 0
  · have h : handle_connection c revents events_out cc rd wr =
        { ret := 0, ctx := c, events_out := events_out, connection_completed := 1,
          calls := [] } := by
      unfold handle_connection
      rw [if_pos hup]
    rw [h]
    exact ⟨hinv, fun call hc => absurd hc (List.not_mem_nil call)⟩
  · have hup0 : revents &&& POLLHUP = 0 := not_not.mp hup
    cases hs : c.state with
    | DONE =>
      have h : handle_connection c revents events_out cc rd wr = case_DONE c [] := by
        unfold handle_connection
        rw [if_neg hup]
        simp only [hs]
      rw [h]
      exact ⟨hinv, fun call hc => absurd hc (List.not_mem_nil call)⟩
    | WRITING =>
      have hne : c.state ≠ state.READING := by rw [hs]; exact writing_ne_reading
      rw [handle_connection_writing c revents events_out cc rd wr hs hup0] at hreq ⊢
      obtain ⟨h1, h2, h3, h4, h5⟩ := cursorInv_write_phase c events_out cc [] rd wr hinv hne hreq
      refine ⟨h1, ?_⟩
      intro call hc
      rw [h3] at hc
      simp only [List.nil_append, List.mem_singleton] at hc
      rw [hc, h2]
      exact ⟨h4, rfl, by omega⟩
    | READING =>
      obtain ⟨b1, b2, b3, _⟩ := hinv
      have hzero := b3 hs
      have hcount : size_sub (size_sub BUF_SIZE c.bytes) 1 = BUF_SIZE - c.bytes - 1 := by
        unfold size_sub SIZE_MOD BUF_SIZE
        omega
      have hread : call_in_bounds c.bytes
          (handle_connection c revents events_out cc rd wr).ctx.buf
          (Sys.read c.fd c.bytes (BUF_SIZE - c.bytes - 1)) := by
        refine ⟨rfl, rfl, ?_⟩
        unfold BUF_SIZE
        omega
      cases rd with
      | fail errno =>
        have h := handle_connection_read_fail c revents events_out cc errno wr hup0 hs
        rw [hcount] at h
        rw [h] at hread ⊢
        refine ⟨⟨b1, b2, b3, fun hne => absurd hs hne⟩, ?_⟩
        intro call hc
        simp only [List.mem_singleton] at hc
        rw [hc]
        exact hread
      | data d =>
        have hstore : ∀ n, n ≤ BUF_SIZE - c.bytes - 1 → d.length ≤ n →
            ∀ i, c.bytes + d.length ≤ i → store c.buf c.bytes d i = NUL := by
          intro n _ _ i hi
          unfold store
          rw [if_pos (by omega), List.getElem?_eq_none (by omega)]
          exact hzero i (by omega)
        cases hm : memchr (store c.buf c.bytes d) LF (size_add c.bytes d.length) with
        | none =>
          have hunf := handle_connection_reading_none c revents events_out cc d wr hs hup0 hm
          rw [hcount] at hunf
          rw [hunf] at hreq hread ⊢
          have hd : d.length ≤ BUF_SIZE - c.bytes - 1 := within_request_read _ _ _ _ _ hreq
          have hadd : size_add c.bytes d.length = c.bytes + d.length :=
            size_add_of_lt (by unfold SIZE_MOD; unfold BUF_SIZE at hd; omega)
          have hz := hstore d.length hd (Nat.le_refl _)
          refine ⟨⟨?_, ?_, ?_, fun hne => absurd hs hne⟩, ?_⟩
          · show size_add c.bytes d.length ≤ 65535
            rw [hadd]
            unfold BUF_SIZE at hd
            omega
          · exact hz 65535 (by unfold BUF_SIZE at hd; omega)
          · intro _ i hi
            change size_add c.bytes d.length ≤ i at hi
            rw [hadd] at hi
            exact hz i hi
          · intro call hc
            simp only [List.mem_singleton] at hc
            rw [hc]
            exact hread
        | some e =>
          have hunf := handle_connection_reading_some c revents events_out cc d wr e hs hup0 hm
          rw [hcount] at hunf
          rw [hunf] at hreq hread ⊢
          have hcalls := case_WRITING_calls_general
            { c with
              buf := store c.buf c.bytes d, buf_end := some e, state := state.WRITING,
              bytes := 0 }
            POLLOUT cc [Sys.read c.fd c.bytes (BUF_SIZE - c.bytes - 1)] wr
          have hreq1 := hreq
          rw [hcalls] at hreq1
          have hd : d.length ≤ BUF_SIZE - c.bytes - 1 :=
            within_request_read _ _ _ _ _ (within_request_write _ _ _ _ hreq1).1
          have hz := hstore d.length hd (Nat.le_refl _)
          have hinv1 : CursorInv
              { c with
                buf := store c.buf c.bytes d, buf_end := some e, state := state.WRITING,
                bytes := 0 } :=
            ⟨Nat.zero_le _, hz 65535 (by unfold BUF_SIZE at hd; omega),
              fun h => absurd h writing_ne_reading, fun _ => Nat.zero_le _⟩
          obtain ⟨h1, h2, h3, h4, h5⟩ := cursorInv_write_phase _ POLLOUT cc
            [Sys.read c.fd c.bytes (BUF_SIZE - c.bytes - 1)] (ReadOutcome.data d) wr hinv1
            writing_ne_reading hreq
          refine ⟨h1, ?_⟩
          intro call hc
          rw [h3] at hc
          rw [h2] at hread ⊢
          simp only [List.cons_append, List.nil_append, List.mem_cons, List.mem_singleton,
            List.not_mem_nil, or_false] at hc
          rcases hc with hc | hc
          · rw [hc]
            exact hread
          · rw [hc]
            exact ⟨h4, rfl, by
              show 0 + (strlen (store c.buf c.bytes d) - 0) ≤ 65535
              have : strlen (store c.buf c.bytes d) ≤ 65535 := h5
              omega⟩

theorem cursorInv_create_connection (fd : Int) : CursorInv (create_connection fd) :=
  ⟨Nat.zero_le _, rfl, fun _ _ _ => rfl, fun h => absurd rfl h⟩

theorem cursorInv_steps :
    ∀ (evs : List Readiness) (c : context), CursorInv c → honest c evs = true →
      CursorInv (steps c evs) := by
  intro evs
  induction evs with
  | nil => intro c h _; exact h
  | cons e rest ih =>
    intro c h hh
    simp only [honest, Bool.and_eq_true] at hh
    exact ih _ (cursorInv_step c e.revents 0 0 e.rd e.wr h hh.1).1 hh.2

/-- C13. Cursor bound: when no `read` and no `write` reports more bytes than
it was asked to transfer, every connection reached from `create_connection`
through calls of `handle_connection` has `bytes` at most 65535, the last byte
of its buffer NUL, hence `strlen(buf)` at most 65535, and in WRITING `bytes`
at most `strlen(buf)`; and in its next call every `read` is requested at
offset `bytes` with exactly `65536 - bytes - 1` bytes and ends inside the
buffer, and every `write` is requested with `strlen(buf) - offset` bytes from
an offset that is at most `strlen(buf)`, so the length does not underflow. -/
theorem cursor_bound (fd : Int) (evs : List Readiness)
    (h : honest (create_connection fd) evs = true) :
    (steps (create_connection fd) evs).bytes ≤ 65535 ∧
    (steps (create_connection fd) evs).buf (BUF_SIZE - 1) = NUL ∧
    strlen (steps (create_connection fd) evs).buf ≤ 65535 ∧
    ((steps (create_connection fd) evs).state = state.WRITING →
      (steps (create_connection fd) evs).bytes ≤ strlen (steps (create_connection fd) evs).buf) ∧
    (∀ (revents events_out : Nat) (cc : Int) (rd : ReadOutcome) (wr : WriteOutcome),
      within_request
        (handle_connection (steps (create_connection fd) evs) revents events_out cc rd wr).calls
        rd wr = true →
      ∀ call ∈
        (handle_connection (steps (create_connection fd) evs) revents events_out cc rd wr).calls,
        call_in_bounds (steps (create_connection fd) evs).bytes
          (handle_connection (steps (create_connection fd) evs) revents events_out cc rd
            wr).ctx.buf call) := by
  have hinv := cursorInv_steps evs (create_connection fd) (cursorInv_create_connection fd) h
  refine ⟨hinv.1, hinv.2.1, strlen_le (by decide) hinv.2.1, ?_, ?_⟩
  · intro hs
    exact hinv.2.2.2 (by rw [hs]; exact writing_ne_reading)
  · intro revents events_out cc rd wr hreq
    exact (cursorInv_step _ revents events_out cc rd wr hinv hreq).2

/-- Witness of C13: after "ab" was read the cursor is 2 and the next `read` is
requested at offset 2 with 65533 bytes. -/
theorem cursor_bound_witness :
    honest (create_connection 5)
      [{ revents := POLLIN, rd := ReadOutcome.data [97, 98], wr := WriteOutcome.fail 0 }]
      = true ∧
    (steps (create_connection 5)
      [{ revents := POLLIN, rd := ReadOutcome.data [97, 98],
         wr := WriteOutcome.fail 0 }]).bytes = 2 ∧
    (steps (create_connection 5)
      [{ revents := POLLIN, rd := ReadOutcome.data [97, 98],
         wr := WriteOutcome.fail 0 }]).bytes ≤ 65535 ∧
    (handle_connection
      (steps (create_connection 5)
        [{ revents := POLLIN, rd := ReadOutcome.data [97, 98], wr := WriteOutcome.fail 0 }])
      POLLIN 0 0 (ReadOutcome.data [99]) (WriteOutcome.fail 0)).calls = [Sys.read 5 2 65533] :=
  ⟨by decide, by decide,
    (cursor_bound 5
      [{ revents := POLLIN, rd := ReadOutcome.data [97, 98], wr := WriteOutcome.fail 0 }]
      (by decide)).1,
    by decide⟩

/-- The body of the slot loop appends the calls of `slot_calls`. -/
theorem handle_slot_calls (w : Wake) (t t1 : Reactor) (i : Nat)
    (h : handle_slot w t i = Except.ok t1) : t1.calls = t.calls ++ slot_calls w t i := by
  unfold slot_calls
  rcases handle_slot_spec w t t1 i h with ⟨h1, h2⟩ | ⟨c, hc, hrev, _, _, hcase⟩
  · rw [h1, if_pos h2, List.append_nil]
  · rw [if_neg hrev]
    simp only [hc]
    rcases hcase with ⟨hcc, h1⟩ | ⟨hcc, h1⟩
    · rw [h1]
      simp only [hcc, ne_eq, not_true_eq_false, if_false, List.append_nil]
      rfl
    · obtain ⟨_, _, _, _, _, r6, _⟩ := release_spec _ i _ t1 h1
      rw [r6, if_pos hcc]
      simp only [destroy_connection, handled, List.append_assoc]

/-- The calls of a slot depend on its own context and registration only. -/
theorem slot_calls_congr (w : Wake) (t t1 : Reactor) (j : Nat)
    (hc : t1.connections j = t.connections j)
    (hp : t1.pollfds (j + FIRST_CONNECTION) = t.pollfds (j + FIRST_CONNECTION)) :
    slot_calls w t1 j = slot_calls w t j := by
  unfold slot_calls
  rw [hc, hp]

/-- The slot loop appends the calls of its slots in the order of the list. -/
theorem handle_slots_calls (w : Wake) :
    ∀ (l : List Nat) (t t1 : Reactor), l.Nodup → handle_slots w l t = Except.ok t1 →
      t1.calls = t.calls ++ (l.map (slot_calls w t)).flatten := by
  intro l
  induction l with
  | nil =>
    intro t t1 _ h
    simp only [handle_slots, Except.ok.injEq] at h
    rw [← h]
    simp
  | cons i rest ih =>
    intro t t1 hnd h
    simp only [handle_slots] at h
    cases hs : handle_slot w t i with
    | error e => rw [hs] at h; simp at h
    | ok t2 =>
      rw [hs] at h
      have hnd2 := List.nodup_cons.mp hnd
      rw [ih t2 t1 hnd2.2 h, handle_slot_calls w t t2 i hs]
      have hmap : rest.map (slot_calls w t2) = rest.map (slot_calls w t) := by
        apply List.map_congr_left
        intro j hj
        have hji : j ≠ i := fun e => hnd2.1 (e ▸ hj)
        obtain ⟨f1, f2⟩ := handle_slot_frame w t t2 i hs j hji
        exact slot_calls_congr w t t2 j f1 f2
      rw [hmap]
      simp only [List.map_cons, List.flatten_cons, List.append_assoc]

/-- The service of the listening socket makes at most the one call of
`accept`. -/
theorem accept_connection_calls (s t : Reactor) (w : Wake)
    (h : accept_connection s w = Except.ok t) :
    t.calls = s.calls ∨ t.calls = s.calls ++ [Sys.accept s.server_fd] := by
  rcases accept_connection_spec s t w h with ⟨h1, _⟩ | ⟨_, _, _, _, s2, hin, hcase⟩
  · rw [h1]; exact Or.inl rfl
  · right
    have h2 : s2.calls = s.calls ++ [Sys.accept s.server_fd] := by
      rcases install_spec _ _ _ _ _ hin with ⟨e1, _⟩ | ⟨i, _, _, _, e1, _⟩
      · rw [e1]; rfl
      · rw [e1]; rfl
    rcases hcase with ⟨_, _, e2⟩ | ⟨_, e2⟩
    · rw [e2]; exact h2
    · rw [e2]; exact h2

/-- The calls of the cleanup for the slots: one `close` per occupied slot, in
the order of the list. -/
theorem destroy_all_eq (f : Nat → Option context) :
    ∀ l : List Nat, destroy_all f l = l.filterMap (fun i => (f i).map (fun c => Sys.close c.fd)) := by
  intro l
  induction l with
  | nil => rfl
  | cons i rest ih =>
    cases hc : f i with
    | none => simp only [destroy_all, hc, List.filterMap_cons, Option.map_none', ih]
    | some c =>
      simp only [destroy_all, hc, List.filterMap_cons, Option.map_some', ih, destroy_connection]
      rfl

/-- An iteration in which the signal descriptor is readable and delivers its
record leaves the loop right after the listening socket was serviced. -/
theorem iteration_signal (s t : Reactor) (w : Wake) (hp : 0 ≤ w.poll_ret)
    (ha : accept_connection (polled s w) w = Except.ok t)
    (herr : (t.pollfds 1).revents &&& POLLERR = 0)
    (hin : (t.pollfds 1).revents &&& POLLIN ≠ 0) (hread : w.siginfo_ret = SIGINFO_SIZE) :
    iteration s w = Outcome.exited 0 w.ssi_signo (drain (siginfo_read t)) := by
  unfold iteration
  rw [if_neg (by omega)]
  have ha1 : accept_connection { s with pollfds := poll s.pollfds w.ready } w = Except.ok t := ha
  simp only [ha1, herr, hin, hread, ne_eq, not_true_eq_false, not_false_eq_true, if_true,
    if_false]
  rfl

/-- The claim C15 fails for the slots: in a wake that reports both the signal
descriptor and slot 0 readable, the loop is left without a `read` or `write`
for slot 0, whose connection would have echoed "a", linefeed; its socket is
only closed by the cleanup. -/
theorem fixed_order_counterexample :
    (∃ sf, run (main_init 3 4)
        [wake_accept 5,
         wake_signal 15 0 POLLIN (ReadOutcome.data [97, LF]) (WriteOutcome.accepted 2)]
        = Outcome.exited 0 15 sf ∧
      sf.calls = [Sys.accept 3, Sys.read_siginfo 4, Sys.close 4, Sys.close 3, Sys.close 5]) ∧
    (∃ s, run (main_init 3 4) [wake_accept 5] = Outcome.running s ∧
      ((polled s (wake_signal 15 0 POLLIN (ReadOutcome.data [97, LF])
        (WriteOutcome.accepted 2))).pollfds (0 + FIRST_CONNECTION)).revents = POLLIN ∧
      slot_calls (wake_signal 15 0 POLLIN (ReadOutcome.data [97, LF]) (WriteOutcome.accepted 2))
        (polled s (wake_signal 15 0 POLLIN (ReadOutcome.data [97, LF])
          (WriteOutcome.accepted 2))) 0
        = [Sys.read 5 0 65535, Sys.write 5 0 2 [97, LF], Sys.close 5]) :=
  ⟨⟨_, rfl, by decide⟩, ⟨_, rfl, by decide, by decide⟩⟩

/-- C15, amended. Fixed order within an iteration: the listening socket is
serviced first and makes at most one `accept`; then the signal descriptor is
examined; when it is readable the reactor reads exactly one record and leaves
the loop at once, so the slots that were ready in the same wake are not
advanced: the calls that follow are the read of the record, the `close` of the
signal descriptor and of the listening socket and one `close` per occupied
slot, and no later wake is looked at.  When the signal descriptor is not ready
the slots are handled in ascending slot index, each making the calls of
`slot_calls`. -/
theorem fixed_iteration_order (s t : Reactor) (w : Wake) (hp : 0 ≤ w.poll_ret)
    (ha : accept_connection (polled s w) w = Except.ok t) :
    (t.calls = s.calls ∨ t.calls = s.calls ++ [Sys.accept s.server_fd]) ∧
    ((t.pollfds 1).revents &&& POLLERR = 0 → (t.pollfds 1).revents &&& POLLIN ≠ 0 →
      w.siginfo_ret = SIGINFO_SIZE →
      iteration s w = Outcome.exited 0 w.ssi_signo (drain (siginfo_read t)) ∧
      (∀ rest, run s (w :: rest) = Outcome.exited 0 w.ssi_signo (drain (siginfo_read t))) ∧
      (drain (siginfo_read t)).connections = t.connections ∧
      (drain (siginfo_read t)).calls =
        t.calls ++ [Sys.read_siginfo t.signal_fd] ++
          [Sys.close t.signal_fd, Sys.close t.server_fd] ++
          (List.range MAX_CONNECTIONS).filterMap
            (fun i => (t.connections i).map (fun c => Sys.close c.fd))) ∧
    (∀ s1, iteration s w = Outcome.running s1 →
      (t.pollfds 1).revents &&& POLLIN = 0 ∧
      s1.calls = t.calls ++ ((List.range MAX_CONNECTIONS).map (slot_calls w t)).flatten) ∧
    List.range MAX_CONNECTIONS = [0, 1, 2, 3, 4, 5, 6, 7, 8, 9] := by
  refine ⟨accept_connection_calls (polled s w) t w ha, ?_, ?_, by decide⟩
  · intro herr hin hread
    have hit := iteration_signal s t w hp ha herr hin hread
    refine ⟨hit, ?_, rfl, ?_⟩
    · intro rest
      simp only [run, hit]
    · show t.calls ++ [Sys.read_siginfo t.signal_fd] ++
        [Sys.close t.signal_fd, Sys.close t.server_fd] ++
        destroy_all t.connections (List.range MAX_CONNECTIONS) = _
      rw [destroy_all_eq]
  · intro s1 hrun
    obtain ⟨_, s2, ha2, _, hin, hs⟩ := iteration_spec s s1 w hrun
    rw [ha] at ha2
    have e : t = s2 := Except.ok.inj ha2
    subst e
    exact ⟨hin, handle_slots_calls w (List.range MAX_CONNECTIONS) t s1 (List.nodup_range _) hs⟩

/-- Witness of C15: with one connection in slot 0, a wake that reports the
signal descriptor and slot 0 leaves the loop with the calls of the cleanup
only. -/
theorem fixed_iteration_order_witness :
    run (main_init 3 4) [wake_accept 5] = Outcome.running
      (installed (accept_called (polled (main_init 3 4) (wake_accept 5))) 5 0) ∧
    iteration (installed (accept_called (polled (main_init 3 4) (wake_accept 5))) 5 0)
      (wake_signal 15 0 POLLIN (ReadOutcome.data [97, LF]) (WriteOutcome.accepted 2))
      = Outcome.exited 0 15
        (drain (siginfo_read
          (polled (installed (accept_called (polled (main_init 3 4) (wake_accept 5))) 5 0)
            (wake_signal 15 0 POLLIN (ReadOutcome.data [97, LF])
              (WriteOutcome.accepted 2))))) ∧
    (drain (siginfo_read
      (polled (installed (accept_called (polled (main_init 3 4) (wake_accept 5))) 5 0)
        (wake_signal 15 0 POLLIN (ReadOutcome.data [97, LF])
          (WriteOutcome.accepted 2))))).calls =
      [Sys.accept 3, Sys.read_siginfo 4, Sys.close 4, Sys.close 3, Sys.close 5] :=
  ⟨rfl,
    ((fixed_iteration_order
      (installed (accept_called (polled (main_init 3 4) (wake_accept 5))) 5 0)
      (polled (installed (accept_called (polled (main_init 3 4) (wake_accept 5))) 5 0)
        (wake_signal 15 0 POLLIN (ReadOutcome.data [97, LF]) (WriteOutcome.accepted 2)))
      (wake_signal 15 0 POLLIN (ReadOutcome.data [97, LF]) (WriteOutcome.accepted 2))
      (by decide) rfl).2.1 (by decide) (by decide) rfl).1,
    by decide⟩

theorem countP_update_ge_gen (p : Option context → Bool) (f : Nat → Option context)
    (v : Option context) (i : Nat) :
    ∀ n, n ≤ i → (List.range n).countP (fun j => p (Function.update f i v j)) =
      (List.range n).countP (fun j => p (f j)) := by
  intro n
  induction n with
  | zero => intro _; rfl
  | succ m ih =>
    intro h
    rw [countP_range_succ, countP_range_succ, ih (by omega)]
    have hne : m ≠ i := by omega
    simp only [Function.update_noteq hne]

theorem countP_update_lt_gen (p : Option context → Bool) (f : Nat → Option context)
    (v : Option context) (i : Nat) :
    ∀ n, i < n →
      (List.range n).countP (fun j => p (Function.update f i v j)) +
          (if p (f i) then 1 else 0) =
        (List.range n).countP (fun j => p (f j)) + (if p v then 1 else 0) := by
  intro n
  induction n with
  | zero => intro h; omega
  | succ m ih =>
    intro h
    rw [countP_range_succ, countP_range_succ]
    by_cases hm : m = i
    · subst hm
      rw [countP_update_ge_gen p f v m m (Nat.le_refl m)]
      simp only [Function.update_same]
      omega
    · have := ih (by omega)
      simp only [Function.update_noteq hm]
      omega

/-- Change of the number of slots that hold `x` when slot `i` is overwritten. -/
theorem held_count_update (f : Nat → Option context) (v : Option context) (i : Nat) (x : Int)
    (hi : i < MAX_CONNECTIONS) :
    held_count (Function.update f i v) x +
        (if (f i).map context.fd = some x then 1 else 0) =
      held_count f x + (if v.map context.fd = some x then 1 else 0) := by
  have h := countP_update_lt_gen (fun o => decide (o.map context.fd = some x)) f v i
    MAX_CONNECTIONS hi
  simp only [decide_eq_true_eq] at h
  exact h

/-- A table whose slots are all occupied has `MAX_CONNECTIONS` connections. -/
theorem occupied_full (f : Nat → Option context)
    (h : ∀ i ∈ List.range MAX_CONNECTIONS, f i ≠ none) : occupied f = MAX_CONNECTIONS := by
  unfold occupied
  rw [List.countP_eq_length.mpr]
  · simp
  · intro i hi
    cases hc : f i with
    | none => exact absurd hc (h i hi)
    | some c => rfl

/-- No call of `handle_connection` closes a descriptor. -/
theorem handle_connection_no_close (c : context) (revents events_out : Nat) (cc : Int)
    (rd : ReadOutcome) (wr : WriteOutcome) (x : Int) :
    List.count (Sys.close x) (handle_connection c revents events_out cc rd wr).calls = 0 := by
  have hw : ∀ (ctx : context) (e : Nat) (k : Int) (l : List Sys),
      List.count (Sys.close x) l = 0 →
      List.count (Sys.close x) (case_WRITING ctx e k l wr).calls = 0 := by
    intro ctx e k l hl
    rw [case_WRITING_calls_general, List.count_append, hl]
    simp [List.count_cons]
  by_cases hup : revents &&& POLLHUP ≠ 0
  · unfold handle_connection
    rw [if_pos hup]
    rfl
  · have hup0 : revents &&& POLLHUP = 0 := not_not.mp hup
    cases hs : c.state with
    | DONE =>
      unfold handle_connection
      rw [if_neg hup]
      simp only [hs]
      rfl
    | WRITING =>
      rw [handle_connection_writing c revents events_out cc rd wr hs hup0]
      exact hw _ _ _ _ rfl
    | READING =>
      cases rd with
      | fail errno =>
        rw [handle_connection_read_fail c revents events_out cc errno wr hup0 hs]
        simp [List.count_cons]
      | data d =>
        cases hm : memchr (store c.buf c.bytes d) LF (size_add c.bytes d.length) with
        | none =>
          rw [handle_connection_reading_none c revents events_out cc d wr hs hup0 hm]
          simp [List.count_cons]
        | some e =>
          rw [handle_connection_reading_some c revents events_out cc d wr e hs hup0 hm]
          exact hw _ _ _ _ (by simp [List.count_cons])

theorem held_count_install (f : Nat → Option context) (c : context) (i : Nat) (x : Int)
    (hi : i < MAX_CONNECTIONS) (hfree : f i = none) :
    held_count (Function.update f i (some c)) x =
      held_count f x + (if c.fd = x then 1 else 0) := by
  have h := held_count_update f (some c) i x hi
  rw [hfree] at h
  simp only [Option.map_none', Option.map_some', Option.some.injEq] at h
  have hn : ¬ ((none : Option Int) = some x) := by simp
  rw [if_neg hn] at h
  omega

theorem held_count_replace (f : Nat → Option context) (c c1 : context) (i : Nat) (x : Int)
    (hi : i < MAX_CONNECTIONS) (hocc : f i = some c) (hfd : c1.fd = c.fd) :
    held_count (Function.update f i (some c1)) x = held_count f x := by
  have h := held_count_update f (some c1) i x hi
  rw [hocc] at h
  simp only [Option.map_some', Option.some.injEq, hfd] at h
  omega

theorem held_count_release (f : Nat → Option context) (c : context) (i : Nat) (x : Int)
    (hi : i < MAX_CONNECTIONS) (hocc : f i = some c) :
    held_count (Function.update f i none) x + (if c.fd = x then 1 else 0) =
      held_count f x := by
  have h := held_count_update f none i x hi
  rw [hocc] at h
  simp only [Option.map_none', Option.map_some', Option.some.injEq] at h
  have hn : ¬ ((none : Option Int) = some x) := by simp
  rw [if_neg hn] at h
  omega

theorem count_close_singleton (a x : Int) :
    List.count (Sys.close x) [Sys.close a] = if a = x then 1 else 0 := by
  by_cases h : a = x
  · rw [if_pos h, h]
    simp
  · rw [if_neg h]
    have hne : (Sys.close a == Sys.close x) = false := by simp [h]
    simp [List.count_cons, hne]

/-- The body of the slot loop keeps the balance of closed and held sockets. -/
theorem balance_handle_slot (w : Wake) (t t1 : Reactor) (i : Nat) (hi : i < MAX_CONNECTIONS)
    (h : handle_slot w t i = Except.ok t1) (x : Int) :
    List.count (Sys.close x) t1.calls + held_count t1.connections x =
      List.count (Sys.close x) t.calls + held_count t.connections x := by
  rcases handle_slot_spec w t t1 i h with ⟨h1, _⟩ | ⟨c, hc, _, _, _, hcase⟩
  · rw [h1]
  · have hfd := handle_connection_fd c (t.pollfds (i + FIRST_CONNECTION)).revents 0 0 (w.rd i)
      (w.wr i)
    have hnc := handle_connection_no_close c (t.pollfds (i + FIRST_CONNECTION)).revents 0 0
      (w.rd i) (w.wr i) x
    have hcalls : List.count (Sys.close x)
        (handled t i (handle_connection c (t.pollfds (i + FIRST_CONNECTION)).revents 0 0
          (w.rd i) (w.wr i))).calls = List.count (Sys.close x) t.calls := by
      show List.count (Sys.close x) (t.calls ++ _) = _
      rw [List.count_append, hnc, Nat.add_zero]
    have hheld : held_count
        (handled t i (handle_connection c (t.pollfds (i + FIRST_CONNECTION)).revents 0 0
          (w.rd i) (w.wr i))).connections x = held_count t.connections x :=
      held_count_replace t.connections c _ i x hi hc hfd
    rcases hcase with ⟨_, h1⟩ | ⟨_, h1⟩
    · rw [h1, hcalls, hheld]
    · obtain ⟨r1, _, _, _, _, r6, _⟩ := release_spec _ i _ t1 h1
      have hsome : (handled t i (handle_connection c (t.pollfds (i + FIRST_CONNECTION)).revents
          0 0 (w.rd i) (w.wr i))).connections i =
          some (handle_connection c (t.pollfds (i + FIRST_CONNECTION)).revents 0 0 (w.rd i)
            (w.wr i)).ctx := by
        show Function.update t.connections i _ i = _
        rw [Function.update_same]
      have hr := held_count_release _ _ i x hi hsome
      rw [hheld] at hr
      rw [r1, r6, List.count_append, hcalls, count_close_singleton]
      omega

theorem balance_handle_slots (w : Wake) (x : Int) :
    ∀ (l : List Nat) (t t1 : Reactor), (∀ i ∈ l, i < MAX_CONNECTIONS) →
      handle_slots w l t = Except.ok t1 →
      List.count (Sys.close x) t1.calls + held_count t1.connections x =
        List.count (Sys.close x) t.calls + held_count t.connections x := by
  intro l
  induction l with
  | nil =>
    intro t t1 _ h
    simp only [handle_slots, Except.ok.injEq] at h
    rw [← h]
  | cons i rest ih =>
    intro t t1 hl h
    simp only [handle_slots] at h
    cases hs : handle_slot w t i with
    | error e => rw [hs] at h; simp at h
    | ok t2 =>
      rw [hs] at h
      rw [ih t2 t1 (fun j hj => hl j (List.mem_cons_of_mem _ hj)) h,
        balance_handle_slot w t t2 i (hl i (List.mem_cons_self _ _)) hs x]

/-- The service of the listening socket keeps the balance: the socket it
accepts goes into a slot. -/
theorem balance_accept_connection (sfd : Int) (hsfd : 0 < sfd) (s t : Reactor) (w : Wake)
    (hinv : TableInv s) (hlis : ListenerInv sfd s) (hp : 0 ≤ w.poll_ret)
    (ha : accept_connection (polled s w) w = Except.ok t) (x : Int) :
    List.count (Sys.close x) t.calls + held_count t.connections x =
      List.count (Sys.close x) s.calls + held_count s.connections x +
        List.count x (accepted_socket s w) := by
  rcases accept_connection_spec (polled s w) t w ha with
    ⟨h1, hin⟩ | ⟨herr, hin, hacc, _, s2, hinst, hcase⟩
  · have hno : accepted_socket s w = [] := by
      unfold accepted_socket
      rw [if_neg]
      intro h
      exact h.2.2.1 hin
    rw [h1, hno]
    rfl
  · have hyes : accepted_socket s w = [w.accept_ret] := by
      unfold accepted_socket
      rw [if_pos ⟨hp, herr, hin, hacc⟩]
    have hnot : s.total_connections ≠ (MAX_CONNECTIONS : Int) := by
      intro hc
      apply hin
      rw [listener_quiet_at_capacity sfd hsfd s w hlis hc]
      exact Nat.zero_and _
    have h2 : List.count (Sys.close x) s2.calls + held_count s2.connections x =
        List.count (Sys.close x) s.calls + held_count s.connections x +
          List.count x [w.accept_ret] := by
      rcases install_spec _ _ _ _ _ hinst with ⟨_, hall⟩ | ⟨i, hi, hfree, _, e1, _⟩
      · exfalso
        apply hnot
        rw [hinv.1]
        have := occupied_full s.connections hall
        omega
      · rw [e1]
        show List.count (Sys.close x) (s.calls ++ [Sys.accept s.server_fd]) +
          held_count (Function.update s.connections i (some (create_connection w.accept_ret))) x
          = _
        rw [held_count_install s.connections _ i x (List.mem_range.mp hi) hfree,
          List.count_append]
        have ha0 : List.count (Sys.close x) [Sys.accept s.server_fd] = 0 := by
          simp [List.count_cons]
        have hx : List.count x [w.accept_ret] = if w.accept_ret = x then 1 else 0 := by
          by_cases h : w.accept_ret = x
          · rw [if_pos h, h]; simp
          · rw [if_neg h]
            have hne : (w.accept_ret == x) = false := by simp [h]
            simp [List.count_cons, hne]
        rw [ha0, hx]
        show _ + (held_count s.connections x + (if w.accept_ret = x then 1 else 0)) = _
        omega
    rw [hyes]
    rcases hcase with ⟨_, _, e2⟩ | ⟨_, e2⟩
    · rw [e2]; exact h2
    · rw [e2]; exact h2

/-- An iteration after which the loop goes on keeps the balance. -/
theorem balanced_iteration (sfd : Int) (hsfd : 0 < sfd) (s s1 : Reactor) (w : Wake)
    (acc : List Int) (hinv : TableInv s) (hlis : ListenerInv sfd s) (hb : Balanced s acc)
    (hi : iteration s w = Outcome.running s1) : Balanced s1 (acc ++ accepted_socket s w) := by
  obtain ⟨hp, t, ha, _, _, hs⟩ := iteration_spec s s1 w hi
  intro x
  rw [balance_handle_slots w x (List.range MAX_CONNECTIONS) t s1
      (fun i hi => List.mem_range.mp hi) hs,
    balance_accept_connection sfd hsfd s t w hinv hlis hp ha x, hb x, List.count_append]

/-- The balance holds along a run. -/
theorem balanced_run (sfd : Int) (hsfd : 0 < sfd) :
    ∀ (ws : List Wake) (s s1 : Reactor) (acc : List Int), TableInv s → ListenerInv sfd s →
      Balanced s acc → run s ws = Outcome.running s1 →
      Balanced s1 (acc ++ accepted_sockets s ws) := by
  intro ws
  induction ws with
  | nil =>
    intro s s1 acc _ _ hb hr
    simp only [run, Outcome.running.injEq] at hr
    rw [← hr]
    simp only [accepted_sockets, List.append_nil]
    exact hb
  | cons w rest ih =>
    intro s s1 acc hinv hlis hb hr
    simp only [run] at hr
    cases hi : iteration s w with
    | running s2 =>
      rw [hi] at hr
      have h2 := ih s2 s1 (acc ++ accepted_socket s w) (tableInv_iteration s s2 w hinv hi)
        (listenerInv_iteration sfd hsfd s s2 w hlis hi)
        (balanced_iteration sfd hsfd s s2 w acc hinv hlis hb hi) hr
      simp only [accepted_sockets, hi]
      rw [← List.append_assoc]
      exact h2
    | exited a b c => rw [hi] at hr; simp at hr
    | fatal e => rw [hi] at hr; simp at hr
    | aborted a => rw [hi] at hr; simp at hr

theorem balanced_main_init (sfd gfd : Int) : Balanced (main_init sfd gfd) [] := by
  intro x
  show List.count (Sys.close x) [] + held_count (fun _ => none) x = List.count x []
  unfold held_count
  simp

/-- The service of the listening socket leaves the signal descriptor and its
entry as they are. -/
theorem accept_connection_signal (s t : Reactor) (w : Wake)
    (h : accept_connection s w = Except.ok t) :
    t.signal_fd = s.signal_fd ∧ t.pollfds 1 = s.pollfds 1 := by
  have h0 : (1 : Nat) ≠ SERVER_FD := by decide
  rcases accept_connection_spec s t w h with ⟨h1, _⟩ | ⟨_, _, _, _, s2, hin, hcase⟩
  · rw [h1]; exact ⟨rfl, rfl⟩
  · have h2 : s2.signal_fd = s.signal_fd ∧ s2.pollfds 1 = s.pollfds 1 := by
      rcases install_spec _ _ _ _ _ hin with ⟨e1, _⟩ | ⟨i, _, _, _, e1, _⟩
      · rw [e1]; exact ⟨rfl, rfl⟩
      · rw [e1]
        have hne : (1 : Nat) ≠ FIRST_CONNECTION + i := by unfold FIRST_CONNECTION; omega
        refine ⟨rfl, ?_⟩
        unfold installed accept_called
        simp only [Function.update_noteq hne]
    rcases hcase with ⟨_, _, e2⟩ | ⟨_, e2⟩
    · rw [e2]
      refine ⟨h2.1, ?_⟩
      unfold listener_negated
      simp only [Function.update_noteq h0]
      exact h2.2
    · rw [e2]; exact h2

theorem handle_slot_signal_fd (w : Wake) (t t1 : Reactor) (i : Nat)
    (h : handle_slot w t i = Except.ok t1) : t1.signal_fd = t.signal_fd := by
  rcases handle_slot_spec w t t1 i h with ⟨h1, _⟩ | ⟨c, _, _, _, _, hcase⟩
  · rw [h1]
  · rcases hcase with ⟨_, h1⟩ | ⟨_, h1⟩
    · rw [h1]; rfl
    · obtain ⟨_, _, _, _, r5, _⟩ := release_spec _ i _ t1 h1
      rw [r5]; rfl

theorem handle_slots_signal_fd (w : Wake) :
    ∀ (l : List Nat) (t t1 : Reactor), handle_slots w l t = Except.ok t1 →
      t1.signal_fd = t.signal_fd := by
  intro l
  induction l with
  | nil =>
    intro t t1 h
    simp only [handle_slots, Except.ok.injEq] at h
    rw [← h]
  | cons i rest ih =>
    intro t t1 h
    simp only [handle_slots] at h
    cases hs : handle_slot w t i with
    | error e => rw [hs] at h; simp at h
    | ok t2 =>
      rw [hs] at h
      rw [ih t2 t1 h, handle_slot_signal_fd w t t2 i hs]

/-- The signal descriptor is the one `signalfd` returned, along a run. -/
theorem signal_fd_run (sfd gfd : Int) (ws : List Wake) (s : Reactor)
    (h : run (main_init sfd gfd) ws = Outcome.running s) : s.signal_fd = gfd :=
  run_invariant (fun r => r.signal_fd = gfd)
    (fun r r1 w hr hi => by
      obtain ⟨_, t, ha, _, _, hs⟩ := iteration_spec r r1 w hi
      rw [handle_slots_signal_fd w _ t r1 hs, (accept_connection_signal _ t w ha).1]
      exact hr)
    ws (main_init sfd gfd) s rfl h

/-- A run over two lists of wakes. -/
theorem run_append :
    ∀ (pre l : List Wake) (s s1 : Reactor), run s pre = Outcome.running s1 →
      run s (pre ++ l) = run s1 l := by
  intro pre
  induction pre with
  | nil =>
    intro l s s1 h
    simp only [run, Outcome.running.injEq] at h
    rw [h]
    rfl
  | cons w rest ih =>
    intro l s s1 h
    simp only [run] at h
    simp only [List.cons_append, run]
    cases hi : iteration s w with
    | running s2 =>
      rw [hi] at h
      exact ih l s2 s1 h
    | exited a b c => rw [hi] at h; simp at h
    | fatal e => rw [hi] at h; simp at h
    | aborted a => rw [hi] at h; simp at h

/-- The sockets accepted along a run over two lists of wakes. -/
theorem accepted_sockets_append :
    ∀ (pre l : List Wake) (s s1 : Reactor), run s pre = Outcome.running s1 →
      accepted_sockets s (pre ++ l) = accepted_sockets s pre ++ accepted_sockets s1 l := by
  intro pre
  induction pre with
  | nil =>
    intro l s s1 h
    simp only [run, Outcome.running.injEq] at h
    rw [h]
    rfl
  | cons w rest ih =>
    intro l s s1 h
    simp only [run] at h
    simp only [List.cons_append, accepted_sockets]
    cases hi : iteration s w with
    | running s2 =>
      rw [hi] at h
      have h2 := ih l s2 s1 h
      show accepted_socket s w ++ accepted_sockets s2 (rest ++ l) = _
      rw [h2, List.append_assoc]
    | exited a b c => rw [hi] at h; simp at h
    | fatal e => rw [hi] at h; simp at h
    | aborted a => rw [hi] at h; simp at h

/-- The closes of the cleanup answer the slots that hold a connection. -/
theorem count_close_slots (f : Nat → Option context) (x : Int) :
    ∀ l : List Nat,
      List.count (Sys.close x) (l.filterMap (fun i => (f i).map (fun c => Sys.close c.fd))) =
        l.countP (fun i => decide ((f i).map context.fd = some x)) := by
  intro l
  induction l with
  | nil => rfl
  | cons i rest ih =>
    cases hc : f i with
    | none =>
      simp only [List.filterMap_cons, hc, Option.map_none', List.countP_cons, ih]
      simp
    | some c =>
      simp only [List.filterMap_cons, hc, Option.map_some', List.countP_cons,
        Option.some.injEq, decide_eq_true_eq]
      by_cases hx : c.fd = x
      · rw [if_pos hx, hx, List.count_cons_self, ih]
      · rw [if_neg hx]
        have hne : (Sys.close c.fd == Sys.close x) = false := by simp [hx]
        simp only [List.count_cons, hne, ih]
        simp

/-- C11, amended. Deterministic drain: from every state the loop of `main`
reaches, with a positive listening descriptor, in a wake in which `poll` succeeds, the
service of the listening socket does not end the process, the signal
descriptor is reported readable without error and its read delivers a whole
record, the reactor reads one record and looks at no later wake; it closes the
signal descriptor and the listening socket by their original descriptors, then
closes once the socket of every slot that is still occupied and nothing else,
and `main` returns 0 with the signal number read.  In the record of the whole
run every accepted socket is closed exactly once, at its release or in the
cleanup: the closes of a descriptor are as many as the times it was accepted,
plus one for the signal descriptor and one for the listening socket. -/
theorem deterministic_drain (sfd gfd : Int) (hsfd : 0 < sfd) (ws : List Wake) (s t : Reactor)
    (w : Wake) (hrun : run (main_init sfd gfd) ws = Outcome.running s)
    (hp : 0 ≤ w.poll_ret) (ha : accept_connection (polled s w) w = Except.ok t)
    (herr : ((polled s w).pollfds SIGNAL_FD).revents &&& POLLERR = 0)
    (hin : ((polled s w).pollfds SIGNAL_FD).revents &&& POLLIN ≠ 0)
    (hread : w.siginfo_ret = SIGINFO_SIZE) :
    (∀ rest, run (main_init sfd gfd) (ws ++ w :: rest) =
      Outcome.exited 0 w.ssi_signo (drain (siginfo_read t))) ∧
    (t.calls = s.calls ∨ t.calls = s.calls ++ [Sys.accept sfd]) ∧
    (drain (siginfo_read t)).calls =
      t.calls ++ [Sys.read_siginfo gfd, Sys.close gfd, Sys.close sfd] ++
        (List.range MAX_CONNECTIONS).filterMap
          (fun i => (t.connections i).map (fun c => Sys.close c.fd)) ∧
    (∀ x : Int, List.count (Sys.close x) (drain (siginfo_read t)).calls =
      List.count x (accepted_sockets (main_init sfd gfd) ws ++ accepted_socket s w) +
        (if gfd = x then 1 else 0) + (if sfd = x then 1 else 0)) := by
  have hinv := tableInv_run sfd gfd ws s hrun
  have hlis := listenerInv_run sfd gfd hsfd ws s hrun
  have hsig := signal_fd_run sfd gfd ws s hrun
  obtain ⟨hts, htp⟩ := accept_connection_signal (polled s w) t w ha
  have htsig : t.signal_fd = gfd := by rw [hts]; exact hsig
  have htsrv : t.server_fd = sfd :=
    (listenerInv_accept_connection sfd hsfd s t w hlis ha).1
  have herr1 : (t.pollfds 1).revents &&& POLLERR = 0 := by rw [htp]; exact herr
  have hin1 : (t.pollfds 1).revents &&& POLLIN ≠ 0 := by rw [htp]; exact hin
  have hit := iteration_signal s t w hp ha herr1 hin1 hread
  have hcalls : (drain (siginfo_read t)).calls =
      t.calls ++ [Sys.read_siginfo gfd, Sys.close gfd, Sys.close sfd] ++
        (List.range MAX_CONNECTIONS).filterMap
          (fun i => (t.connections i).map (fun c => Sys.close c.fd)) := by
    show t.calls ++ [Sys.read_siginfo t.signal_fd] ++
      [Sys.close t.signal_fd, Sys.close t.server_fd] ++
      destroy_all t.connections (List.range MAX_CONNECTIONS) = _
    rw [destroy_all_eq, htsig, htsrv]
    simp only [List.append_assoc, List.cons_append, List.nil_append]
  refine ⟨?_, ?_, hcalls, ?_⟩
  · intro rest
    rw [run_append ws (w :: rest) (main_init sfd gfd) s hrun]
    simp only [run, hit]
  · have h := accept_connection_calls (polled s w) t w ha
    have hsrv : (polled s w).server_fd = sfd := hlis.1
    rw [hsrv] at h
    exact h
  · intro x
    have hbal := balanced_run sfd hsfd ws (main_init sfd gfd) s [] (tableInv_main_init sfd gfd)
      (listenerInv_main_init sfd gfd) (balanced_main_init sfd gfd) hrun
    have hs := hbal x
    have hacc := balance_accept_connection sfd hsfd s t w hinv hlis hp ha x
    rw [hcalls, List.count_append, List.count_append, count_close_slots]
    have hmid : List.count (Sys.close x) [Sys.read_siginfo gfd, Sys.close gfd, Sys.close sfd] =
        (if gfd = x then 1 else 0) + (if sfd = x then 1 else 0) := by
      have h0 : (Sys.read_siginfo gfd == Sys.close x) = false := by simp
      rw [List.count_cons, h0]
      have h3 : List.count (Sys.close x) [Sys.close gfd, Sys.close sfd] =
          List.count (Sys.close x) ([Sys.close gfd] ++ [Sys.close sfd]) := rfl
      rw [h3, List.count_append, count_close_singleton, count_close_singleton]
      simp
    rw [hmid, List.count_append]
    simp only [List.nil_append] at hs
    have hheld : held_count t.connections x =
        (List.range MAX_CONNECTIONS).countP
          (fun i => decide ((t.connections i).map context.fd = some x)) := rfl
    rw [← hheld]
    omega

/-- Witness of C11: with the socket 5 accepted and still open, the signal ends
the run with the closes of 4, 3 and 5. -/
theorem deterministic_drain_witness :
    run (main_init 3 4) [wake_accept 5] = Outcome.running
      (installed (accept_called (polled (main_init 3 4) (wake_accept 5))) 5 0) ∧
    run (main_init 3 4)
      ([wake_accept 5] ++
        wake_signal 15 0 0 (ReadOutcome.fail 0) (WriteOutcome.fail 0) :: [wake_accept 6])
      = Outcome.exited 0 15
        (drain (siginfo_read
          (polled (installed (accept_called (polled (main_init 3 4) (wake_accept 5))) 5 0)
            (wake_signal 15 0 0 (ReadOutcome.fail 0) (WriteOutcome.fail 0))))) ∧
    (drain (siginfo_read
      (polled (installed (accept_called (polled (main_init 3 4) (wake_accept 5))) 5 0)
        (wake_signal 15 0 0 (ReadOutcome.fail 0) (WriteOutcome.fail 0))))).calls =
      [Sys.accept 3, Sys.read_siginfo 4, Sys.close 4, Sys.close 3, Sys.close 5] :=
  ⟨rfl,
    (deterministic_drain 3 4 (by decide) [wake_accept 5]
      (installed (accept_called (polled (main_init 3 4) (wake_accept 5))) 5 0)
      (polled (installed (accept_called (polled (main_init 3 4) (wake_accept 5))) 5 0)
        (wake_signal 15 0 0 (ReadOutcome.fail 0) (WriteOutcome.fail 0)))
      (wake_signal 15 0 0 (ReadOutcome.fail 0) (WriteOutcome.fail 0))
      rfl (by decide) rfl (by decide) (by decide) rfl).1 [wake_accept 6],
    by decide⟩

/-- A call of `handle_connection` whose `read` or `write` was made and failed
returns -1, whatever the state on entry: the `read` of READING, the `write` of
WRITING, and the `write` reached in the same call after a `read` that completed
the line. -/
theorem handle_connection_io_failed (c : context) (revents events_out : Nat) (cc : Int)
    (rd : ReadOutcome) (wr : WriteOutcome) (errno : Nat)
    (hio : (rd = ReadOutcome.fail errno ∧
        ∃ o n, Sys.read c.fd o n ∈ (handle_connection c revents events_out cc rd wr).calls) ∨
      (wr = WriteOutcome.fail errno ∧
        ∃ o n d, Sys.write c.fd o n d ∈
          (handle_connection c revents events_out cc rd wr).calls)) :
    (handle_connection c revents events_out cc rd wr).ret = -1 := by
  by_cases hup : revents &&& POLLHUP ≠ 0
  · have hcalls : (handle_connection c revents events_out cc rd wr).calls = [] := by
      unfold handle_connection
      rw [if_pos hup]
    rw [hcalls] at hio
    simp at hio
  · have hup0 : revents &&& POLLHUP = 0 := not_not.mp hup
    cases hs : c.state with
    | READING =>
      cases rd with
      | fail e => rw [handle_connection_read_fail c revents events_out cc e wr hup0 hs]
      | data d =>
        cases hm : memchr (store c.buf c.bytes d) LF (size_add c.bytes d.length) with
        | none =>
          rw [handle_connection_reading_none c revents events_out cc d wr hs hup0 hm] at hio
          simp at hio
        | some e =>
          rcases hio with ⟨h, _⟩ | ⟨h, _⟩
          · simp at h
          · rw [handle_connection_reading_some c revents events_out cc d wr e hs hup0 hm, h]
            rfl
    | WRITING =>
      rw [handle_connection_writing c revents events_out cc rd wr hs hup0] at hio ⊢
      rcases hio with ⟨_, o, n, hmem⟩ | ⟨h, _⟩
      · rw [case_WRITING_calls_general] at hmem
        simp at hmem
      · rw [h]
        rfl
    | DONE =>
      have hcalls : (handle_connection c revents events_out cc rd wr).calls = [] := by
        unfold handle_connection
        simp only [hup0, ne_eq, not_true_eq_false, if_false, hs]
        rfl
      rw [hcalls] at hio
      simp at hio

/-- The `read` or `write` of a call was made and failed exactly in these cases:
no hangup is reported and either the connection is READING and its `read`
fails, or it is WRITING and its `write` fails, or it is READING, the `read`
completes the line and the `write` made in the same call fails. -/
theorem io_failed_iff (c : context) (revents events_out : Nat) (cc : Int)
    (rd : ReadOutcome) (wr : WriteOutcome) (errno : Nat) :
    ((rd = ReadOutcome.fail errno ∧
        ∃ o n, Sys.read c.fd o n ∈ (handle_connection c revents events_out cc rd wr).calls) ∨
      (wr = WriteOutcome.fail errno ∧
        ∃ o n d, Sys.write c.fd o n d ∈
          (handle_connection c revents events_out cc rd wr).calls)) ↔
    revents &&& POLLHUP = 0 ∧
      ((c.state = state.READING ∧ rd = ReadOutcome.fail errno) ∨
       (c.state = state.WRITING ∧ wr = WriteOutcome.fail errno) ∨
       (c.state = state.READING ∧ wr = WriteOutcome.fail errno ∧
         ∃ d, rd = ReadOutcome.data d ∧
           memchr (store c.buf c.bytes d) LF (size_add c.bytes d.length) ≠ none)) := by
  constructor
  · intro hio
    by_cases hup : revents &&& POLLHUP ≠ 0
    · have hcalls : (handle_connection c revents events_out cc rd wr).calls = [] := by
        unfold handle_connection
        rw [if_pos hup]
      rw [hcalls] at hio
      simp at hio
    · have hup0 : revents &&& POLLHUP = 0 := not_not.mp hup
      refine ⟨hup0, ?_⟩
      cases hs : c.state with
      | READING =>
        cases rd with
        | fail e =>
          rcases hio with ⟨h, _⟩ | ⟨h, o, n, d, hmem⟩
          · exact Or.inl ⟨rfl, h⟩
          · rw [handle_connection_read_fail c revents events_out cc e wr hup0 hs] at hmem
            simp at hmem
        | data d =>
          cases hm : memchr (store c.buf c.bytes d) LF (size_add c.bytes d.length) with
          | none =>
            rw [handle_connection_reading_none c revents events_out cc d wr hs hup0 hm] at hio
            simp at hio
          | some e =>
            rcases hio with ⟨h, _⟩ | ⟨h, _⟩
            · simp at h
            · exact Or.inr (Or.inr ⟨rfl, h, d, rfl, by rw [hm]; simp⟩)
      | WRITING =>
        rw [handle_connection_writing c revents events_out cc rd wr hs hup0] at hio
        rcases hio with ⟨_, o, n, hmem⟩ | ⟨h, _⟩
        · rw [case_WRITING_calls_general] at hmem
          simp at hmem
        · exact Or.inr (Or.inl ⟨rfl, h⟩)
      | DONE =>
        have hcalls : (handle_connection c revents events_out cc rd wr).calls = [] := by
          unfold handle_connection
          simp only [hup0, ne_eq, not_true_eq_false, if_false, hs]
          rfl
        rw [hcalls] at hio
        simp at hio
  · rintro ⟨hup0, h⟩
    rcases h with ⟨hs, h⟩ | ⟨hs, h⟩ | ⟨hs, h, d, hd, hm⟩
    · left
      refine ⟨h, c.bytes, size_sub (size_sub BUF_SIZE c.bytes) 1, ?_⟩
      rw [h, handle_connection_read_fail c revents events_out cc errno wr hup0 hs]
      simp
    · right
      refine ⟨h, c.bytes, size_sub (strlen c.buf) c.bytes,
        slice c.buf c.bytes (size_sub (strlen c.buf) c.bytes), ?_⟩
      rw [h, handle_connection_write_fail c revents events_out cc errno rd hup0 hs]
      simp
    · right
      cases hm1 : memchr (store c.buf c.bytes d) LF (size_add c.bytes d.length) with
      | none => exact absurd hm1 hm
      | some e =>
        refine ⟨h, 0, size_sub (strlen (store c.buf c.bytes d)) 0,
          slice (store c.buf c.bytes d) 0 (size_sub (strlen (store c.buf c.bytes d)) 0), ?_⟩
        rw [hd, handle_connection_reading_some c revents events_out cc d wr e hs hup0 hm1,
          case_WRITING_calls_general]
        simp

/-- An iteration whose `poll` succeeded, whose listening socket was serviced
and whose signal descriptor is reported neither in error nor readable ends as
its slot loop ends when that loop ends the process. -/
theorem iteration_slots_error (s t : Reactor) (w : Wake) (e : Stop) (hp : 0 ≤ w.poll_ret)
    (ha : accept_connection (polled s w) w = Except.ok t)
    (herr : (t.pollfds 1).revents &&& POLLERR = 0)
    (hin : (t.pollfds 1).revents &&& POLLIN = 0)
    (he : handle_slots w (List.range MAX_CONNECTIONS) t = Except.error e) :
    iteration s w = e.outcome := by
  unfold iteration
  rw [if_neg (by omega)]
  have ha1 : accept_connection { s with pollfds := poll s.pollfds w.ready } w = Except.ok t := ha
  simp only [ha1, herr, hin, he, ne_eq, not_true_eq_false, if_false]

/-- An iteration leaves the loop and `main` returns exactly when `poll`
succeeds, the service of the listening socket does not end the process, the
signal descriptor is reported readable without error and its read returns a
whole record; the status is then 0, the signal number the one read, and the
final state that of the cleanup. -/
theorem iteration_exited_iff (s : Reactor) (w : Wake) (status : Int) (signo : Nat)
    (r : Reactor) :
    iteration s w = Outcome.exited status signo r ↔
      0 ≤ w.poll_ret ∧ ∃ t, accept_connection (polled s w) w = Except.ok t ∧
        (t.pollfds 1).revents &&& POLLERR = 0 ∧ (t.pollfds 1).revents &&& POLLIN ≠ 0 ∧
        w.siginfo_ret = SIGINFO_SIZE ∧ status = 0 ∧ signo = w.ssi_signo ∧
        r = drain (siginfo_read t) := by
  constructor
  · intro h
    by_cases hp : w.poll_ret < 0
    · unfold iteration at h
      rw [if_pos hp] at h
      simp at h
    · have hp0 : 0 ≤ w.poll_ret := by omega
      refine ⟨hp0, ?_⟩
      cases ha : accept_connection (polled s w) w with
      | error e =>
        have ha1 : accept_connection { s with pollfds := poll s.pollfds w.ready } w =
            Except.error e := ha
        unfold iteration at h
        rw [if_neg hp] at h
        simp only [ha1] at h
        cases e with
        | fatal f => simp [Stop.outcome] at h
        | abort a => simp [Stop.outcome] at h
      | ok t =>
        refine ⟨t, rfl, ?_⟩
        by_cases herr : (t.pollfds 1).revents &&& POLLERR = 0
        · by_cases hin : (t.pollfds 1).revents &&& POLLIN = 0
          · cases hl : handle_slots w (List.range MAX_CONNECTIONS) t with
            | error e =>
              rw [iteration_slots_error s t w e hp0 ha herr hin hl] at h
              cases e with
              | fatal f => simp [Stop.outcome] at h
              | abort a => simp [Stop.outcome] at h
            | ok s3 =>
              have ha1 : accept_connection { s with pollfds := poll s.pollfds w.ready } w =
                  Except.ok t := ha
              unfold iteration at h
              rw [if_neg hp] at h
              simp only [ha1, herr, hin, hl, ne_eq, not_true_eq_false, if_false] at h
              simp at h
          · by_cases hread : w.siginfo_ret = SIGINFO_SIZE
            · rw [iteration_signal s t w hp0 ha herr hin hread] at h
              simp only [Outcome.exited.injEq] at h
              exact ⟨herr, hin, hread, h.1.symm, h.2.1.symm, h.2.2.symm⟩
            · have ha1 : accept_connection { s with pollfds := poll s.pollfds w.ready } w =
                  Except.ok t := ha
              unfold iteration at h
              rw [if_neg hp] at h
              simp only [ha1, herr, hin, hread, ne_eq, not_true_eq_false, not_false_eq_true,
                if_true, if_false] at h
              simp at h
        · have ha1 : accept_connection { s with pollfds := poll s.pollfds w.ready } w =
              Except.ok t := ha
          unfold iteration at h
          rw [if_neg hp] at h
          simp only [ha1, herr, ne_eq, not_false_eq_true, if_true] at h
          simp at h
  · rintro ⟨hp, t, ha, herr, hin, hread, h1, h2, h3⟩
    rw [h1, h2, h3]
    exact iteration_signal s t w hp ha herr hin hread

/-- The claim C11 fails as written: after one socket was accepted, a wake that
reports the signal descriptor readable, without error, together with the
listening socket, and in which `accept` fails, ends the process in
`handle_error("accept")` with exit status 1; the listening socket is serviced
before the signal descriptor is looked at, so no record is read and nothing is
closed.  When `accept` succeeds in the same wake the drain takes place. -/
theorem drain_counterexample :
    run (main_init 3 4) [wake_accept 5] = Outcome.running
      (installed (accept_called (polled (main_init 3 4) (wake_accept 5))) 5 0) ∧
    ((polled (installed (accept_called (polled (main_init 3 4) (wake_accept 5))) 5 0)
      (wake_signal_listener 15 (-1))).pollfds SIGNAL_FD).revents = POLLIN ∧
    accept_connection
      (polled (installed (accept_called (polled (main_init 3 4) (wake_accept 5))) 5 0)
        (wake_signal_listener 15 (-1)))
      (wake_signal_listener 15 (-1)) = Except.error (Stop.fatal Fatal.accept) ∧
    run (main_init 3 4) [wake_accept 5, wake_signal_listener 15 (-1)] =
      Outcome.fatal Fatal.accept ∧
    (∃ r, run (main_init 3 4) [wake_accept 5, wake_signal_listener 15 6] =
        Outcome.exited 0 15 r ∧
      r.calls = [Sys.accept 3, Sys.accept 3, Sys.read_siginfo 4, Sys.close 4, Sys.close 3,
        Sys.close 5, Sys.close 6]) :=
  ⟨rfl, rfl, rfl, rfl, _, rfl, by decide⟩

/-- C9, amended. A failure of the `read` or `write` of a connection is not
local.  Slot `i` holds the connection `c` and is reported with events and
without POLLERR, so that `handle_connection` is called for it; the `read` or
the `write` that this call makes for the socket of `c` fails, with whatever
`errno`: the `read` of READING, the `write` of WRITING, or the first `write`,
made in the same call as the `read` that completed the line.  Then
`handle_connection` returns -1, the body of the slot loop ends the process in
`handle_error("handle_connection")`, and so does every iteration that reaches
slot `i` in this state and every run of the loop through such an iteration,
whatever wakes would follow: the loop of `main` does not go on. -/
theorem io_failure_ends_process (t : Reactor) (w : Wake) (i : Nat) (c : context)
    (errno : Nat) (hc : t.connections i = some c)
    (hrev : (t.pollfds (i + FIRST_CONNECTION)).revents ≠ 0)
    (herr : (t.pollfds (i + FIRST_CONNECTION)).revents &&& POLLERR = 0)
    (hio : (w.rd i = ReadOutcome.fail errno ∧
        ∃ o n, Sys.read c.fd o n ∈
          (handle_connection c (t.pollfds (i + FIRST_CONNECTION)).revents 0 0 (w.rd i)
            (w.wr i)).calls) ∨
      (w.wr i = WriteOutcome.fail errno ∧
        ∃ o n d, Sys.write c.fd o n d ∈
          (handle_connection c (t.pollfds (i + FIRST_CONNECTION)).revents 0 0 (w.rd i)
            (w.wr i)).calls)) :
    (handle_connection c (t.pollfds (i + FIRST_CONNECTION)).revents 0 0 (w.rd i)
      (w.wr i)).ret = -1 ∧
    handle_slot w t i = Except.error (Stop.fatal Fatal.handle_connection) ∧
    (∀ (s t0 : Reactor) (pre rest : List Nat),
      List.range MAX_CONNECTIONS = pre ++ i :: rest → 0 ≤ w.poll_ret →
      accept_connection (polled s w) w = Except.ok t0 →
      (t0.pollfds 1).revents &&& POLLERR = 0 → (t0.pollfds 1).revents &&& POLLIN = 0 →
      handle_slots w pre t0 = Except.ok t →
      iteration s w = Outcome.fatal Fatal.handle_connection ∧
      ∀ (init : Reactor) (ws later : List Wake), run init ws = Outcome.running s →
        run init (ws ++ w :: later) = Outcome.fatal Fatal.handle_connection) := by
  have hret := handle_connection_io_failed c (t.pollfds (i + FIRST_CONNECTION)).revents 0 0
    (w.rd i) (w.wr i) errno hio
  have hslot : handle_slot w t i = Except.error (Stop.fatal Fatal.handle_connection) :=
    handle_slot_failed w t i c hc hrev herr (by rw [hret]; decide)
  refine ⟨hret, hslot, ?_⟩
  intro s t0 pre rest hl hp ha hserr hsin hpre
  have hloop : handle_slots w (List.range MAX_CONNECTIONS) t0 =
      Except.error (Stop.fatal Fatal.handle_connection) := by
    rw [hl, handle_slots_append, hpre]
    simp only [handle_slots, hslot]
  have hit : iteration s w = Outcome.fatal Fatal.handle_connection :=
    iteration_slots_error s t0 w _ hp ha hserr hsin hloop
  refine ⟨hit, ?_⟩
  intro init ws later hrun
  rw [run_append ws (w :: later) init s hrun]
  simp only [run, hit]

/-- Witness of C9: the connection of slot 0 is reading, its `read` brings "a"
and a linefeed, the `write` made in the same call fails with ECONNRESET, and
the run ends the process whatever wake would follow. -/
theorem io_failure_ends_process_witness :
    run (main_init 3 4) [wake_accept 5] = Outcome.running
      (installed (accept_called (polled (main_init 3 4) (wake_accept 5))) 5 0) ∧
    (handle_connection (create_connection 5) POLLIN 0 0 (ReadOutcome.data [97, LF])
      (WriteOutcome.fail ECONNRESET)).calls =
        [Sys.read 5 0 65535, Sys.write 5 0 2 [97, LF]] ∧
    run (main_init 3 4)
      ([wake_accept 5] ++
        wake_slot 0 POLLIN (ReadOutcome.data [97, LF]) (WriteOutcome.fail ECONNRESET) ::
          [wake_idle])
      = Outcome.fatal Fatal.handle_connection :=
  ⟨rfl, by decide,
    ((io_failure_ends_process
      (polled (installed (accept_called (polled (main_init 3 4) (wake_accept 5))) 5 0)
        (wake_slot 0 POLLIN (ReadOutcome.data [97, LF]) (WriteOutcome.fail ECONNRESET)))
      (wake_slot 0 POLLIN (ReadOutcome.data [97, LF]) (WriteOutcome.fail ECONNRESET)) 0
      (create_connection 5) ECONNRESET rfl (by decide) (by decide)
      (Or.inr ⟨rfl, 0, 2, [97, LF], by decide⟩)).2.2
      (installed (accept_called (polled (main_init 3 4) (wake_accept 5))) 5 0)
      (polled (installed (accept_called (polled (main_init 3 4) (wake_accept 5))) 5 0)
        (wake_slot 0 POLLIN (ReadOutcome.data [97, LF]) (WriteOutcome.fail ECONNRESET)))
      [] [1, 2, 3, 4, 5, 6, 7, 8, 9] (by decide) (by decide) rfl (by decide) (by decide)
      rfl).2 (main_init 3 4) [wake_accept 5] [wake_idle] rfl⟩

end Echo
